import Mathlib

/-!
Shallow embedding of the PCC compiler core (lexer, hash table, symbol table,
semantic analyzer, optimizer, JSON code generator) translated from the C
sources, together with theorems settling the specification claims.

Modelling conventions:
* C `double` literal values are modelled as exact rationals (`ℚ`); `fmod` and
  `pow` are modelled by `cFmod` and `cPow` below.
* Nullable C pointers become `Option`; fallible calls return a `PCCError`
  alongside their result.  Heap mutation is modelled by explicit state passing.
* Allocation failures (`malloc` returning NULL) are not modelled: every
  allocation is assumed to succeed, as the claims all concern the
  non-out-of-memory behaviour.
-/

namespace PCC

/-- Error codes (`PCCError` in common.h). -/
inductive PCCError where
  | SUCCESS
  | ERROR_MEMORY
  | ERROR_SYNTAX
  | ERROR_SEMANTIC
  | ERROR_IO
  | ERROR_RUNTIME
  | ERROR_UNKNOWN
  deriving DecidableEq, Repr

/-- Source positions (`PCCPosition` in common.h). -/
structure PCCPosition where
  line : Int
  column : Int
  filename : String
  deriving DecidableEq, Repr

/-- Token kinds (`TokenType` in lexer.h). -/
inductive TokenType where
  | TOKEN_PROMPT | TOKEN_VAR | TOKEN_TEMPLATE | TOKEN_CONSTRAINT | TOKEN_OUTPUT
  | TOKEN_IF | TOKEN_ELSE | TOKEN_FOR | TOKEN_WHILE | TOKEN_IN | TOKEN_AS
  | TOKEN_AND | TOKEN_OR | TOKEN_NOT | TOKEN_RAW | TOKEN_TRUE | TOKEN_FALSE
  | TOKEN_IDENTIFIER | TOKEN_STRING | TOKEN_NUMBER | TOKEN_BOOLEAN
  | TOKEN_EQ | TOKEN_NE | TOKEN_LT | TOKEN_GT | TOKEN_LE | TOKEN_GE
  | TOKEN_IN_OP | TOKEN_NOT_IN
  | TOKEN_ADD | TOKEN_SUB | TOKEN_MUL | TOKEN_DIV | TOKEN_MOD | TOKEN_POW
  | TOKEN_ASSIGN
  | TOKEN_LBRACE | TOKEN_RBRACE | TOKEN_LPAREN | TOKEN_RPAREN
  | TOKEN_LBRACKET | TOKEN_RBRACKET | TOKEN_COMMA | TOKEN_SEMICOLON
  | TOKEN_COLON | TOKEN_DOT
  | TOKEN_VARIABLE_REF | TOKEN_TEMPLATE_CALL
  | TOKEN_EOF | TOKEN_ERROR | TOKEN_UNKNOWN
  deriving DecidableEq, Repr

/-- Truncation towards zero of a rational number (the rounding used by C's
`fmod` when written as `a - trunc(a/b)*b`). -/
def ratTrunc (q : ℚ) : Int := Int.tdiv q.num (Int.ofNat q.den)

/-- Model of C `fmod` on exact rationals: remainder with the sign of the
dividend, `fmod(a,b) = a - trunc(a/b) * b`. -/
def cFmod (a b : ℚ) : ℚ := a - b * ((ratTrunc (a / b) : Int) : ℚ)

/-- Model of C `pow` on exact rationals.  Integer exponents are evaluated
exactly; a non-integer exponent has no exact rational value, and the model
returns 0 there (no claim depends on those values). -/
def cPow (a b : ℚ) : ℚ := if b.den = 1 then a ^ b.num else 0

/-- AST nodes (`ASTNode` together with its per-kind `data` payloads in ast.h).
Each constructor carries the kind-specific payload and the node position.
Pointer-valued payload fields that the parser may leave NULL are `Option`s;
fields the parser always fills (e.g. a binary expression's operands) are
plain subnodes. -/
inductive ASTNode where
  | program (statements : List ASTNode) (position : PCCPosition)
  | promptDef (name : String) (body : Option ASTNode) (position : PCCPosition)
  | varDecl (name : String) (initializer : Option ASTNode) (position : PCCPosition)
  | templateDef (name : String) (parameters : List String) (body : Option ASTNode)
      (position : PCCPosition)
  | constraintDef (name : String) (constraints : List ASTNode) (position : PCCPosition)
  | outputSpec (name : String) (format : Int) (position : PCCPosition)
  | identifier (name : String) (position : PCCPosition)
  | stringLiteral (value : String) (position : PCCPosition)
  | numberLiteral (value : ℚ) (position : PCCPosition)
  | booleanLiteral (value : Bool) (position : PCCPosition)
  | binaryExpr (op : TokenType) (left : ASTNode) (right : ASTNode) (position : PCCPosition)
  | unaryExpr (op : TokenType) (operand : ASTNode) (position : PCCPosition)
  | variableRef (name : String) (position : PCCPosition)
  | templateCall (name : String) (arguments : List ASTNode) (position : PCCPosition)
  | functionCall (name : String) (arguments : List ASTNode) (position : PCCPosition)
  | ifStmt (condition : ASTNode) (thenBody : Option ASTNode) (elseBody : Option ASTNode)
      (position : PCCPosition)
  | forStmt (varName : String) (iterable : ASTNode) (body : ASTNode) (position : PCCPosition)
  | whileStmt (condition : ASTNode) (body : ASTNode) (position : PCCPosition)
  | textElement (text : String) (isRaw : Bool) (position : PCCPosition)
  | constraintExpr (varName : String) (op : TokenType) (value : ASTNode)
      (position : PCCPosition)
  | statementList (elements : List ASTNode) (position : PCCPosition)
  | expressionList (elements : List ASTNode) (position : PCCPosition)
  | parameterList (elements : List ASTNode) (position : PCCPosition)
  | argumentList (elements : List ASTNode) (position : PCCPosition)
  | constraintList (elements : List ASTNode) (position : PCCPosition)
  | elementList (elements : List ASTNode) (position : PCCPosition)
  | empty (position : PCCPosition)

mutual

/-- Number of nodes of an AST (used only to supply sufficient recursion fuel
to the optimizer below). -/
def astSize : ASTNode → Nat
  | .program stmts _ => astSizeList stmts + 1
  | .promptDef _ b _ => astSizeOpt b + 1
  | .varDecl _ i _ => astSizeOpt i + 1
  | .templateDef _ _ b _ => astSizeOpt b + 1
  | .constraintDef _ cs _ => astSizeList cs + 1
  | .outputSpec _ _ _ => 1
  | .identifier _ _ => 1
  | .stringLiteral _ _ => 1
  | .numberLiteral _ _ => 1
  | .booleanLiteral _ _ => 1
  | .binaryExpr _ l r _ => astSize l + astSize r + 1
  | .unaryExpr _ o _ => astSize o + 1
  | .variableRef _ _ => 1
  | .templateCall _ args _ => astSizeList args + 1
  | .functionCall _ args _ => astSizeList args + 1
  | .ifStmt c t e _ => astSize c + astSizeOpt t + astSizeOpt e + 1
  | .forStmt _ i b _ => astSize i + astSize b + 1
  | .whileStmt c b _ => astSize c + astSize b + 1
  | .textElement _ _ _ => 1
  | .constraintExpr _ _ v _ => astSize v + 1
  | .statementList es _ => astSizeList es + 1
  | .expressionList es _ => astSizeList es + 1
  | .parameterList es _ => astSizeList es + 1
  | .argumentList es _ => astSizeList es + 1
  | .constraintList es _ => astSizeList es + 1
  | .elementList es _ => astSizeList es + 1
  | .empty _ => 1

/-- Total size of a list of AST nodes. -/
def astSizeList : List ASTNode → Nat
  | [] => 0
  | x :: xs => astSize x + astSizeList xs

/-- Size of an optional AST node. -/
def astSizeOpt : Option ASTNode → Nat
  | none => 0
  | some x => astSize x

end

/-- Optimization pass identifiers (`OptimizationPass` in optimizer.h). -/
inductive OptimizationPass where
  | OPT_CONSTANT_FOLDING
  | OPT_DEAD_CODE_ELIMINATION
  | OPT_UNUSED_REMOVAL
  | OPT_INLINE_TEMPLATES
  | OPT_ALL
  deriving DecidableEq, Repr

/-- The numeric value of an `OptimizationPass` enum constant. -/
def OptimizationPass.toNat : OptimizationPass → Nat
  | .OPT_CONSTANT_FOLDING => 0
  | .OPT_DEAD_CODE_ELIMINATION => 1
  | .OPT_UNUSED_REMOVAL => 2
  | .OPT_INLINE_TEMPLATES => 3
  | .OPT_ALL => 4

/-- `enabled_passes & (1 << pass)` as a Boolean test. -/
def passEnabled (passes : Nat) (p : OptimizationPass) : Bool :=
  passes &&& (2 ^ p.toNat) ≠ 0

/-- Optimizer state (`Optimizer` in optimizer.h). -/
structure Optimizer where
  enabled_passes : Nat
  optimizations_applied : Int
  deriving DecidableEq, Repr

/-- `is_constant`: whether a (possibly NULL) node is a literal. -/
def is_constant : Option ASTNode → Bool
  | some (.numberLiteral _ _) => true
  | some (.booleanLiteral _ _) => true
  | some (.stringLiteral _ _) => true
  | _ => false

/-- Whether a node is a number literal (the `type == AST_NUMBER_LITERAL` tests). -/
def isNumberLit : ASTNode → Bool
  | .numberLiteral _ _ => true
  | _ => false

/-- Whether a node is a boolean literal. -/
def isBoolLit : ASTNode → Bool
  | .booleanLiteral _ _ => true
  | _ => false

/-- `get_numeric_value`: the numeric payload of a number literal, else 0. -/
def get_numeric_value : ASTNode → ℚ
  | .numberLiteral v _ => v
  | _ => 0

/-- `get_boolean_value`: the boolean payload of a boolean literal, else false. -/
def get_boolean_value : ASTNode → Bool
  | .booleanLiteral v _ => v
  | _ => false

/-- The operator switch of `constant_folding_binary`: `some result` when the
operation folds (`can_fold`), `none` otherwise (unknown operator, or division
or modulo by exactly zero). -/
def fold_binary_op (op : TokenType) (l r : ℚ) : Option ℚ :=
  match op with
  | .TOKEN_ADD => some (l + r)
  | .TOKEN_SUB => some (l - r)
  | .TOKEN_MUL => some (l * r)
  | .TOKEN_DIV => if r = 0 then none else some (l / r)
  | .TOKEN_MOD => if r = 0 then none else some (cFmod l r)
  | .TOKEN_POW => some (cPow l r)
  | _ => none

mutual

/-- `optimize_node` of optimizer.c: one dispatch over the node kind, with the
bodies of `constant_folding_binary`, `constant_folding_unary`,
`dead_code_elimination_if`, `optimize_program` and `optimize_list` inlined at
their dispatch sites.  The counter `c` is `optimizer->optimizations_applied`;
the result node is `none` when the C code returns NULL (an eliminated `IF`).
Every recursive call decrements the explicit fuel, which only bounds the
recursion depth; `optimizer_optimize` supplies more fuel than any execution
can consume, so the 0-fuel branch is unreachable.  Where the C code would
store a NULL child returned by a recursive call into a non-nullable slot
(leaving a dangling tree), the model keeps the original child; those paths
are unreachable for parser-produced trees. -/
def optimize_node (passes : Nat) : Nat → Int → ASTNode → Int × Option ASTNode
  | 0, c, n => (c, some n)
  | f + 1, c, n =>
    match n with
    | .program stmts pos =>
        /- optimize_program: optimize each statement; pcc_array_set rejects a
           NULL replacement, so a slot whose element was eliminated keeps its
           old entry. -/
        let (c1, stmts1) := optimize_list_items passes f c stmts
        (c1, some (.program stmts1 pos))
    | .binaryExpr op l r pos =>
        /- constant_folding_binary -/
        let (c1, l1) := optimizer_optimize_aux passes f c l
        let (c2, r1) := optimizer_optimize_aux passes f c1 r
        let l2 := l1.getD l
        let r2 := r1.getD r
        if is_constant l1 && is_constant r1 then
          if isNumberLit l2 && isNumberLit r2 then
            match fold_binary_op op (get_numeric_value l2) (get_numeric_value r2) with
            | some result => (c2 + 1, some (.numberLiteral result pos))
            | none => (c2, some (.binaryExpr op l2 r2 pos))
          else (c2, some (.binaryExpr op l2 r2 pos))
        else (c2, some (.binaryExpr op l2 r2 pos))
    | .unaryExpr op o pos =>
        /- constant_folding_unary -/
        let (c1, o1) := optimizer_optimize_aux passes f c o
        let o2 := o1.getD o
        if is_constant o1 then
          if op = .TOKEN_SUB ∧ isNumberLit o2 then
            (c1 + 1, some (.numberLiteral (-(get_numeric_value o2)) pos))
          else if op = .TOKEN_NOT ∧ isBoolLit o2 then
            (c1 + 1, some (.booleanLiteral (!(get_boolean_value o2)) pos))
          else (c1, some (.unaryExpr op o2 pos))
        else (c1, some (.unaryExpr op o2 pos))
    | .ifStmt cond thenB elseB pos =>
        /- dead_code_elimination_if -/
        let (c1, cond1) := optimizer_optimize_aux passes f c cond
        let cond2 := cond1.getD cond
        match cond2 with
        | .booleanLiteral bv bp =>
            if bv then
              match thenB with
              | some tb => (c1 + 1, some tb)
              | none =>
                  /- then body NULL: fall through to branch optimization -/
                  let (c2, elseB1) := optimize_opt_body passes f c1 elseB
                  (c2, some (.ifStmt (.booleanLiteral bv bp) none elseB1 pos))
            else
              match elseB with
              | some eb => (c1 + 1, some eb)
              | none => (c1 + 1, none)
        | condOther =>
            let (c2, thenB1) := optimize_opt_body passes f c1 thenB
            let (c3, elseB1) := optimize_opt_body passes f c2 elseB
            (c3, some (.ifStmt condOther thenB1 elseB1 pos))
    | .statementList es pos =>
        let (c1, es1) := optimize_list_items passes f c es
        (c1, some (.statementList es1 pos))
    | .expressionList es pos =>
        let (c1, es1) := optimize_list_items passes f c es
        (c1, some (.expressionList es1 pos))
    | .elementList es pos =>
        let (c1, es1) := optimize_list_items passes f c es
        (c1, some (.elementList es1 pos))
    | .argumentList es pos =>
        let (c1, es1) := optimize_list_items passes f c es
        (c1, some (.argumentList es1 pos))
    | .constraintList es pos =>
        let (c1, es1) := optimize_list_items passes f c es
        (c1, some (.constraintList es1 pos))
    | other =>
        /- PROMPT_DEF, VAR_DECL, TEMPLATE_DEF, CONSTRAINT_DEF, OUTPUT_SPEC,
           FOR_STMT, WHILE_STMT and all remaining kinds are returned as-is. -/
        (c, some other)

/-- The per-slot loops of `optimize_program` / `optimize_list`: each element is
optimized with `optimizer_optimize`; a NULL result cannot be stored by
`pcc_array_set`, so the slot keeps its previous element. -/
def optimize_list_items (passes : Nat) : Nat → Int → List ASTNode → Int × List ASTNode
  | 0, c, items => (c, items)
  | _ + 1, c, [] => (c, [])
  | f + 1, c, x :: xs =>
      let (c1, x1) := optimizer_optimize_aux passes f c x
      let (c2, xs1) := optimize_list_items passes f c1 xs
      (c2, x1.getD x :: xs1)

/-- Optimization of an optional (possibly NULL) body slot, as in
`stmt->then_body = optimizer_optimize(optimizer, stmt->then_body)`. -/
def optimize_opt_body (passes : Nat) : Nat → Int → Option ASTNode → Int × Option ASTNode
  | 0, c, b => (c, b)
  | _ + 1, c, none => (c, none)
  | f + 1, c, some x => optimizer_optimize_aux passes f c x

/-- `optimizer_optimize` of optimizer.c, on a non-NULL node: applies
`optimize_node` once for the constant-folding slot when `OPT_CONSTANT_FOLDING`
or `OPT_ALL` is enabled, then once more for the dead-code-elimination slot
when `OPT_DEAD_CODE_ELIMINATION` or `OPT_ALL` is enabled. -/
def optimizer_optimize_aux (passes : Nat) : Nat → Int → ASTNode → Int × Option ASTNode
  | 0, c, n => (c, some n)
  | f + 1, c, n =>
      let (c1, n1) :=
        if passEnabled passes .OPT_CONSTANT_FOLDING
            || passEnabled passes .OPT_ALL then
          optimize_node passes f c n
        else (c, some n)
      if passEnabled passes .OPT_DEAD_CODE_ELIMINATION
          || passEnabled passes .OPT_ALL then
        match n1 with
        | some m => optimize_node passes f c1 m
        | none => (c1, none)
      else (c1, n1)

end

/-- `optimizer_optimize` at the public interface: NULL propagates, and the
counter lives in the optimizer state.  The fuel `astSize n * 8 + 8` exceeds
the length of any chain of nested recursive calls on `n` (each tree level
contributes a bounded number of nested frames per pass application), so the
0-fuel fallbacks are never taken. -/
def optimizer_optimize (opt : Optimizer) (node : Option ASTNode) :
    Optimizer × Option ASTNode :=
  match node with
  | none => (opt, none)
  | some n =>
      let (c, n1) :=
        optimizer_optimize_aux opt.enabled_passes (astSize n * 8 + 8)
          opt.optimizations_applied n
      ({ opt with optimizations_applied := c }, n1)

/-- `optimizer_create`. -/
def optimizer_create (enabled_passes : Nat) : Optimizer :=
  { enabled_passes := enabled_passes, optimizations_applied := 0 }


/-- Evaluation of the operators the claim describes as always-foldable,
following the spec's words (exact arithmetic; `^` via the `cPow` model). -/
def specBinEval (op : TokenType) (a b : ℚ) : ℚ :=
  match op with
  | .TOKEN_ADD => a + b
  | .TOKEN_SUB => a - b
  | .TOKEN_MUL => a * b
  | .TOKEN_POW => cPow a b
  | _ => 0

/-- DJB2 hash (`pcc_default_hash` in hashtable.c), with 64-bit `size_t`
wraparound: `hash = hash * 33 + c` over the bytes of the key, seeded 5381. -/
def pcc_default_hash (key : String) : Nat :=
  key.toList.foldl (fun h c => (h * 33 + c.toNat) % 2 ^ 64) 5381

/-- `INITIAL_CAPACITY` of common.h. -/
def INITIAL_CAPACITY : Nat := 16

/-- Separate-chaining hash table (`PCCHashTable` in hashtable.h).  A bucket is
its chain, in linked-list order from the bucket head. -/
structure PCCHashTable (α : Type) where
  buckets : List (List (String × α))
  size : Nat
  capacity : Nat
  deriving Repr

/-- `pcc_hashtable_create` (tables in this codebase always use the default
hash function). -/
def pcc_hashtable_create (α : Type) (initial_capacity : Nat) : PCCHashTable α :=
  let cap := if initial_capacity = 0 then INITIAL_CAPACITY else initial_capacity
  { buckets := List.replicate cap [], size := 0, capacity := cap }

/-- Chain scan by `strcmp` (the lookup loops of `pcc_hashtable_get` /
`pcc_hashtable_put` / `pcc_hashtable_remove`). -/
def chainFind (key : String) : List (String × α) → Option α
  | [] => none
  | e :: es => if e.1 = key then some e.2 else chainFind key es

/-- In-place update of the value of the first chain entry carrying `key`
(the `entry->value = value` branch of `pcc_hashtable_put`). -/
def chainReplace (key : String) (value : α) : List (String × α) → List (String × α)
  | [] => []
  | e :: es => if e.1 = key then (e.1, value) :: es else e :: chainReplace key value es

/-- `pcc_hashtable_resize`: refuses a capacity below the current size with
`PCC_ERROR_RUNTIME`, leaving the table unchanged; otherwise rehashes every
entry, scanning buckets in order and prepending each entry to its new
bucket. -/
def pcc_hashtable_resize (t : PCCHashTable α) (new_capacity : Nat) :
    PCCHashTable α × PCCError :=
  if new_capacity < t.size then (t, .ERROR_RUNTIME)
  else
    ({ buckets :=
        t.buckets.flatten.foldl
          (fun bs e =>
            bs.set (pcc_default_hash e.1 % new_capacity)
              (e :: bs.getD (pcc_default_hash e.1 % new_capacity) []))
          (List.replicate new_capacity [])
       size := t.size
       capacity := new_capacity }, .SUCCESS)

/-- The body of `pcc_hashtable_put` after its resize guard: either updates the
value of an existing entry with the same key in place, or appends a new entry
at the tail of its bucket's chain and increments `size`. -/
def pcc_hashtable_put_core (t1 : PCCHashTable α) (key : String) (value : α) :
    PCCHashTable α × PCCError :=
  let index := pcc_default_hash key % t1.capacity
  let bucket := t1.buckets.getD index []
  if (chainFind key bucket).isSome then
    ({ t1 with buckets := t1.buckets.set index (chainReplace key value bucket) },
      .SUCCESS)
  else
    ({ t1 with
        buckets := t1.buckets.set index (bucket ++ [(key, value)]),
        size := t1.size + 1 },
      .SUCCESS)

/-- `pcc_hashtable_put`: grows the table at load factor above 3/4 — and when
that resize refuses (doubling the capacity would still not reach the current
size), propagates its error and returns without inserting — then inserts or
updates. -/
def pcc_hashtable_put (t : PCCHashTable α) (key : String) (value : α) :
    PCCHashTable α × PCCError :=
  if t.size > t.capacity * 3 / 4 then
    let r := pcc_hashtable_resize t (t.capacity * 2)
    if r.2 = .SUCCESS then pcc_hashtable_put_core r.1 key value
    else (t, r.2)
  else pcc_hashtable_put_core t key value

/-- `pcc_hashtable_get`. -/
def pcc_hashtable_get (t : PCCHashTable α) (key : String) : Option α :=
  chainFind key (t.buckets.getD (pcc_default_hash key % t.capacity) [])

/-- `pcc_hashtable_contains`. -/
def pcc_hashtable_contains (t : PCCHashTable α) (key : String) : Bool :=
  (pcc_hashtable_get t key).isSome

/-- All entries of the table, bucket by bucket. -/
def tableEntries (t : PCCHashTable α) : List (String × α) :=
  t.buckets.flatten

/-- Well-formedness of a hash table, as maintained by its operations:
`capacity` counts the buckets and is positive, `size` counts the entries,
keys are globally unique, and every entry sits in the bucket its hash selects. -/
structure HashTableWF (t : PCCHashTable α) : Prop where
  cap_buckets : t.buckets.length = t.capacity
  cap_pos : 0 < t.capacity
  size_eq : t.size = (tableEntries t).length
  keys_nodup : ((tableEntries t).map Prod.fst).Nodup
  placed : ∀ i, ∀ e ∈ t.buckets.getD i [], pcc_default_hash e.1 % t.capacity = i

/-- Symbol kinds (`SymbolType` in symbol_table.h). -/
inductive SymbolType where
  | SYMBOL_VARIABLE
  | SYMBOL_TEMPLATE
  | SYMBOL_PROMPT
  | SYMBOL_CONSTRAINT
  | SYMBOL_PARAMETER
  | SYMBOL_UNKNOWN
  deriving DecidableEq, Repr

/-- `Symbol` of symbol_table.h; `data` is the associated AST node, when any. -/
structure Symbol where
  name : String
  type : SymbolType
  data : Option ASTNode
  is_defined : Bool
  is_used : Bool
  position : PCCPosition

/-- `symbol_create`: a fresh symbol is defined and not yet used. -/
def symbol_create (name : String) (type : SymbolType) (data : Option ASTNode)
    (position : PCCPosition) : Symbol :=
  { name := name, type := type, data := data, is_defined := true,
    is_used := false, position := position }

/-- `Scope` of symbol_table.h.  The parent pointer is represented by the
scope's position in the symbol table's chain below. -/
structure Scope where
  symbols : PCCHashTable Symbol
  scope_level : Int

/-- `scope_create` (every scope's map is created with the default hash). -/
def scope_create (level : Int) : Scope :=
  { symbols := pcc_hashtable_create Symbol INITIAL_CAPACITY, scope_level := level }

/-- `SemanticError` of symbol_table.h. -/
structure SemanticError where
  message : String
  position : PCCPosition
  error_code : Int
  deriving DecidableEq, Repr

/-- `SEM_ERROR_UNDEFINED_SYMBOL`. -/
def SEM_ERROR_UNDEFINED_SYMBOL : Int := 1

/-- `SEM_ERROR_REDEFINED_SYMBOL`. -/
def SEM_ERROR_REDEFINED_SYMBOL : Int := 2

/-- `SEM_ERROR_TYPE_MISMATCH`. -/
def SEM_ERROR_TYPE_MISMATCH : Int := 3

/-- `SymbolTable` of symbol_table.h: the current scope plus the chain of its
enclosing scopes (each scope's parent is the next list entry), whose last
element is the global scope.  The `all_scopes` registry only drives teardown
and is not modelled.  Errors accumulate in order of report. -/
structure SymbolTable where
  current_scope : Scope
  outer_scopes : List Scope
  errors : List SemanticError

/-- `symbol_table_create`: the global scope, level 0, no parent. -/
def symbol_table_create : SymbolTable :=
  { current_scope := scope_create 0, outer_scopes := [], errors := [] }

/-- `symbol_table_enter_scope`: pushes a scope whose parent is the current
scope and whose level is the parent level plus one. -/
def symbol_table_enter_scope (t : SymbolTable) : SymbolTable × PCCError :=
  ({ current_scope := scope_create (t.current_scope.scope_level + 1),
     outer_scopes := t.current_scope :: t.outer_scopes,
     errors := t.errors }, .SUCCESS)

/-- `symbol_table_exit_scope`: pops to the parent; on the global scope (no
parent) it fails with `PCC_ERROR_RUNTIME` and leaves the table unchanged. -/
def symbol_table_exit_scope (t : SymbolTable) : SymbolTable × PCCError :=
  match t.outer_scopes with
  | [] => (t, .ERROR_RUNTIME)
  | p :: rest =>
      ({ current_scope := p, outer_scopes := rest, errors := t.errors }, .SUCCESS)

/-- `symbol_table_add_error` (the C also returns a status, always success in
the non-out-of-memory model). -/
def symbol_table_add_error (t : SymbolTable) (message : String)
    (position : PCCPosition) (error_code : Int) : SymbolTable :=
  { t with errors := t.errors ++
      [{ message := message, position := position, error_code := error_code }] }

/-- `symbol_table_add`: rejects (recording one redefinition error, inserting
nothing) when the name already exists in the current scope; otherwise inserts
into the current scope only, surfacing the put's status (which on a refused
resize is `PCC_ERROR_RUNTIME`, the map then left unchanged). -/
def symbol_table_add (t : SymbolTable) (symbol : Symbol) : SymbolTable × PCCError :=
  if pcc_hashtable_contains t.current_scope.symbols symbol.name then
    (symbol_table_add_error t
      ("Symbol \x27" ++ symbol.name ++ "\x27 already defined in this scope")
      symbol.position SEM_ERROR_REDEFINED_SYMBOL, .ERROR_SEMANTIC)
  else
    ({ t with current_scope := { t.current_scope with
        symbols := (pcc_hashtable_put t.current_scope.symbols
          symbol.name symbol).1 } },
      (pcc_hashtable_put t.current_scope.symbols symbol.name symbol).2)

/-- The scope-walk loop of `symbol_table_lookup`. -/
def scope_chain_lookup (name : String) : List Scope → Option Symbol
  | [] => none
  | s :: rest =>
      match pcc_hashtable_get s.symbols name with
      | some sym => some sym
      | none => scope_chain_lookup name rest

/-- `symbol_table_lookup`: current scope, then its parents, outwards. -/
def symbol_table_lookup (t : SymbolTable) (name : String) : Option Symbol :=
  scope_chain_lookup name (t.current_scope :: t.outer_scopes)

/-- `symbol_table_lookup_local`: the current scope only. -/
def symbol_table_lookup_local (t : SymbolTable) (name : String) : Option Symbol :=
  pcc_hashtable_get t.current_scope.symbols name

/-- `symbol_table_contains`. -/
def symbol_table_contains (t : SymbolTable) (name : String) : Bool :=
  (symbol_table_lookup t name).isSome

/-- Models the in-place `symbol->is_used = 1` mutation performed through the
pointer returned by lookup: the matching entries of the map have their stored
symbol's flag set, with no structural change to the table. -/
def pcc_hashtable_mark_value_used (t : PCCHashTable Symbol) (key : String) :
    PCCHashTable Symbol :=
  { t with buckets := t.buckets.map (fun b => b.map (fun e =>
      if e.1 = key then (e.1, { e.2 with is_used := true }) else e)) }

/-- The first scope of the chain holding `name` gets its symbol marked used. -/
def scope_chain_mark_used (name : String) : List Scope → List Scope
  | [] => []
  | s :: rest =>
      if pcc_hashtable_contains s.symbols name then
        { s with symbols := pcc_hashtable_mark_value_used s.symbols name } :: rest
      else s :: scope_chain_mark_used name rest

/-- `symbol_table_mark_used`: full-chain lookup; records one undefined-symbol
error at the fixed `<unknown>` position when the name is absent, otherwise
marks the found symbol used. -/
def symbol_table_mark_used (t : SymbolTable) (name : String) :
    SymbolTable × PCCError :=
  match symbol_table_lookup t name with
  | none =>
      (symbol_table_add_error t ("Undefined symbol \x27" ++ name ++ "\x27")
        { line := 0, column := 0, filename := "<unknown>" }
        SEM_ERROR_UNDEFINED_SYMBOL, .ERROR_SEMANTIC)
  | some _ =>
      match scope_chain_mark_used name (t.current_scope :: t.outer_scopes) with
      | [] => (t, .SUCCESS)
      | c :: rest =>
          ({ current_scope := c, outer_scopes := rest, errors := t.errors },
            .SUCCESS)

/-- `symbol_table_error_count`. -/
def symbol_table_error_count (t : SymbolTable) : Nat :=
  t.errors.length

/-- Shape of a well-formed scope chain, current scope first: the chain is
nonempty, ends at the global scope of level 0, and every non-global scope's
level exceeds its parent's by one. -/
def goodChain : List Scope → Prop
  | [] => False
  | [g] => g.scope_level = 0
  | s :: p :: rest => s.scope_level = p.scope_level + 1 ∧ goodChain (p :: rest)

/-- The level of the chain's first scope (0 for the empty chain). -/
def headLevel : List Scope → Int
  | [] => 0
  | s :: _ => s.scope_level

/-- Symbol-table states reachable through the module's operations. -/
inductive SymbolTableReachable : SymbolTable → Prop where
  | create : SymbolTableReachable symbol_table_create
  | enter {t : SymbolTable} : SymbolTableReachable t →
      SymbolTableReachable (symbol_table_enter_scope t).1
  | leave {t : SymbolTable} : SymbolTableReachable t →
      SymbolTableReachable (symbol_table_exit_scope t).1
  | add {t : SymbolTable} (s : Symbol) : SymbolTableReachable t →
      SymbolTableReachable (symbol_table_add t s).1
  | mark {t : SymbolTable} (name : String) : SymbolTableReachable t →
      SymbolTableReachable (symbol_table_mark_used t name).1
  | record {t : SymbolTable} (msg : String) (pos : PCCPosition) (code : Int) :
      SymbolTableReachable t →
      SymbolTableReachable (symbol_table_add_error t msg pos code)

/-- `SemanticAnalyzer` of semantic.h: the symbol table (whose error list the
analyzer's `errors` field aliases) and the `has_errors` flag. -/
structure SemanticAnalyzer where
  symbol_table : SymbolTable
  has_errors : Bool

/-- `semantic_analyzer_create`. -/
def semantic_analyzer_create : SemanticAnalyzer :=
  { symbol_table := symbol_table_create, has_errors := false }

/-- The static `add_error` helper of semantic.c: records the error in the
symbol table and raises the flag. -/
def sem_add_error (a : SemanticAnalyzer) (message : String)
    (position : PCCPosition) (error_code : Int) : SemanticAnalyzer :=
  { symbol_table := symbol_table_add_error a.symbol_table message position error_code,
    has_errors := true }

/-- The parameter loop of `analyze_template_def`: each parameter name is added
to the (freshly entered) scope as a `SYMBOL_PARAMETER` with the template
node's position; the add's status is ignored. -/
def sem_addParams (a : SemanticAnalyzer) (params : List String)
    (position : PCCPosition) : SemanticAnalyzer :=
  params.foldl (fun acc p =>
    { acc with symbol_table :=
        (symbol_table_add acc.symbol_table
          (symbol_create p .SYMBOL_PARAMETER none position)).1 }) a

mutual

/-- `semantic_analyze` of semantic.c with the statically dispatched
`analyze_*` helpers inlined at their `case` arms (their node-type guards are
then vacuous).  The C recursion has no structural termination measure — a
`CONSTRAINT_EXPR` node even re-dispatches to itself forever — so the model
takes explicit fuel; exhausted fuel answers `PCC_ERROR_RUNTIME` with the
analyzer untouched. -/
def semantic_analyze : Nat → SemanticAnalyzer → ASTNode → SemanticAnalyzer × PCCError
  | 0, a, _ => (a, .ERROR_RUNTIME)
  | f + 1, a, node =>
      match node with
      | .program stmts _ => sem_analyzeList f a stmts
      | .promptDef name body pos =>
          let r := symbol_table_add a.symbol_table
            (symbol_create name .SYMBOL_PROMPT (some (.promptDef name body pos)) pos)
          let a1 := { a with symbol_table := r.1 }
          if r.2 = .SUCCESS then sem_analyzeOptErr f a1 body else (a1, r.2)
      | .varDecl name init pos =>
          let r := symbol_table_add a.symbol_table
            (symbol_create name .SYMBOL_VARIABLE (some (.varDecl name init pos)) pos)
          let a1 := { a with symbol_table := r.1 }
          if r.2 = .SUCCESS then sem_analyzeOptErr f a1 init else (a1, r.2)
      | .templateDef name params body pos =>
          let r := symbol_table_add a.symbol_table
            (symbol_create name .SYMBOL_TEMPLATE
              (some (.templateDef name params body pos)) pos)
          let a1 := { a with symbol_table := r.1 }
          if r.2 = .SUCCESS then
            let a2 := { a1 with symbol_table :=
              (symbol_table_enter_scope a1.symbol_table).1 }
            let a3 := sem_addParams a2 params pos
            let r2 := sem_analyzeOptErr f a3 body
            ({ r2.1 with symbol_table := (symbol_table_exit_scope r2.1.symbol_table).1 },
              r2.2)
          else (a1, r.2)
      | .constraintDef name cs pos =>
          let r := symbol_table_add a.symbol_table
            (symbol_create name .SYMBOL_CONSTRAINT
              (some (.constraintDef name cs pos)) pos)
          let a1 := { a with symbol_table := r.1 }
          if r.2 = .SUCCESS then sem_analyzeList f a1 cs else (a1, r.2)
      | .outputSpec name _ pos =>
          match symbol_table_lookup a.symbol_table name with
          | none =>
              (sem_add_error a
                ("Undefined prompt \x27" ++ name ++ "\x27 in OUTPUT specification")
                pos SEM_ERROR_UNDEFINED_SYMBOL, .ERROR_SEMANTIC)
          | some sym =>
              if sym.type = .SYMBOL_PROMPT then (a, .SUCCESS)
              else
                (sem_add_error a
                  ("\x27" ++ name ++ "\x27 is not a prompt in OUTPUT specification")
                  pos SEM_ERROR_TYPE_MISMATCH, .ERROR_SEMANTIC)
      | .identifier name pos =>
          match symbol_table_lookup a.symbol_table name with
          | none =>
              (sem_add_error a ("Undefined identifier \x27" ++ name ++ "\x27")
                pos SEM_ERROR_UNDEFINED_SYMBOL, .ERROR_SEMANTIC)
          | some _ => (a, .SUCCESS)
      | .stringLiteral _ _ => (a, .SUCCESS)
      | .numberLiteral _ _ => (a, .SUCCESS)
      | .booleanLiteral _ _ => (a, .SUCCESS)
      | .binaryExpr _ l r _ =>
          ((semantic_analyze f (semantic_analyze f a l).1 r).1, .SUCCESS)
      | .unaryExpr _ o _ => ((semantic_analyze f a o).1, .SUCCESS)
      | .variableRef name pos =>
          match symbol_table_lookup a.symbol_table name with
          | none =>
              (sem_add_error a ("Undefined variable \x27$" ++ name ++ "\x27")
                pos SEM_ERROR_UNDEFINED_SYMBOL, .ERROR_SEMANTIC)
          | some sym =>
              if sym.type = .SYMBOL_VARIABLE ∨ sym.type = .SYMBOL_PARAMETER then
                ({ a with symbol_table :=
                    (symbol_table_mark_used a.symbol_table name).1 }, .SUCCESS)
              else
                (sem_add_error a ("\x27$" ++ name ++ "\x27 is not a variable")
                  pos SEM_ERROR_TYPE_MISMATCH, .ERROR_SEMANTIC)
      | .templateCall name args pos =>
          match symbol_table_lookup a.symbol_table name with
          | none =>
              (sem_add_error a ("Undefined template \x27" ++ name ++ "\x27")
                pos SEM_ERROR_UNDEFINED_SYMBOL, .ERROR_SEMANTIC)
          | some sym =>
              if sym.type = .SYMBOL_TEMPLATE then
                (sem_analyzeListIgn f a args, .SUCCESS)
              else
                (sem_add_error a ("\x27" ++ name ++ "\x27 is not a template")
                  pos SEM_ERROR_TYPE_MISMATCH, .ERROR_SEMANTIC)
      | .functionCall name args pos =>
          match symbol_table_lookup a.symbol_table name with
          | none =>
              (sem_add_error a ("Undefined template \x27" ++ name ++ "\x27")
                pos SEM_ERROR_UNDEFINED_SYMBOL, .ERROR_SEMANTIC)
          | some sym =>
              if sym.type = .SYMBOL_TEMPLATE then
                (sem_analyzeListIgn f a args, .SUCCESS)
              else
                (sem_add_error a ("\x27" ++ name ++ "\x27 is not a template")
                  pos SEM_ERROR_TYPE_MISMATCH, .ERROR_SEMANTIC)
      | .ifStmt c t e _ =>
          let a1 := (semantic_analyze f a c).1
          let a2 := (sem_analyzeOptErr f a1 t).1
          ((sem_analyzeOptErr f a2 e).1, .SUCCESS)
      | .forStmt v iter body pos =>
          let a1 := { a with symbol_table :=
            (symbol_table_enter_scope a.symbol_table).1 }
          let a2 := { a1 with symbol_table :=
            (symbol_table_add a1.symbol_table
              (symbol_create v .SYMBOL_VARIABLE none pos)).1 }
          let a3 := (semantic_analyze f a2 iter).1
          let a4 := (semantic_analyze f a3 body).1
          ({ a4 with symbol_table := (symbol_table_exit_scope a4.symbol_table).1 },
            .SUCCESS)
      | .whileStmt c b _ =>
          ((semantic_analyze f (semantic_analyze f a c).1 b).1, .SUCCESS)
      | .textElement _ _ _ => (a, .SUCCESS)
      | .constraintExpr vn op v pos =>
          semantic_analyze f a (.constraintExpr vn op v pos)
      | .statementList es _ => sem_analyzeList f a es
      | .expressionList es _ => sem_analyzeList f a es
      | .elementList es _ => sem_analyzeList f a es
      | .argumentList es _ => sem_analyzeList f a es
      | .parameterList _ _ => (a, .ERROR_RUNTIME)
      | .constraintList es _ => sem_analyzeList f a es
      | .empty _ => (a, .SUCCESS)

/-- The statement loops of `analyze_program`, `analyze_constraint_def` and
`analyze_element_list`: stop and surface the first non-success status. -/
def sem_analyzeList : Nat → SemanticAnalyzer → List ASTNode → SemanticAnalyzer × PCCError
  | 0, a, _ => (a, .ERROR_RUNTIME)
  | _ + 1, a, [] => (a, .SUCCESS)
  | f + 1, a, n :: rest =>
      let r := semantic_analyze f a n
      if r.2 = .SUCCESS then sem_analyzeList f r.1 rest else r

/-- The argument loop of `analyze_function_call`: every argument is analyzed
and all statuses are ignored. -/
def sem_analyzeListIgn : Nat → SemanticAnalyzer → List ASTNode → SemanticAnalyzer
  | 0, a, _ => a
  | _ + 1, a, [] => a
  | f + 1, a, n :: rest => sem_analyzeListIgn f (semantic_analyze f a n).1 rest

/-- The `if (child != NULL) err = semantic_analyze(analyzer, child);` pattern:
an absent child is success. -/
def sem_analyzeOptErr : Nat → SemanticAnalyzer → Option ASTNode → SemanticAnalyzer × PCCError
  | 0, a, _ => (a, .ERROR_RUNTIME)
  | _ + 1, a, none => (a, .SUCCESS)
  | f + 1, a, some n => semantic_analyze f a n

end

/-- `ASTNodeType` of ast.h. -/
inductive ASTNodeType where
  | AST_PROGRAM
  | AST_PROMPT_DEF
  | AST_VAR_DECL
  | AST_TEMPLATE_DEF
  | AST_CONSTRAINT_DEF
  | AST_OUTPUT_SPEC
  | AST_IDENTIFIER
  | AST_STRING_LITERAL
  | AST_NUMBER_LITERAL
  | AST_BOOLEAN_LITERAL
  | AST_BINARY_EXPR
  | AST_UNARY_EXPR
  | AST_VARIABLE_REF
  | AST_TEMPLATE_CALL
  | AST_FUNCTION_CALL
  | AST_IF_STMT
  | AST_FOR_STMT
  | AST_WHILE_STMT
  | AST_TEXT_ELEMENT
  | AST_CONSTRAINT_EXPR
  | AST_OUTPUT_FORMAT
  | AST_STATEMENT_LIST
  | AST_EXPRESSION_LIST
  | AST_PARAMETER_LIST
  | AST_ARGUMENT_LIST
  | AST_CONSTRAINT_LIST
  | AST_ELEMENT_LIST
  | AST_EMPTY
  deriving DecidableEq, Repr

/-- The `type` tag each node constructor carries in the C `ASTNode`. -/
def astNodeType : ASTNode → ASTNodeType
  | .program _ _ => .AST_PROGRAM
  | .promptDef _ _ _ => .AST_PROMPT_DEF
  | .varDecl _ _ _ => .AST_VAR_DECL
  | .templateDef _ _ _ _ => .AST_TEMPLATE_DEF
  | .constraintDef _ _ _ => .AST_CONSTRAINT_DEF
  | .outputSpec _ _ _ => .AST_OUTPUT_SPEC
  | .identifier _ _ => .AST_IDENTIFIER
  | .stringLiteral _ _ => .AST_STRING_LITERAL
  | .numberLiteral _ _ => .AST_NUMBER_LITERAL
  | .booleanLiteral _ _ => .AST_BOOLEAN_LITERAL
  | .binaryExpr _ _ _ _ => .AST_BINARY_EXPR
  | .unaryExpr _ _ _ => .AST_UNARY_EXPR
  | .variableRef _ _ => .AST_VARIABLE_REF
  | .templateCall _ _ _ => .AST_TEMPLATE_CALL
  | .functionCall _ _ _ => .AST_FUNCTION_CALL
  | .ifStmt _ _ _ _ => .AST_IF_STMT
  | .forStmt _ _ _ _ => .AST_FOR_STMT
  | .whileStmt _ _ _ => .AST_WHILE_STMT
  | .textElement _ _ _ => .AST_TEXT_ELEMENT
  | .constraintExpr _ _ _ _ => .AST_CONSTRAINT_EXPR
  | .statementList _ _ => .AST_STATEMENT_LIST
  | .expressionList _ _ => .AST_EXPRESSION_LIST
  | .parameterList _ _ => .AST_PARAMETER_LIST
  | .argumentList _ _ => .AST_ARGUMENT_LIST
  | .constraintList _ _ => .AST_CONSTRAINT_LIST
  | .elementList _ _ => .AST_ELEMENT_LIST
  | .empty _ => .AST_EMPTY

/-- `ast_node_type_name` of ast.c. -/
def ast_node_type_name : ASTNodeType → String
  | .AST_PROGRAM => "PROGRAM"
  | .AST_PROMPT_DEF => "PROMPT_DEF"
  | .AST_VAR_DECL => "VAR_DECL"
  | .AST_TEMPLATE_DEF => "TEMPLATE_DEF"
  | .AST_CONSTRAINT_DEF => "CONSTRAINT_DEF"
  | .AST_OUTPUT_SPEC => "OUTPUT_SPEC"
  | .AST_IDENTIFIER => "IDENTIFIER"
  | .AST_STRING_LITERAL => "STRING_LITERAL"
  | .AST_NUMBER_LITERAL => "NUMBER_LITERAL"
  | .AST_BOOLEAN_LITERAL => "BOOLEAN_LITERAL"
  | .AST_BINARY_EXPR => "BINARY_EXPR"
  | .AST_UNARY_EXPR => "UNARY_EXPR"
  | .AST_VARIABLE_REF => "VARIABLE_REF"
  | .AST_TEMPLATE_CALL => "TEMPLATE_CALL"
  | .AST_FUNCTION_CALL => "FUNCTION_CALL"
  | .AST_IF_STMT => "IF_STMT"
  | .AST_FOR_STMT => "FOR_STMT"
  | .AST_WHILE_STMT => "WHILE_STMT"
  | .AST_TEXT_ELEMENT => "TEXT_ELEMENT"
  | .AST_CONSTRAINT_EXPR => "CONSTRAINT_EXPR"
  | .AST_OUTPUT_FORMAT => "OUTPUT_FORMAT"
  | .AST_STATEMENT_LIST => "STATEMENT_LIST"
  | .AST_EXPRESSION_LIST => "EXPRESSION_LIST"
  | .AST_PARAMETER_LIST => "PARAMETER_LIST"
  | .AST_ARGUMENT_LIST => "ARGUMENT_LIST"
  | .AST_CONSTRAINT_LIST => "CONSTRAINT_LIST"
  | .AST_ELEMENT_LIST => "ELEMENT_LIST"
  | .AST_EMPTY => "EMPTY"

mutual

/-- `generate_json` of codegen.c: the string appended to the generator's
buffer for a node, with the returned status.  The numeric rendering of
`snprintf(num_buf, 64, "%g", ...)` is a parameter `fmtNum`; the statuses of
child generations are ignored throughout, exactly as in the C.  The C
recursion is structural on the tree; the fuel only drives Lean's termination
and is kept above the node count by the wrapper below. -/
def generate_json (fmtNum : ℚ → String) : Nat → ASTNode → String × PCCError
  | 0, _ => ("", .ERROR_RUNTIME)
  | f + 1, node =>
      match node with
      | .program stmts _ =>
          ("\x7b\"type\":\"program\",\"statements\":["
            ++ generate_json_items fmtNum f stmts ++ "]\x7d", .SUCCESS)
      | .promptDef name body _ =>
          ("\x7b\"type\":\"prompt_def\",\"name\":\"" ++ name ++ "\",\"body\":"
            ++ (match body with
                | some b => (generate_json fmtNum f b).1
                | none => "null") ++ "\x7d", .SUCCESS)
      | .textElement text raw _ =>
          ("\x7b\"type\":\"text\",\"text\":\"" ++ text ++ "\",\"raw\":"
            ++ (if raw then "true" else "false") ++ "\x7d", .SUCCESS)
      | .variableRef name _ =>
          ("\x7b\"type\":\"variable_ref\",\"name\":\"" ++ name ++ "\"\x7d", .SUCCESS)
      | .templateCall name args _ =>
          ("\x7b\"type\":\"template_call\",\"name\":\"" ++ name
            ++ "\",\"arguments\":[" ++ generate_json_items fmtNum f args ++ "]\x7d",
            .SUCCESS)
      | .functionCall name args _ =>
          ("\x7b\"type\":\"function_call\",\"name\":\"" ++ name
            ++ "\",\"arguments\":[" ++ generate_json_items fmtNum f args ++ "]\x7d",
            .SUCCESS)
      | .stringLiteral v _ =>
          ("\x7b\"type\":\"string\",\"value\":\"" ++ v ++ "\"\x7d", .SUCCESS)
      | .numberLiteral v _ =>
          ("\x7b\"type\":\"number\",\"value\":" ++ fmtNum v ++ "\x7d", .SUCCESS)
      | .booleanLiteral v _ =>
          ("\x7b\"type\":\"boolean\",\"value\":"
            ++ (if v then "true" else "false") ++ "\x7d", .SUCCESS)
      | .statementList es _ =>
          ("\x7b\"type\":\"statement_list\",\"elements\":["
            ++ generate_json_items fmtNum f es ++ "]\x7d", .SUCCESS)
      | .expressionList es _ =>
          ("\x7b\"type\":\"expression_list\",\"elements\":["
            ++ generate_json_items fmtNum f es ++ "]\x7d", .SUCCESS)
      | .elementList es _ =>
          ("\x7b\"type\":\"element_list\",\"elements\":["
            ++ generate_json_items fmtNum f es ++ "]\x7d", .SUCCESS)
      | .argumentList es _ =>
          ("\x7b\"type\":\"argument_list\",\"elements\":["
            ++ generate_json_items fmtNum f es ++ "]\x7d", .SUCCESS)
      | n =>
          ("\x7b\"type\":\"" ++ ast_node_type_name (astNodeType n) ++ "\"\x7d",
            .SUCCESS)

/-- The child loops of codegen.c's JSON emitters: children joined by `,`
(a comma after every element but the last), their statuses ignored. -/
def generate_json_items (fmtNum : ℚ → String) : Nat → List ASTNode → String
  | 0, _ => ""
  | _ + 1, [] => ""
  | f + 1, [n] => (generate_json fmtNum f n).1
  | f + 1, n :: rest =>
      (generate_json fmtNum f n).1 ++ "," ++ generate_json_items fmtNum f rest

end

/-- `Token` of lexer.h (the `value` union split into its three fields). -/
structure Token where
  type : TokenType
  lexeme : String
  position : PCCPosition
  string_val : Option String
  number_val : ℚ
  bool_val : Bool

/-- `Lexer` of lexer.h.  `source_len` is `source.length`; the token array and
`error_message` live in the tokenize loop's results instead. -/
structure Lexer where
  source : List Char
  position : Nat
  line : Nat
  column : Nat
  filename : String

/-- `lexer_peek`: the character `offset` places ahead, NUL past the end. -/
def lexer_peek (l : Lexer) (offset : Nat) : Char :=
  if l.position + offset ≥ l.source.length then '\x00'
  else l.source.getD (l.position + offset) '\x00'

/-- `lexer_advance`: consume one character, tracking line and column. -/
def lexer_advance (l : Lexer) : Char × Lexer :=
  if l.position ≥ l.source.length then ('\x00', l)
  else
    let c := l.source.getD l.position '\x00'
    let l1 := { l with position := l.position + 1, column := l.column + 1 }
    (c, if c = '\n' then { l1 with line := l1.line + 1, column := 1 } else l1)

/-- `isalpha` of ctype.h on the ASCII source alphabet. -/
def cIsAlpha (c : Char) : Bool :=
  (65 ≤ c.toNat && c.toNat ≤ 90) || (97 ≤ c.toNat && c.toNat ≤ 122)

/-- `isdigit` of ctype.h. -/
def cIsDigit (c : Char) : Bool := 48 ≤ c.toNat && c.toNat ≤ 57

/-- `isalnum` of ctype.h. -/
def cIsAlnum (c : Char) : Bool := cIsAlpha c || cIsDigit c

/-- `lexer_skip_whitespace` (fuel-bounded while loop). -/
def lexer_skip_whitespace : Nat → Lexer → Lexer
  | 0, l => l
  | f + 1, l =>
      if l.position < l.source.length then
        if lexer_peek l 0 = ' ' ∨ lexer_peek l 0 = '\t'
            ∨ lexer_peek l 0 = '\r' ∨ lexer_peek l 0 = '\n' then
          lexer_skip_whitespace f (lexer_advance l).2
        else l
      else l

/-- The `//` arm of `lexer_skip_comment`: consume through the newline. -/
def lexer_skip_comment_line : Nat → Lexer → Lexer
  | 0, l => l
  | f + 1, l =>
      if l.position < l.source.length then
        if (lexer_advance l).1 = '\n' then (lexer_advance l).2
        else lexer_skip_comment_line f (lexer_advance l).2
      else l

/-- The `/* ... */` arm of `lexer_skip_comment`: consume through `*/` (or to
the end of input when the comment is unclosed). -/
def lexer_skip_comment_block : Nat → Lexer → Lexer
  | 0, l => l
  | f + 1, l =>
      if l.position < l.source.length then
        if (lexer_advance l).1 = '*' ∧ lexer_peek (lexer_advance l).2 0 = '/' then
          (lexer_advance (lexer_advance l).2).2
        else lexer_skip_comment_block f (lexer_advance l).2
      else l

/-- `lexer_skip_comment`. -/
def lexer_skip_comment (f : Nat) (l : Lexer) : Lexer :=
  if lexer_peek l 0 = '/' ∧ lexer_peek l 1 = '/' then lexer_skip_comment_line f l
  else if lexer_peek l 0 = '/' ∧ lexer_peek l 1 = '*' then
    lexer_skip_comment_block f (lexer_advance (lexer_advance l).2).2
  else l

/-- `lexer_check_keyword` (the keyword table of lexer.c, in order). -/
def lexer_check_keyword (lexeme : String) : TokenType :=
  if lexeme = "PROMPT" then .TOKEN_PROMPT
  else if lexeme = "VAR" then .TOKEN_VAR
  else if lexeme = "TEMPLATE" then .TOKEN_TEMPLATE
  else if lexeme = "CONSTRAINT" then .TOKEN_CONSTRAINT
  else if lexeme = "OUTPUT" then .TOKEN_OUTPUT
  else if lexeme = "IF" then .TOKEN_IF
  else if lexeme = "ELSE" then .TOKEN_ELSE
  else if lexeme = "FOR" then .TOKEN_FOR
  else if lexeme = "WHILE" then .TOKEN_WHILE
  else if lexeme = "IN" then .TOKEN_IN
  else if lexeme = "AS" then .TOKEN_AS
  else if lexeme = "AND" then .TOKEN_AND
  else if lexeme = "OR" then .TOKEN_OR
  else if lexeme = "NOT" then .TOKEN_NOT
  else if lexeme = "RAW" then .TOKEN_RAW
  else if lexeme = "true" then .TOKEN_TRUE
  else if lexeme = "false" then .TOKEN_FALSE
  else .TOKEN_IDENTIFIER

/-- `lexer_create_token`: the token's column is the lexer's current column
minus the lexeme length (the C casts both to `int`). -/
def lexer_create_token (l : Lexer) (type : TokenType) (lexeme : String) : Token :=
  { type := type, lexeme := lexeme,
    position := { line := (l.line : Int),
                  column := (l.column : Int) - (lexeme.length : Int),
                  filename := l.filename },
    string_val := none, number_val := 0, bool_val := false }

/-- The characters of `l.source` from `start` (inclusive) to `stop`
(exclusive), as the C's `memcpy(lexeme, &source[start], stop - start)`. -/
def lexer_slice (l : Lexer) (start stop : Nat) : String :=
  String.mk ((l.source.drop start).take (stop - start))

/-- The identifier-extension loop of `lexer_read_identifier`. -/
def lexer_ident_loop : Nat → Lexer → Lexer
  | 0, l => l
  | f + 1, l =>
      if l.position < l.source.length then
        if cIsAlnum (lexer_peek l 0) || lexer_peek l 0 = '_' then
          lexer_ident_loop f (lexer_advance l).2
        else l
      else l

/-- `lexer_read_identifier`: the out-parameter token, the mutated lexer and
the status (syntax error when the first character is no letter/underscore,
with the lexer untouched). -/
def lexer_read_identifier (f : Nat) (l : Lexer) : Option Token × Lexer × PCCError :=
  if ¬ (cIsAlpha (lexer_peek l 0) = true ∨ lexer_peek l 0 = '_') then
    (none, l, .ERROR_SYNTAX)
  else
    let l2 := lexer_ident_loop f (lexer_advance l).2
    let lexeme := lexer_slice l2 l.position l2.position
    (some (lexer_create_token l2 (lexer_check_keyword lexeme) lexeme), l2, .SUCCESS)

/-- The content loop of `lexer_read_string`: stops before the closing quote
or at the end of input; a bare newline inside the string is the syntax
error; a backslash consumes the following character. -/
def lexer_string_loop (quote : Char) : Nat → Lexer → Lexer × PCCError
  | 0, l => (l, .SUCCESS)
  | f + 1, l =>
      if l.position < l.source.length then
        if lexer_peek l 0 = '\\' then
          lexer_string_loop quote f
            (if ((lexer_advance l).2).position < ((lexer_advance l).2).source.length
              then (lexer_advance (lexer_advance l).2).2 else (lexer_advance l).2)
        else if lexer_peek l 0 = quote then (l, .SUCCESS)
        else if lexer_peek l 0 = '\n' then (l, .ERROR_SYNTAX)
        else lexer_string_loop quote f (lexer_advance l).2
      else (l, .SUCCESS)

/-- `lexer_read_string`: a string also errors when the input ends before the
closing quote; on success the token's lexeme keeps the quotes and its
`string_val` the bare content. -/
def lexer_read_string (f : Nat) (l : Lexer) : Option Token × Lexer × PCCError :=
  let quote := lexer_peek l 0
  let l1 := (lexer_advance l).2
  let start := l1.position
  let r := lexer_string_loop quote f l1
  if r.2 = .SUCCESS then
    if r.1.position ≥ r.1.source.length then (none, r.1, .ERROR_SYNTAX)
    else
      let len := r.1.position - start
      let content := lexer_slice r.1 start r.1.position
      let l3 := (lexer_advance r.1).2
      (some { lexer_create_token l3 .TOKEN_STRING
          (lexer_slice l3 (start - 1) (start + len + 1)) with
          string_val := some content }, l3, .SUCCESS)
  else (none, r.1, r.2)

/-- The digit loops of `lexer_read_number`. -/
def lexer_digit_loop : Nat → Lexer → Lexer
  | 0, l => l
  | f + 1, l =>
      if l.position < l.source.length ∧ cIsDigit (lexer_peek l 0) = true then
        lexer_digit_loop f (lexer_advance l).2
      else l

/-- The value `atof` gives the lexemes `lexer_read_number` builds (digits,
optionally a dot and digits), as an exact rational. -/
def lexNumberValue (s : String) : ℚ :=
  let intPart := s.data.takeWhile (fun c => ¬ c = '.')
  let fracPart := (s.data.dropWhile (fun c => ¬ c = '.')).drop 1
  let digits (cs : List Char) : Nat := cs.foldl (fun acc c => acc * 10 + (c.toNat - 48)) 0
  (digits intPart : ℚ) + (digits fracPart : ℚ) / ((10 : ℚ) ^ fracPart.length)

/-- `lexer_read_number` (it cannot fail short of out-of-memory). -/
def lexer_read_number (f : Nat) (l : Lexer) : Option Token × Lexer × PCCError :=
  let l1 := lexer_digit_loop f l
  let l2 := if lexer_peek l1 0 = '.' then lexer_digit_loop f (lexer_advance l1).2 else l1
  let lexeme := lexer_slice l2 l.position l2.position
  (some { lexer_create_token l2 .TOKEN_NUMBER lexeme with
      number_val := lexNumberValue lexeme }, l2, .SUCCESS)

/-- Advance `n` characters (the trailing loop of `lexer_read_operator`). -/
def lexer_advance_n : Nat → Lexer → Lexer
  | 0, l => l
  | n + 1, l => lexer_advance_n n (lexer_advance l).2

/-- `lexer_read_operator`: one- and two-character operators; the token is
created before the characters are consumed, as in the C.  The default arm is
a syntax error (unreachable from the tokenize loop, whose guard admits only
the ten operator heads). -/
def lexer_read_operator (l : Lexer) : Option Token × Lexer × PCCError :=
  let c := lexer_peek l 0
  let next := lexer_peek l 1
  let made (type : TokenType) (len : Nat) : Option Token × Lexer × PCCError :=
    (some (lexer_create_token l type (lexer_slice l l.position (l.position + len))),
      lexer_advance_n len l, .SUCCESS)
  if c = '=' then (if next = '=' then made .TOKEN_EQ 2 else made .TOKEN_ASSIGN 1)
  else if c = '!' then (if next = '=' then made .TOKEN_NE 2 else made .TOKEN_NOT 1)
  else if c = '<' then (if next = '=' then made .TOKEN_LE 2 else made .TOKEN_LT 1)
  else if c = '>' then (if next = '=' then made .TOKEN_GE 2 else made .TOKEN_GT 1)
  else if c = '+' then made .TOKEN_ADD 1
  else if c = '-' then made .TOKEN_SUB 1
  else if c = '*' then made .TOKEN_MUL 1
  else if c = '/' then made .TOKEN_DIV 1
  else if c = '%' then made .TOKEN_MOD 1
  else if c = '^' then made .TOKEN_POW 1
  else (none, l, .ERROR_SYNTAX)

/-- The token list an `if (token != NULL) pcc_array_push(...)` appends. -/
def tokOptList : Option Token → List Token
  | some t => [t]
  | none => []

/-- The punctuation token type of the final `switch` of the tokenize loop,
`TOKEN_UNKNOWN` for a character outside the recognized set. -/
def lexer_punct_type (c : Char) : TokenType :=
  if c = '\x7b' then .TOKEN_LBRACE
  else if c = '\x7d' then .TOKEN_RBRACE
  else if c = '(' then .TOKEN_LPAREN
  else if c = ')' then .TOKEN_RPAREN
  else if c = '[' then .TOKEN_LBRACKET
  else if c = ']' then .TOKEN_RBRACKET
  else if c = ',' then .TOKEN_COMMA
  else if c = ';' then .TOKEN_SEMICOLON
  else if c = ':' then .TOKEN_COLON
  else if c = '.' then .TOKEN_DOT
  else .TOKEN_UNKNOWN

/-- One reader dispatch of the tokenize loop on a non-punctuation head (the
`$`, `@`, quote, digit, identifier and operator arms). -/
def lexer_dispatch (l : Lexer) : Option Token × Lexer × PCCError :=
  let c := lexer_peek l 0
  if c = '$' then
    let r := lexer_read_identifier (l.source.length + 1) (lexer_advance l).2
    (match r.1 with
      | some t => some { t with type := .TOKEN_VARIABLE_REF }
      | none => none, r.2)
  else if c = '@' then
    let r := lexer_read_identifier (l.source.length + 1) (lexer_advance l).2
    (match r.1 with
      | some t => some { t with type := .TOKEN_TEMPLATE_CALL }
      | none => none, r.2)
  else if c = '"' ∨ c = '\x27' then lexer_read_string (l.source.length + 1) l
  else if cIsDigit c then lexer_read_number (l.source.length + 1) l
  else if cIsAlpha c || c = '_' then lexer_read_identifier (l.source.length + 1) l
  else lexer_read_operator l

/-- `lexer_tokenize`'s main loop.  Skips whitespace, restarts after a
comment, stops with an EOF token at the end of input; a non-success status
from a reader appends one `TOKEN_ERROR` token and returns that status at
once; a character matching no arm of the dispatch — after the punctuation
`switch` falls through its `default` — is skipped silently.  Fuel exhaustion
(unreachable from the wrapper, which supplies more fuel than source
characters) answers `PCC_ERROR_RUNTIME`. -/
def lexer_tokenize_loop : Nat → Lexer → List Token → List Token × Lexer × PCCError
  | 0, l, acc => (acc, l, .ERROR_RUNTIME)
  | f + 1, l, acc =>
      if l.position < l.source.length then
        let l1 := lexer_skip_whitespace (l.source.length + 1) l
        if lexer_peek l1 0 = '/' ∧ (lexer_peek l1 1 = '/' ∨ lexer_peek l1 1 = '*') then
          lexer_tokenize_loop f (lexer_skip_comment (l1.source.length + 1) l1) acc
        else if l1.position ≥ l1.source.length then
          (acc ++ [lexer_create_token l1 .TOKEN_EOF ""], l1, .SUCCESS)
        else
          let c := lexer_peek l1 0
          if c = '$' ∨ c = '@' ∨ c = '"' ∨ c = '\x27' ∨ cIsDigit c
              ∨ cIsAlpha c ∨ c = '_'
              ∨ c = '=' ∨ c = '!' ∨ c = '<' ∨ c = '>' ∨ c = '+' ∨ c = '-'
              ∨ c = '*' ∨ c = '/' ∨ c = '%' ∨ c = '^' then
            let r := lexer_dispatch l1
            if r.2.2 = .SUCCESS then
              lexer_tokenize_loop f r.2.1 (acc ++ tokOptList r.1)
            else
              (acc ++ [lexer_create_token r.2.1 .TOKEN_ERROR
                  (lexer_slice r.2.1 r.2.1.position (r.2.1.position + 1))],
                r.2.1, r.2.2)
          else if ¬ lexer_punct_type c = .TOKEN_UNKNOWN then
            lexer_tokenize_loop f ((lexer_advance l1).2)
              (acc ++ [lexer_create_token l1 (lexer_punct_type c)
                (lexer_slice l1 l1.position (l1.position + 1))])
          else
            lexer_tokenize_loop f (lexer_advance l1).2 acc
      else (acc ++ [lexer_create_token l .TOKEN_EOF ""], l, .SUCCESS)

/-- `lexer_create` followed by `lexer_tokenize`: the token array and the
returned status. -/
def lexer_tokenize (source : String) (filename : String) : List Token × PCCError :=
  let l : Lexer := { source := source.data, position := 0, line := 1, column := 1,
                     filename := filename }
  let r := lexer_tokenize_loop (source.data.length + 1) l []
  (r.1, r.2.2)

/-! ### Theorems -/

/- Helper lemmas: nodes with no dispatch case in `optimize_node` are returned
unchanged, at every fuel. -/

theorem optimize_node_numberLiteral (passes : Nat) (f : Nat) (c : Int) (v : ℚ)
    (p : PCCPosition) :
    optimize_node passes f c (.numberLiteral v p) = (c, some (.numberLiteral v p)) := by
  cases f <;> rfl

theorem optimize_node_booleanLiteral (passes : Nat) (f : Nat) (c : Int) (v : Bool)
    (p : PCCPosition) :
    optimize_node passes f c (.booleanLiteral v p) = (c, some (.booleanLiteral v p)) := by
  cases f <;> rfl

theorem optimize_node_textElement (passes : Nat) (f : Nat) (c : Int) (t : String)
    (r : Bool) (p : PCCPosition) :
    optimize_node passes f c (.textElement t r p) = (c, some (.textElement t r p)) := by
  cases f <;> rfl

/-- A node that `optimize_node` returns unchanged is returned unchanged by the
two-slot driver `optimizer_optimize_aux` as well, at every fuel. -/
theorem optimizer_optimize_aux_unchanged (passes : Nat) {n : ASTNode}
    (h : ∀ f c, optimize_node passes f c n = (c, some n)) (f : Nat) (c : Int) :
    optimizer_optimize_aux passes f c n = (c, some n) := by
  cases f with
  | zero => rfl
  | succ f => simp [optimizer_optimize_aux, h]

theorem optimizer_optimize_aux_numberLiteral (passes : Nat) (f : Nat) (c : Int)
    (v : ℚ) (p : PCCPosition) :
    optimizer_optimize_aux passes f c (.numberLiteral v p) =
      (c, some (.numberLiteral v p)) :=
  optimizer_optimize_aux_unchanged passes
    (fun f c => optimize_node_numberLiteral passes f c v p) f c

theorem optimizer_optimize_aux_booleanLiteral (passes : Nat) (f : Nat) (c : Int)
    (v : Bool) (p : PCCPosition) :
    optimizer_optimize_aux passes f c (.booleanLiteral v p) =
      (c, some (.booleanLiteral v p)) :=
  optimizer_optimize_aux_unchanged passes
    (fun f c => optimize_node_booleanLiteral passes f c v p) f c

/-- `optimize_node` on a binary expression over two number literals: the
operator switch decides between folding (counter incremented, literal result
at the binary node's position) and leaving the node intact. -/
theorem optimize_node_binary_numlits (passes : Nat) (g : Nat) (c : Int)
    (op : TokenType) (a b : ℚ) (pl pr pe : PCCPosition) :
    optimize_node passes (g + 1) c
        (.binaryExpr op (.numberLiteral a pl) (.numberLiteral b pr) pe) =
      match fold_binary_op op a b with
      | some v => (c + 1, some (.numberLiteral v pe))
      | none => (c, some (.binaryExpr op (.numberLiteral a pl) (.numberLiteral b pr) pe)) := by
  simp [optimize_node, optimizer_optimize_aux_numberLiteral, is_constant,
    isNumberLit, get_numeric_value]

/-- `optimize_node` on an `IF` whose condition is a boolean literal. -/
theorem optimize_node_if_boolLit (passes : Nat) (g : Nat) (c : Int) (bv : Bool)
    (bp : PCCPosition) (thenB elseB : Option ASTNode) (pos : PCCPosition) :
    optimize_node passes (g + 1) c
        (.ifStmt (.booleanLiteral bv bp) thenB elseB pos) =
      if bv then
        match thenB with
        | some tb => (c + 1, some tb)
        | none =>
            let (c2, elseB1) := optimize_opt_body passes g c elseB
            (c2, some (.ifStmt (.booleanLiteral bv bp) none elseB1 pos))
      else
        match elseB with
        | some eb => (c + 1, some eb)
        | none => (c + 1, none) := by
  simp [optimize_node, optimizer_optimize_aux_booleanLiteral]

/-- With the constant-folding slot active (CF or ALL flag), one round of
`optimizer_optimize_aux` on a binary expression over two number literals. -/
theorem optimizer_optimize_aux_binary_numlits (passes : Nat) (g : Nat) (c : Int)
    (op : TokenType) (a b : ℚ) (pl pr pe : PCCPosition)
    (hcf : (passEnabled passes .OPT_CONSTANT_FOLDING
        || passEnabled passes .OPT_ALL) = true) :
    optimizer_optimize_aux passes (g + 2) c
        (.binaryExpr op (.numberLiteral a pl) (.numberLiteral b pr) pe) =
      match fold_binary_op op a b with
      | some v => (c + 1, some (.numberLiteral v pe))
      | none => (c, some (.binaryExpr op (.numberLiteral a pl) (.numberLiteral b pr) pe)) := by
  cases hf : fold_binary_op op a b with
  | some v =>
      simp only [optimizer_optimize_aux, hcf, if_true,
        optimize_node_binary_numlits, hf]
      split
      · simp [optimize_node_numberLiteral]
      · rfl
  | none =>
      simp only [optimizer_optimize_aux, hcf, if_true,
        optimize_node_binary_numlits, hf]
      split
      · simp [optimize_node_binary_numlits, hf]
      · rfl

/-- C1: for a binary expression whose operands are numeric literals `a`, `b`,
running the optimizer (any pass set with constant folding active) folds
`+`, `-`, `*`, `^` to a single numeric literal, at the binary node's position,
whose value is the evaluation of `a op b`, incrementing the counter by one;
for `/` and `%` with `b = 0` the node is not folded and is returned as a
binary expression with both literal operands intact, counter unchanged. -/
theorem C1_constant_folding_binary (opt : Optimizer) (a b : ℚ) (op : TokenType)
    (pl pr pe : PCCPosition)
    (hcf : (passEnabled opt.enabled_passes .OPT_CONSTANT_FOLDING
        || passEnabled opt.enabled_passes .OPT_ALL) = true) :
    ((op = .TOKEN_ADD ∨ op = .TOKEN_SUB ∨ op = .TOKEN_MUL ∨ op = .TOKEN_POW) →
      optimizer_optimize opt
          (some (.binaryExpr op (.numberLiteral a pl) (.numberLiteral b pr) pe)) =
        ({ opt with optimizations_applied := opt.optimizations_applied + 1 },
          some (.numberLiteral (specBinEval op a b) pe)))
    ∧ ((op = .TOKEN_DIV ∨ op = .TOKEN_MOD) → b = 0 →
      optimizer_optimize opt
          (some (.binaryExpr op (.numberLiteral a pl) (.numberLiteral b pr) pe)) =
        (opt, some (.binaryExpr op (.numberLiteral a pl) (.numberLiteral b pr) pe))) := by
  have hfuel :
      astSize (.binaryExpr op (.numberLiteral a pl) (.numberLiteral b pr) pe) * 8 + 8
        = 30 + 2 := rfl
  constructor
  · intro hop
    simp only [optimizer_optimize, hfuel,
      optimizer_optimize_aux_binary_numlits opt.enabled_passes 30
        opt.optimizations_applied op a b pl pr pe hcf]
    rcases hop with rfl | rfl | rfl | rfl <;> rfl
  · intro hop hb
    subst hb
    simp only [optimizer_optimize, hfuel,
      optimizer_optimize_aux_binary_numlits opt.enabled_passes 30
        opt.optimizations_applied op a 0 pl pr pe hcf]
    rcases hop with rfl | rfl <;> simp [fold_binary_op]

/-- Witness for C1 at concrete inputs: `3 + 4` folds to the literal `7` with
the counter going from 0 to 1, and `3 / 0` is left intact. -/
theorem C1_witness :
    optimizer_optimize (optimizer_create 1)
        (some (.binaryExpr .TOKEN_ADD (.numberLiteral 3 ⟨1, 1, "w"⟩)
          (.numberLiteral 4 ⟨1, 5, "w"⟩) ⟨1, 3, "w"⟩)) =
      ({ enabled_passes := 1, optimizations_applied := 1 },
        some (.numberLiteral (specBinEval .TOKEN_ADD 3 4) ⟨1, 3, "w"⟩))
    ∧ optimizer_optimize (optimizer_create 1)
        (some (.binaryExpr .TOKEN_DIV (.numberLiteral 3 ⟨1, 1, "w"⟩)
          (.numberLiteral 0 ⟨1, 5, "w"⟩) ⟨1, 3, "w"⟩)) =
      (optimizer_create 1,
        some (.binaryExpr .TOKEN_DIV (.numberLiteral 3 ⟨1, 1, "w"⟩)
          (.numberLiteral 0 ⟨1, 5, "w"⟩) ⟨1, 3, "w"⟩)) :=
  ⟨(C1_constant_folding_binary (optimizer_create 1) 3 4 .TOKEN_ADD
      ⟨1, 1, "w"⟩ ⟨1, 5, "w"⟩ ⟨1, 3, "w"⟩ rfl).1 (Or.inl rfl),
   (C1_constant_folding_binary (optimizer_create 1) 3 0 .TOKEN_DIV
      ⟨1, 1, "w"⟩ ⟨1, 5, "w"⟩ ⟨1, 3, "w"⟩ rfl).2 (Or.inl rfl) rfl⟩

/-- When the constant-folding slot is inactive and the dead-code-elimination
slot is active, one round of `optimizer_optimize_aux` is exactly one
`optimize_node` application. -/
theorem optimizer_optimize_aux_dce_slot (passes : Nat) (g : Nat) (c : Int) (n : ASTNode)
    (hcf : (passEnabled passes .OPT_CONSTANT_FOLDING
        || passEnabled passes .OPT_ALL) = false)
    (hdce : (passEnabled passes .OPT_DEAD_CODE_ELIMINATION
        || passEnabled passes .OPT_ALL) = true) :
    optimizer_optimize_aux passes (g + 1) c n = optimize_node passes g c n := by
  simp [optimizer_optimize_aux, hcf, hdce]

/-- When the constant-folding slot is active and the dead-code-elimination
slot is inactive, one round of `optimizer_optimize_aux` is exactly one
`optimize_node` application. -/
theorem optimizer_optimize_aux_cf_slot (passes : Nat) (g : Nat) (c : Int) (n : ASTNode)
    (hcf : (passEnabled passes .OPT_CONSTANT_FOLDING
        || passEnabled passes .OPT_ALL) = true)
    (hdce : (passEnabled passes .OPT_DEAD_CODE_ELIMINATION
        || passEnabled passes .OPT_ALL) = false) :
    optimizer_optimize_aux passes (g + 1) c n = optimize_node passes g c n := by
  simp [optimizer_optimize_aux, hcf, hdce]

/-- When none of the constant-folding, dead-code-elimination or ALL flags is
enabled, `optimizer_optimize_aux` returns the node unchanged. -/
theorem optimizer_optimize_aux_no_slots (passes : Nat) (f : Nat) (c : Int) (n : ASTNode)
    (hcf : (passEnabled passes .OPT_CONSTANT_FOLDING
        || passEnabled passes .OPT_ALL) = false)
    (hdce : (passEnabled passes .OPT_DEAD_CODE_ELIMINATION
        || passEnabled passes .OPT_ALL) = false) :
    optimizer_optimize_aux passes f c n = (c, some n) := by
  cases f with
  | zero => rfl
  | succ f => simp [optimizer_optimize_aux, hcf, hdce]

/-- C2: with the dead-code-elimination pass enabled, an `IF` whose condition
is the boolean literal `true` is replaced by exactly its then-branch subtree,
discarding any else branch, and an `IF` whose condition is the boolean
literal `false` and that has no else branch is removed entirely (the result
is absent); in both cases the optimizations counter grows by exactly one. -/
theorem C2_if_literal_condition_elimination (opt : Optimizer) (A : ASTNode)
    (elseB thenB : Option ASTNode) (bp pos : PCCPosition)
    (hp : opt.enabled_passes = 2 ^ OptimizationPass.OPT_DEAD_CODE_ELIMINATION.toNat) :
    (optimizer_optimize opt
        (some (.ifStmt (.booleanLiteral true bp) (some A) elseB pos)) =
      ({ opt with optimizations_applied := opt.optimizations_applied + 1 }, some A))
    ∧ (optimizer_optimize opt
        (some (.ifStmt (.booleanLiteral false bp) thenB none pos)) =
      ({ opt with optimizations_applied := opt.optimizations_applied + 1 }, none)) := by
  obtain ⟨ep, c0⟩ := opt
  simp only [OptimizationPass.toNat] at hp
  norm_num at hp
  subst hp
  constructor
  · simp only [optimizer_optimize]
    rw [show astSize (.ifStmt (.booleanLiteral true bp) (some A) elseB pos) * 8 + 8
        = ((astSize (.ifStmt (.booleanLiteral true bp) (some A) elseB pos) * 8 + 6) + 1) + 1
        from rfl]
    rw [optimizer_optimize_aux_dce_slot 2 _ c0 _ rfl rfl]
    rw [optimize_node_if_boolLit]
    rfl
  · simp only [optimizer_optimize]
    rw [show astSize (.ifStmt (.booleanLiteral false bp) thenB none pos) * 8 + 8
        = ((astSize (.ifStmt (.booleanLiteral false bp) thenB none pos) * 8 + 6) + 1) + 1
        from rfl]
    rw [optimizer_optimize_aux_dce_slot 2 _ c0 _ rfl rfl]
    rw [optimize_node_if_boolLit]
    cases thenB <;> rfl

/-- Witness for C2 at concrete inputs. -/
theorem C2_witness :
    (optimizer_optimize ⟨2, 0⟩
        (some (.ifStmt (.booleanLiteral true ⟨1, 1, "w"⟩)
          (some (.textElement "A" false ⟨1, 2, "w"⟩))
          (some (.textElement "B" false ⟨1, 3, "w"⟩)) ⟨1, 1, "w"⟩)) =
      (⟨2, 1⟩, some (.textElement "A" false ⟨1, 2, "w"⟩)))
    ∧ (optimizer_optimize ⟨2, 0⟩
        (some (.ifStmt (.booleanLiteral false ⟨1, 1, "w"⟩)
          (some (.textElement "A" false ⟨1, 2, "w"⟩)) none ⟨1, 1, "w"⟩)) =
      (⟨2, 1⟩, none)) :=
  C2_if_literal_condition_elimination ⟨2, 0⟩ (.textElement "A" false ⟨1, 2, "w"⟩)
    (some (.textElement "B" false ⟨1, 3, "w"⟩))
    (some (.textElement "A" false ⟨1, 2, "w"⟩)) ⟨1, 1, "w"⟩ ⟨1, 1, "w"⟩ rfl

/-- C3 counterexample: with only the `OPT_CONSTANT_FOLDING` flag enabled
(`enabled_passes = 1`), optimizing an `IF` with a boolean-literal condition
does NOT return an `IF` node: dead-code elimination runs anyway and replaces
it by the then branch; and with only `OPT_DEAD_CODE_ELIMINATION` enabled
(`enabled_passes = 2`), a binary expression over two numeric literals is
folded anyway. -/
theorem C3_counterexample :
    (optimizer_optimize (optimizer_create 1)
        (some (.ifStmt (.booleanLiteral true ⟨1, 1, "c"⟩)
          (some (.textElement "A" false ⟨1, 2, "c"⟩)) none ⟨1, 1, "c"⟩)) =
      ({ enabled_passes := 1, optimizations_applied := 1 },
        some (.textElement "A" false ⟨1, 2, "c"⟩)))
    ∧ (optimizer_optimize (optimizer_create 2)
        (some (.binaryExpr .TOKEN_ADD (.numberLiteral 3 ⟨2, 1, "c"⟩)
          (.numberLiteral 4 ⟨2, 5, "c"⟩) ⟨2, 3, "c"⟩)) =
      ({ enabled_passes := 2, optimizations_applied := 1 },
        some (.numberLiteral (3 + 4) ⟨2, 3, "c"⟩))) :=
  ⟨rfl, rfl⟩

/-- C3 amended: the pass flags do not select the two rewrites independently.
Whenever any one of the `OPT_CONSTANT_FOLDING`, `OPT_DEAD_CODE_ELIMINATION`
or `OPT_ALL` flags is enabled, each enabled slot applies the full
`optimize_node` rewrite, which performs both constant folding and dead-code
elimination; with none of those flags enabled, the AST is returned unchanged.
In particular a dead-code-elimination-only optimizer folds a binary
expression over numeric literals, and a constant-folding-only optimizer
eliminates an `IF` with boolean-literal condition. -/
theorem C3_passes_not_independent (opt : Optimizer) (n A : ASTNode) (a b : ℚ)
    (c0 : Int) (pl pr pe bp pos : PCCPosition)
    (hcf : passEnabled opt.enabled_passes .OPT_CONSTANT_FOLDING = false)
    (hdce : passEnabled opt.enabled_passes .OPT_DEAD_CODE_ELIMINATION = false)
    (hall : passEnabled opt.enabled_passes .OPT_ALL = false) :
    (optimizer_optimize opt (some n) = (opt, some n))
    ∧ (optimizer_optimize ⟨2, c0⟩
        (some (.binaryExpr .TOKEN_ADD (.numberLiteral a pl) (.numberLiteral b pr) pe)) =
      (⟨2, c0 + 1⟩, some (.numberLiteral (a + b) pe)))
    ∧ (optimizer_optimize ⟨1, c0⟩
        (some (.ifStmt (.booleanLiteral true bp) (some A) none pos)) =
      (⟨1, c0 + 1⟩, some A)) := by
  refine ⟨?_, ?_, ?_⟩
  · simp only [optimizer_optimize]
    rw [optimizer_optimize_aux_no_slots _ _ _ _ (by simp [hcf, hall]) (by simp [hdce, hall])]
  · simp only [optimizer_optimize]
    rw [show astSize (.binaryExpr .TOKEN_ADD (.numberLiteral a pl) (.numberLiteral b pr) pe)
          * 8 + 8 = ((astSize (.binaryExpr .TOKEN_ADD (.numberLiteral a pl)
          (.numberLiteral b pr) pe) * 8 + 6) + 1) + 1 from rfl]
    rw [optimizer_optimize_aux_dce_slot 2 _ c0 _ rfl rfl]
    rw [show (astSize (.binaryExpr .TOKEN_ADD (.numberLiteral a pl) (.numberLiteral b pr) pe)
          * 8 + 6) + 1 = (astSize (.binaryExpr .TOKEN_ADD (.numberLiteral a pl)
          (.numberLiteral b pr) pe) * 8 + 6) + 1 from rfl]
    rw [optimize_node_binary_numlits]
    rfl
  · simp only [optimizer_optimize]
    rw [show astSize (.ifStmt (.booleanLiteral true bp) (some A) none pos) * 8 + 8
        = ((astSize (.ifStmt (.booleanLiteral true bp) (some A) none pos) * 8 + 6) + 1) + 1
        from rfl]
    rw [optimizer_optimize_aux_cf_slot 1 _ c0 _ rfl rfl]
    rw [optimize_node_if_boolLit]
    rfl

/-- Witness for the amended C3 at concrete inputs. -/
theorem C3_witness :
    (optimizer_optimize ⟨0, 7⟩ (some (.empty ⟨1, 1, "w"⟩)) = (⟨0, 7⟩, some (.empty ⟨1, 1, "w"⟩)))
    ∧ (optimizer_optimize ⟨2, 0⟩
        (some (.binaryExpr .TOKEN_ADD (.numberLiteral 1 ⟨1, 1, "w"⟩)
          (.numberLiteral 2 ⟨1, 5, "w"⟩) ⟨1, 3, "w"⟩)) =
      (⟨2, 1⟩, some (.numberLiteral (1 + 2) ⟨1, 3, "w"⟩)))
    ∧ (optimizer_optimize ⟨1, 0⟩
        (some (.ifStmt (.booleanLiteral true ⟨1, 1, "w"⟩)
          (some (.textElement "T" false ⟨1, 2, "w"⟩)) none ⟨1, 1, "w"⟩)) =
      (⟨1, 1⟩, some (.textElement "T" false ⟨1, 2, "w"⟩))) :=
  C3_passes_not_independent ⟨0, 7⟩ (.empty ⟨1, 1, "w"⟩) (.textElement "T" false ⟨1, 2, "w"⟩)
    1 2 0 ⟨1, 1, "w"⟩ ⟨1, 5, "w"⟩ ⟨1, 3, "w"⟩ ⟨1, 1, "w"⟩ ⟨1, 1, "w"⟩ rfl rfl rfl


/- Chain-level lemmas. -/

theorem chainFind_eq_none_iff {α : Type} (key : String) (l : List (String × α)) :
    chainFind key l = none ↔ key ∉ l.map Prod.fst := by
  induction l with
  | nil => simp [chainFind]
  | cons e es ih =>
      by_cases h : e.1 = key
      · simp [chainFind, h]
      · rw [chainFind, if_neg h, ih, List.map_cons, List.mem_cons]
        constructor
        · intro hn hc
          rcases hc with hc | hc
          · exact h hc.symm
          · exact hn hc
        · intro hn hk
          exact hn (Or.inr hk)

theorem chainFind_isSome_iff {α : Type} (key : String) (l : List (String × α)) :
    (chainFind key l).isSome = true ↔ key ∈ l.map Prod.fst := by
  rw [Option.isSome_iff_ne_none, ne_eq, chainFind_eq_none_iff]
  simp

theorem chainFind_mem {α : Type} {key : String} {l : List (String × α)} {v : α}
    (h : chainFind key l = some v) : (key, v) ∈ l := by
  induction l with
  | nil => simp [chainFind] at h
  | cons e es ih =>
      rw [chainFind] at h
      split at h
      · rename_i he
        obtain rfl := Option.some.inj h
        have he2 : (key, e.2) = e := by
          obtain ⟨e1, e2⟩ := e
          simp at he ⊢
          exact he.symm
        rw [he2]
        exact List.mem_cons_self _ _
      · exact List.mem_cons_of_mem _ (ih h)

theorem chainFind_of_mem_nodup {α : Type} {key : String} {v : α}
    {l : List (String × α)} (hm : (key, v) ∈ l)
    (hn : (l.map Prod.fst).Nodup) : chainFind key l = some v := by
  induction l with
  | nil => cases hm
  | cons e es ih =>
      rw [chainFind]
      rcases List.mem_cons.mp hm with he | hm'
      · rw [← he]
        simp
      · rw [List.map_cons, List.nodup_cons] at hn
        have hne : ¬ e.1 = key := by
          intro he1
          exact hn.1 (he1 ▸ List.mem_map.mpr ⟨_, hm', rfl⟩)
        rw [if_neg hne]
        exact ih hm' hn.2

theorem chainFind_append {α : Type} (key : String) (l1 l2 : List (String × α)) :
    chainFind key (l1 ++ l2) =
      match chainFind key l1 with
      | some v => some v
      | none => chainFind key l2 := by
  induction l1 with
  | nil => simp [chainFind]
  | cons e es ih =>
      rw [List.cons_append, chainFind, chainFind]
      split <;> simp [ih]

theorem chainReplace_map_fst {α : Type} (key : String) (v : α)
    (l : List (String × α)) :
    (chainReplace key v l).map Prod.fst = l.map Prod.fst := by
  induction l with
  | nil => rfl
  | cons e es ih =>
      rw [chainReplace]
      split <;> simp [ih]

theorem chainReplace_length {α : Type} (key : String) (v : α)
    (l : List (String × α)) :
    (chainReplace key v l).length = l.length := by
  induction l with
  | nil => rfl
  | cons e es ih =>
      rw [chainReplace]
      split <;> simp [ih]

theorem chainFind_chainReplace_self {α : Type} (key : String) (v : α)
    (l : List (String × α)) (h : (chainFind key l).isSome = true) :
    chainFind key (chainReplace key v l) = some v := by
  induction l with
  | nil => simp [chainFind] at h
  | cons e es ih =>
      by_cases he : e.1 = key
      · rw [chainReplace, if_pos he, chainFind, if_pos he]
      · rw [chainFind, if_neg he] at h
        rw [chainReplace, if_neg he, chainFind, if_neg he]
        exact ih h

theorem chainFind_chainReplace_other {α : Type} (key : String) (v : α)
    (k' : String) (l : List (String × α)) (h : k' ≠ key) :
    chainFind k' (chainReplace key v l) = chainFind k' l := by
  induction l with
  | nil => rfl
  | cons e es ih =>
      by_cases he : e.1 = key
      · have hne : ¬ e.1 = k' := fun hk => h (hk ▸ he)
        rw [chainReplace, if_pos he, chainFind, if_neg hne, chainFind, if_neg hne]
      · rw [chainReplace, if_neg he, chainFind, chainFind]
        split <;> simp [ih]

/- Bucket-array lemmas. -/

theorem bucketsGetD_set_self {α : Type} (bs : List (List (String × α))) (i : Nat)
    (b : List (String × α)) (h : i < bs.length) :
    (bs.set i b).getD i [] = b := by
  rw [List.getD_eq_getElem?_getD, List.getElem?_set_self h]
  rfl

theorem bucketsGetD_set_other {α : Type} (bs : List (List (String × α)))
    (i j : Nat) (b : List (String × α)) (h : i ≠ j) :
    (bs.set i b).getD j [] = bs.getD j [] := by
  rw [List.getD_eq_getElem?_getD, List.getD_eq_getElem?_getD,
    List.getElem?_set_ne h]

theorem bucketsGetD_eq_getElem {α : Type} (bs : List (List (String × α)))
    (i : Nat) (h : i < bs.length) : bs.getD i [] = bs[i] := by
  rw [List.getD_eq_getElem?_getD, List.getElem?_eq_getElem h]
  rfl

/-- Decomposition of a bucket array at position `i`. -/
theorem buckets_decomp {α : Type} (bs : List (List (String × α))) (i : Nat)
    (h : i < bs.length) :
    bs = bs.take i ++ bs.getD i [] :: bs.drop (i + 1) := by
  rw [bucketsGetD_eq_getElem bs i h, ← List.drop_eq_getElem_cons h,
    List.take_append_drop]

/-- Flattened entries after setting bucket `i`. -/
theorem flatten_set_eq {α : Type} (bs : List (List (String × α))) (i : Nat)
    (b : List (String × α)) (h : i < bs.length) :
    (bs.set i b).flatten =
      (bs.take i).flatten ++ b ++ (bs.drop (i + 1)).flatten := by
  rw [List.set_eq_take_cons_drop b h, List.flatten_append, List.flatten_cons,
    List.append_assoc]

/-- Flattened entries of the original array, split at bucket `i`. -/
theorem flatten_decomp {α : Type} (bs : List (List (String × α))) (i : Nat)
    (h : i < bs.length) :
    bs.flatten =
      (bs.take i).flatten ++ bs.getD i [] ++ (bs.drop (i + 1)).flatten := by
  conv_lhs => rw [buckets_decomp bs i h]
  rw [List.flatten_append, List.flatten_cons, List.append_assoc]

/-- Prepending one entry to its bucket permutes the flattened entries by a
cons. -/
theorem flatten_set_cons_perm {α : Type} (bs : List (List (String × α)))
    (i : Nat) (x : String × α) (h : i < bs.length) :
    (bs.set i (x :: bs.getD i [])).flatten.Perm (x :: bs.flatten) := by
  rw [flatten_set_eq bs i _ h, flatten_decomp bs i h]
  have h1 : (bs.take i).flatten ++ (x :: bs.getD i []) ++ (bs.drop (i + 1)).flatten
      = (bs.take i).flatten ++ x :: (bs.getD i [] ++ (bs.drop (i + 1)).flatten) := by
    simp
  have h2 : (bs.take i).flatten ++ bs.getD i [] ++ (bs.drop (i + 1)).flatten
      = (bs.take i).flatten ++ (bs.getD i [] ++ (bs.drop (i + 1)).flatten) := by
    simp
  rw [h1, h2]
  exact List.perm_middle

/- Table-level characterizations under well-formedness. -/

theorem bucketIndex_lt {α : Type} {t : PCCHashTable α} (hWF : HashTableWF t)
    (key : String) : pcc_default_hash key % t.capacity < t.buckets.length := by
  rw [hWF.cap_buckets]
  exact Nat.mod_lt _ hWF.cap_pos

/-- The keys of one bucket form a sublist of the keys of the whole table. -/
theorem bucket_keys_sublist {α : Type} {t : PCCHashTable α} (i : Nat)
    (h : i < t.buckets.length) :
    ((t.buckets.getD i []).map Prod.fst).Sublist
      ((tableEntries t).map Prod.fst) := by
  apply List.Sublist.map
  rw [tableEntries, flatten_decomp t.buckets i h]
  exact (List.sublist_append_right _ _).trans (List.sublist_append_left _ _)

theorem pcc_hashtable_get_eq_some_iff {α : Type} {t : PCCHashTable α}
    (hWF : HashTableWF t) (key : String) (v : α) :
    pcc_hashtable_get t key = some v ↔ (key, v) ∈ tableEntries t := by
  constructor
  · intro h
    have hm := chainFind_mem h
    have hlt := bucketIndex_lt hWF key
    exact List.mem_flatten.mpr
      ⟨t.buckets.getD (pcc_default_hash key % t.capacity) [],
        by rw [bucketsGetD_eq_getElem _ _ hlt]; exact List.getElem_mem hlt, hm⟩
  · intro h
    obtain ⟨b, hb, hmem⟩ := List.mem_flatten.mp h
    obtain ⟨j, hj, rfl⟩ := List.mem_iff_getElem.mp hb
    have hbj : t.buckets.getD j [] = t.buckets[j] := bucketsGetD_eq_getElem _ _ hj
    have hplace := hWF.placed j (key, v) (by rw [hbj]; exact hmem)
    have hnodup : ((t.buckets.getD j []).map Prod.fst).Nodup :=
      (bucket_keys_sublist j hj).nodup hWF.keys_nodup
    rw [pcc_hashtable_get, hplace]
    exact chainFind_of_mem_nodup (by rw [hbj]; exact hmem) hnodup

theorem pcc_hashtable_get_eq_none_iff {α : Type} {t : PCCHashTable α}
    (hWF : HashTableWF t) (key : String) :
    pcc_hashtable_get t key = none ↔ key ∉ (tableEntries t).map Prod.fst := by
  constructor
  · intro h hk
    obtain ⟨⟨k1, v⟩, hmem, hfst⟩ := List.mem_map.mp hk
    simp only at hfst
    subst hfst
    rw [(pcc_hashtable_get_eq_some_iff hWF _ v).mpr hmem] at h
    cases h
  · intro hk
    rw [pcc_hashtable_get, chainFind_eq_none_iff]
    intro hmem
    exact hk (((bucket_keys_sublist _ (bucketIndex_lt hWF key)).subset) hmem)

/- Resize lemmas. -/

/-- One step of the rehash loop of `pcc_hashtable_resize`. -/
theorem rehash_fold_spec {α : Type} (nc : Nat) (hnc : 0 < nc) :
    ∀ (es : List (String × α)) (acc : List (List (String × α))),
      acc.length = nc →
      (∀ i, ∀ x ∈ acc.getD i [], pcc_default_hash x.1 % nc = i) →
      (es.foldl
          (fun bs e =>
            bs.set (pcc_default_hash e.1 % nc)
              (e :: bs.getD (pcc_default_hash e.1 % nc) [])) acc).length = nc
      ∧ ((es.foldl
          (fun bs e =>
            bs.set (pcc_default_hash e.1 % nc)
              (e :: bs.getD (pcc_default_hash e.1 % nc) [])) acc).flatten).Perm
          (es ++ acc.flatten)
      ∧ (∀ i, ∀ x ∈ (es.foldl
          (fun bs e =>
            bs.set (pcc_default_hash e.1 % nc)
              (e :: bs.getD (pcc_default_hash e.1 % nc) [])) acc).getD i [],
          pcc_default_hash x.1 % nc = i) := by
  intro es
  induction es with
  | nil =>
      intro acc hlen hplace
      exact ⟨hlen, List.Perm.refl _, hplace⟩
  | cons e es ih =>
      intro acc hlen hplace
      simp only [List.foldl_cons]
      have hidx : pcc_default_hash e.1 % nc < acc.length := by
        rw [hlen]; exact Nat.mod_lt _ hnc
      have hlen1 : (acc.set (pcc_default_hash e.1 % nc)
          (e :: acc.getD (pcc_default_hash e.1 % nc) [])).length = nc := by
        rw [List.length_set, hlen]
      have hplace1 : ∀ i, ∀ x ∈ (acc.set (pcc_default_hash e.1 % nc)
          (e :: acc.getD (pcc_default_hash e.1 % nc) [])).getD i [],
          pcc_default_hash x.1 % nc = i := by
        intro i x hx
        by_cases hi : pcc_default_hash e.1 % nc = i
        · subst hi
          rw [bucketsGetD_set_self _ _ _ hidx] at hx
          rcases List.mem_cons.mp hx with hx | hx
          · rw [hx]
          · exact hplace _ x hx
        · rw [bucketsGetD_set_other _ _ _ _ hi] at hx
          exact hplace i x hx
      obtain ⟨h1, h2, h3⟩ := ih (acc.set (pcc_default_hash e.1 % nc)
        (e :: acc.getD (pcc_default_hash e.1 % nc) [])) hlen1 hplace1
      refine ⟨h1, ?_, h3⟩
      refine h2.trans ?_
      refine ((flatten_set_cons_perm acc _ e hidx).append_left es).trans ?_
      exact List.perm_middle

theorem flatten_replicate_nil {β : Type} (n : Nat) :
    (List.replicate n ([] : List β)).flatten = [] := by
  induction n with
  | zero => rfl
  | succ n ih => rw [List.replicate_succ, List.flatten_cons, ih]; rfl

theorem getD_replicate_nil {β : Type} (n i : Nat) :
    (List.replicate n ([] : List β)).getD i [] = [] := by
  rw [List.getD_eq_getElem?_getD, List.getElem?_replicate]
  split <;> rfl

/-- `pcc_hashtable_resize` refuses (with `PCC_ERROR_RUNTIME`, the table left
unchanged) exactly when the requested capacity is below the current size. -/
theorem pcc_hashtable_resize_fail {α : Type} (t : PCCHashTable α) (nc : Nat)
    (h : nc < t.size) : pcc_hashtable_resize t nc = (t, .ERROR_RUNTIME) := by
  rw [pcc_hashtable_resize, if_pos h]

/-- `pcc_hashtable_resize` answers either success or the runtime error. -/
theorem pcc_hashtable_resize_status {α : Type} (t : PCCHashTable α) (nc : Nat) :
    (pcc_hashtable_resize t nc).2 = .SUCCESS
    ∨ (pcc_hashtable_resize t nc).2 = .ERROR_RUNTIME := by
  rw [pcc_hashtable_resize]
  split
  · exact Or.inr rfl
  · exact Or.inl rfl

/-- `pcc_hashtable_resize` to a positive capacity at least the current size
succeeds and preserves well-formedness, the entry multiset, the `size` field,
and every lookup. -/
theorem pcc_hashtable_resize_spec {α : Type} (t : PCCHashTable α)
    (hWF : HashTableWF t) (nc : Nat) (hnc : 0 < nc) (hts : t.size ≤ nc) :
    (pcc_hashtable_resize t nc).2 = .SUCCESS
    ∧ HashTableWF (pcc_hashtable_resize t nc).1
    ∧ (tableEntries (pcc_hashtable_resize t nc).1).Perm (tableEntries t)
    ∧ (pcc_hashtable_resize t nc).1.size = t.size
    ∧ (pcc_hashtable_resize t nc).1.capacity = nc
    ∧ ∀ k, pcc_hashtable_get (pcc_hashtable_resize t nc).1 k
        = pcc_hashtable_get t k := by
  have hlt : ¬ nc < t.size := not_lt.mpr hts
  obtain ⟨h1, h2, h3⟩ := rehash_fold_spec nc hnc (tableEntries t)
    (List.replicate nc []) (List.length_replicate nc [])
    (fun i x hx => absurd (getD_replicate_nil nc i ▸ hx) (List.not_mem_nil x))
  rw [flatten_replicate_nil, List.append_nil] at h2
  have hst : (pcc_hashtable_resize t nc).2 = .SUCCESS := by
    rw [pcc_hashtable_resize, if_neg hlt]
  have ht' : (pcc_hashtable_resize t nc).1 =
      { buckets :=
          (tableEntries t).foldl
            (fun bs e =>
              bs.set (pcc_default_hash e.1 % nc)
                (e :: bs.getD (pcc_default_hash e.1 % nc) []))
            (List.replicate nc [])
        size := t.size
        capacity := nc } := by
    rw [pcc_hashtable_resize, if_neg hlt]
    rfl
  have hWF' : HashTableWF (pcc_hashtable_resize t nc).1 := by
    rw [ht']
    exact
      { cap_buckets := h1
        cap_pos := hnc
        size_eq := by
          simpa [tableEntries] using (hWF.size_eq.trans h2.length_eq.symm)
        keys_nodup := by
          exact ((h2.map Prod.fst).symm.nodup hWF.keys_nodup : _)
        placed := h3 }
  have hperm : (tableEntries (pcc_hashtable_resize t nc).1).Perm (tableEntries t) := by
    rw [ht']
    exact h2
  refine ⟨hst, hWF', hperm, by rw [ht'], by rw [ht'], ?_⟩
  intro k
  cases h : pcc_hashtable_get t k with
  | some v =>
      exact (pcc_hashtable_get_eq_some_iff hWF' k v).mpr
        (hperm.symm.subset ((pcc_hashtable_get_eq_some_iff hWF k v).mp h))
  | none =>
      refine (pcc_hashtable_get_eq_none_iff hWF' k).mpr ?_
      intro hk
      exact ((pcc_hashtable_get_eq_none_iff hWF k).mp h)
        ((hperm.map Prod.fst).subset hk)

theorem pcc_hashtable_get_mk {α : Type} (bs : List (List (String × α)))
    (sz cap : Nat) (k : String) :
    pcc_hashtable_get ⟨bs, sz, cap⟩ k
      = chainFind k (bs.getD (pcc_default_hash k % cap) []) := rfl

theorem tableEntries_mk {α : Type} (bs : List (List (String × α))) (sz cap : Nat) :
    tableEntries (⟨bs, sz, cap⟩ : PCCHashTable α) = bs.flatten := rfl

/-- Full specification of the insert-or-update body of `pcc_hashtable_put` on
a well-formed table. -/
theorem pcc_hashtable_put_core_spec {α : Type} (t1 : PCCHashTable α)
    (hWF : HashTableWF t1) (key : String) (v : α) :
    (pcc_hashtable_put_core t1 key v).2 = .SUCCESS
    ∧ HashTableWF (pcc_hashtable_put_core t1 key v).1
    ∧ pcc_hashtable_get (pcc_hashtable_put_core t1 key v).1 key = some v
    ∧ (∀ k', k' ≠ key →
        pcc_hashtable_get (pcc_hashtable_put_core t1 key v).1 k'
          = pcc_hashtable_get t1 k')
    ∧ ((pcc_hashtable_get t1 key).isSome = true →
        (tableEntries (pcc_hashtable_put_core t1 key v).1).length
          = (tableEntries t1).length
        ∧ (pcc_hashtable_put_core t1 key v).1.size = t1.size)
    ∧ ((pcc_hashtable_get t1 key).isSome = false →
        (tableEntries (pcc_hashtable_put_core t1 key v).1).length
          = (tableEntries t1).length + 1
        ∧ (pcc_hashtable_put_core t1 key v).1.size = t1.size + 1) := by
  obtain ⟨bs, sz, cap⟩ := t1
  set i0 := pcc_default_hash key % cap with hi0
  have hidx : i0 < bs.length := bucketIndex_lt hWF key
  set b0 := bs.getD i0 [] with hb0
  have hget0 : pcc_hashtable_get ⟨bs, sz, cap⟩ key = chainFind key b0 := rfl
  by_cases hc : (chainFind key b0).isSome = true
  · -- key already present in its bucket: in-place value update
    set B := chainReplace key v b0 with hB
    have hcore : pcc_hashtable_put_core ⟨bs, sz, cap⟩ key v
        = (⟨bs.set i0 B, sz, cap⟩, .SUCCESS) := by
      rw [pcc_hashtable_put_core]
      simp only [← hi0, ← hb0, ← hB, hc, if_true]
    rw [hcore]
    have hflat : (bs.set i0 B).flatten
        = (bs.take i0).flatten ++ B ++ (bs.drop (i0 + 1)).flatten :=
      flatten_set_eq _ _ _ hidx
    have hflat0 : bs.flatten
        = (bs.take i0).flatten ++ b0 ++ (bs.drop (i0 + 1)).flatten :=
      flatten_decomp _ _ hidx
    have hkeys : ((bs.set i0 B).flatten).map Prod.fst
        = (bs.flatten).map Prod.fst := by
      rw [hflat, hflat0]
      simp only [List.map_append, hB, chainReplace_map_fst]
    have hlen : ((bs.set i0 B).flatten).length = (bs.flatten).length := by
      rw [hflat, hflat0]
      simp [hB, chainReplace_length]
    have hWF' : HashTableWF (⟨bs.set i0 B, sz, cap⟩ : PCCHashTable α) :=
      { cap_buckets := by
          show (bs.set i0 B).length = cap
          rw [List.length_set]
          exact hWF.cap_buckets
        cap_pos := hWF.cap_pos
        size_eq := by
          have hsz : sz = bs.flatten.length := hWF.size_eq
          rw [tableEntries_mk, hlen]
          exact hsz
        keys_nodup := by
          rw [tableEntries_mk, hkeys]
          exact hWF.keys_nodup
        placed := by
          intro i x hx
          show pcc_default_hash x.1 % cap = i
          rw [show (⟨bs.set i0 B, sz, cap⟩ : PCCHashTable α).buckets
            = bs.set i0 B from rfl] at hx
          by_cases hi : i0 = i
          · rw [← hi, bucketsGetD_set_self _ _ _ hidx] at hx
            have hx1 : x.1 ∈ b0.map Prod.fst := by
              rw [← chainReplace_map_fst key v b0, ← hB]
              exact List.mem_map.mpr ⟨x, hx, rfl⟩
            obtain ⟨y, hy, hyx⟩ := List.mem_map.mp hx1
            have hp : pcc_default_hash y.1 % cap = i0 := hWF.placed i0 y hy
            rw [← hyx, hp, hi]
          · rw [bucketsGetD_set_other _ _ _ _ hi] at hx
            exact hWF.placed i x hx }
    refine ⟨rfl, hWF', ?_, ?_, ?_, ?_⟩
    · rw [pcc_hashtable_get_mk, ← hi0, bucketsGetD_set_self _ _ _ hidx, hB]
      exact chainFind_chainReplace_self key v b0 hc
    · intro k' hk'
      rw [pcc_hashtable_get_mk, pcc_hashtable_get_mk]
      by_cases hj : i0 = pcc_default_hash k' % cap
      · rw [← hj, bucketsGetD_set_self _ _ _ hidx, hB,
          show bs.getD i0 [] = b0 from rfl]
        exact chainFind_chainReplace_other key v k' b0 hk'
      · rw [bucketsGetD_set_other _ _ _ _ hj]
    · intro _
      exact ⟨by rw [tableEntries_mk, tableEntries_mk, hlen], rfl⟩
    · intro hfalse
      rw [hget0, hc] at hfalse
      cases hfalse
  · -- key absent from its bucket: append a fresh entry at the chain tail
    have hcn : chainFind key b0 = none := by
      cases h : chainFind key b0 with
      | none => rfl
      | some w => rw [h] at hc; simp at hc
    have hcore : pcc_hashtable_put_core ⟨bs, sz, cap⟩ key v
        = (⟨bs.set i0 (b0 ++ [(key, v)]), sz + 1, cap⟩, .SUCCESS) := by
      rw [pcc_hashtable_put_core]
      simp only [← hi0, ← hb0, hcn]
      rfl
    rw [hcore]
    have hknotin : key ∉ (bs.flatten).map Prod.fst := by
      have := (pcc_hashtable_get_eq_none_iff hWF key).mp (hget0.trans hcn)
      simpa [tableEntries] using this
    have hflat : (bs.set i0 (b0 ++ [(key, v)])).flatten
        = (bs.take i0).flatten ++ (b0 ++ [(key, v)]) ++ (bs.drop (i0 + 1)).flatten :=
      flatten_set_eq _ _ _ hidx
    have hflat0 : bs.flatten
        = (bs.take i0).flatten ++ b0 ++ (bs.drop (i0 + 1)).flatten :=
      flatten_decomp _ _ hidx
    have hperm : ((bs.set i0 (b0 ++ [(key, v)])).flatten).Perm
        ((key, v) :: bs.flatten) := by
      rw [hflat, hflat0]
      have h1 : (bs.take i0).flatten ++ (b0 ++ [(key, v)]) ++ (bs.drop (i0 + 1)).flatten
          = ((bs.take i0).flatten ++ b0) ++ (key, v) :: (bs.drop (i0 + 1)).flatten := by
        simp
      have h2 : (bs.take i0).flatten ++ b0 ++ (bs.drop (i0 + 1)).flatten
          = ((bs.take i0).flatten ++ b0) ++ (bs.drop (i0 + 1)).flatten := rfl
      rw [h1, h2]
      exact List.perm_middle
    have hlen : ((bs.set i0 (b0 ++ [(key, v)])).flatten).length
        = (bs.flatten).length + 1 := by
      rw [hperm.length_eq]
      rfl
    have hWF' : HashTableWF
        (⟨bs.set i0 (b0 ++ [(key, v)]), sz + 1, cap⟩ : PCCHashTable α) :=
      { cap_buckets := by
          show (bs.set i0 (b0 ++ [(key, v)])).length = cap
          rw [List.length_set]
          exact hWF.cap_buckets
        cap_pos := hWF.cap_pos
        size_eq := by
          have hsz : sz = bs.flatten.length := hWF.size_eq
          rw [tableEntries_mk, hlen]
          show sz + 1 = bs.flatten.length + 1
          omega
        keys_nodup := by
          rw [tableEntries_mk]
          refine ((hperm.map Prod.fst).symm.nodup ?_ : _)
          rw [List.map_cons, List.nodup_cons]
          exact ⟨hknotin, hWF.keys_nodup⟩
        placed := by
          intro i x hx
          show pcc_default_hash x.1 % cap = i
          rw [show (⟨bs.set i0 (b0 ++ [(key, v)]), sz + 1, cap⟩ :
            PCCHashTable α).buckets = bs.set i0 (b0 ++ [(key, v)]) from rfl] at hx
          by_cases hi : i0 = i
          · rw [← hi, bucketsGetD_set_self _ _ _ hidx] at hx
            rcases List.mem_append.mp hx with hx | hx
            · have hp : pcc_default_hash x.1 % cap = i0 := hWF.placed i0 x hx
              rw [hp, hi]
            · rcases List.mem_singleton.mp hx with rfl
              rw [← hi, hi0]
          · rw [bucketsGetD_set_other _ _ _ _ hi] at hx
            exact hWF.placed i x hx }
    refine ⟨rfl, hWF', ?_, ?_, ?_, ?_⟩
    · rw [pcc_hashtable_get_mk, ← hi0, bucketsGetD_set_self _ _ _ hidx,
        chainFind_append, hcn]
      simp [chainFind]
    · intro k' hk'
      rw [pcc_hashtable_get_mk, pcc_hashtable_get_mk]
      by_cases hj : i0 = pcc_default_hash k' % cap
      · rw [← hj, bucketsGetD_set_self _ _ _ hidx, chainFind_append,
          show bs.getD i0 [] = b0 from rfl]
        have hone : chainFind k' [(key, v)] = none := by
          rw [chainFind]
          rw [if_neg (fun h : key = k' => hk' h.symm)]
          rfl
        cases h : chainFind k' b0 <;> simp [h, hone]
      · rw [bucketsGetD_set_other _ _ _ _ hj]
    · intro htrue
      rw [hget0, hcn] at htrue
      cases htrue
    · intro _
      refine ⟨by rw [tableEntries_mk, tableEntries_mk, hlen], rfl⟩

/-- `pcc_hashtable_put` refuses — propagating the resize's
`PCC_ERROR_RUNTIME` and inserting nothing, the table unchanged — exactly
when the load factor triggers a resize that a doubled capacity still cannot
accommodate. -/
theorem pcc_hashtable_put_fail {α : Type} (t : PCCHashTable α) (key : String)
    (v : α) (hbig : t.capacity * 2 < t.size) :
    pcc_hashtable_put t key v = (t, .ERROR_RUNTIME) := by
  have hload : t.size > t.capacity * 3 / 4 := by omega
  simp only [pcc_hashtable_put]
  rw [if_pos hload, pcc_hashtable_resize_fail t _ hbig]
  rfl

/-- The body of `pcc_hashtable_put` after the resize always succeeds. -/
theorem pcc_hashtable_put_core_status {α : Type} (t1 : PCCHashTable α)
    (key : String) (v : α) : (pcc_hashtable_put_core t1 key v).2 = .SUCCESS := by
  simp only [pcc_hashtable_put_core]
  split <;> rfl

/-- `pcc_hashtable_put` answers either success or the runtime error of a
refused resize. -/
theorem pcc_hashtable_put_status {α : Type} (t : PCCHashTable α) (key : String)
    (v : α) :
    (pcc_hashtable_put t key v).2 = .SUCCESS
    ∨ (pcc_hashtable_put t key v).2 = .ERROR_RUNTIME := by
  simp only [pcc_hashtable_put]
  split
  · split
    · exact Or.inl (pcc_hashtable_put_core_status _ _ _)
    · rename_i hr
      rcases pcc_hashtable_resize_status t (t.capacity * 2) with h | h
      · exact absurd h hr
      · exact Or.inr h
  · exact Or.inl (pcc_hashtable_put_core_status _ _ _)

/-- Full specification of `pcc_hashtable_put` on a well-formed table whose
size is within twice its capacity (every table the program builds satisfies
this bound — the last conjunct shows one put preserves it, and a fresh table
starts at size 0 — and on it the resize guard never refuses). -/
theorem pcc_hashtable_put_spec {α : Type} (t : PCCHashTable α)
    (hWF : HashTableWF t) (key : String) (v : α)
    (hcap : t.size ≤ t.capacity * 2) :
    (pcc_hashtable_put t key v).2 = .SUCCESS
    ∧ HashTableWF (pcc_hashtable_put t key v).1
    ∧ pcc_hashtable_get (pcc_hashtable_put t key v).1 key = some v
    ∧ (∀ k', k' ≠ key →
        pcc_hashtable_get (pcc_hashtable_put t key v).1 k'
          = pcc_hashtable_get t k')
    ∧ (pcc_hashtable_contains t key = true →
        (tableEntries (pcc_hashtable_put t key v).1).length
          = (tableEntries t).length
        ∧ (pcc_hashtable_put t key v).1.size = t.size)
    ∧ (pcc_hashtable_contains t key = false →
        (tableEntries (pcc_hashtable_put t key v).1).length
          = (tableEntries t).length + 1
        ∧ (pcc_hashtable_put t key v).1.size = t.size + 1)
    ∧ (pcc_hashtable_put t key v).1.size
        ≤ (pcc_hashtable_put t key v).1.capacity * 2 := by
  obtain ⟨t1, hput, hWF1, hperm1, hsz1, hcap1, hget1⟩ :
      ∃ t1, pcc_hashtable_put t key v = pcc_hashtable_put_core t1 key v
      ∧ HashTableWF t1
      ∧ (tableEntries t1).Perm (tableEntries t)
      ∧ t1.size = t.size
      ∧ t1.size + 1 ≤ t1.capacity * 2
      ∧ ∀ k, pcc_hashtable_get t1 k = pcc_hashtable_get t k := by
    by_cases hload : t.size > t.capacity * 3 / 4
    · obtain ⟨hs, hWF1, hperm1, hsz1, hc1, hget1⟩ :=
        pcc_hashtable_resize_spec t hWF (t.capacity * 2)
          (Nat.mul_pos hWF.cap_pos two_pos) hcap
      refine ⟨(pcc_hashtable_resize t (t.capacity * 2)).1, ?_, hWF1, hperm1,
        hsz1, ?_, hget1⟩
      · simp only [pcc_hashtable_put]
        rw [if_pos hload, if_pos hs]
      · have hc := hWF.cap_pos
        omega
    · refine ⟨t, ?_, hWF, List.Perm.refl _, rfl, ?_, fun _ => rfl⟩
      · simp only [pcc_hashtable_put]
        rw [if_neg hload]
      · have hc := hWF.cap_pos
        omega
  obtain ⟨hc1, hc2, hc3, hc4, hc5, hc6⟩ :=
    pcc_hashtable_put_core_spec t1 hWF1 key v
  rw [hput]
  have hszcore : (pcc_hashtable_put_core t1 key v).1.size ≤ t1.size + 1 := by
    cases hsome : (pcc_hashtable_get t1 key).isSome with
    | true => have := (hc5 hsome).2; omega
    | false => have := (hc6 hsome).2; omega
  have hcapcore : (pcc_hashtable_put_core t1 key v).1.capacity = t1.capacity := by
    simp only [pcc_hashtable_put_core]
    split <;> rfl
  refine ⟨hc1, hc2, hc3, ?_, ?_, ?_, ?_⟩
  · intro k' hk'
    rw [hc4 k' hk', hget1 k']
  · intro hcontains
    have hsome : (pcc_hashtable_get t1 key).isSome = true := by
      rw [hget1 key]
      exact hcontains
    obtain ⟨hl, hsz⟩ := hc5 hsome
    exact ⟨hl.trans hperm1.length_eq, hsz.trans hsz1⟩
  · intro hcontains
    have hnone : (pcc_hashtable_get t1 key).isSome = false := by
      rw [hget1 key]
      exact hcontains
    obtain ⟨hl, hsz⟩ := hc6 hnone
    constructor
    · rw [hl, hperm1.length_eq]
    · rw [hsz, hsz1]
  · rw [hcapcore]
    omega

/-- C10: the hash map keeps keys unique.  On every well-formed table whose
size is within twice its capacity — the bound every table the program builds
satisfies: it holds of a fresh table and, as the second-to-last conjunct
shows, each `put` preserves it — `put` under a key that is already present
replaces the stored value without adding an entry or changing the entry
count (both the `size` field and the actual number of entries); `put` under
an absent key adds exactly one entry; in both cases the call succeeds, a
subsequent `get` of that key returns the value just stored, and every other
key's lookup is unchanged.  Beyond that bound the C refuses: the load-factor
resize cannot reach the current size even doubled, and `put` returns
`PCC_ERROR_RUNTIME` inserting nothing (last conjunct, for every table). -/
theorem C10_hashtable_put_unique_keys {α : Type} (t : PCCHashTable α)
    (hWF : HashTableWF t) (key : String) (v : α)
    (hcap : t.size ≤ t.capacity * 2) :
    pcc_hashtable_get (pcc_hashtable_put t key v).1 key = some v
    ∧ (∀ k', k' ≠ key →
        pcc_hashtable_get (pcc_hashtable_put t key v).1 k'
          = pcc_hashtable_get t k')
    ∧ (pcc_hashtable_contains t key = true →
        (tableEntries (pcc_hashtable_put t key v).1).length
          = (tableEntries t).length
        ∧ (pcc_hashtable_put t key v).1.size = t.size)
    ∧ (pcc_hashtable_contains t key = false →
        (tableEntries (pcc_hashtable_put t key v).1).length
          = (tableEntries t).length + 1
        ∧ (pcc_hashtable_put t key v).1.size = t.size + 1)
    ∧ (pcc_hashtable_put t key v).2 = .SUCCESS
    ∧ (pcc_hashtable_put t key v).1.size
        ≤ (pcc_hashtable_put t key v).1.capacity * 2
    ∧ ∀ u : PCCHashTable α, u.capacity * 2 < u.size →
        pcc_hashtable_put u key v = (u, .ERROR_RUNTIME) := by
  obtain ⟨h1, _, h3, h4, h5, h6, h7⟩ := pcc_hashtable_put_spec t hWF key v hcap
  exact ⟨h3, h4, h5, h6, h1, h7, fun u hu => pcc_hashtable_put_fail u key v hu⟩

/-- The freshly created table is well-formed. -/
theorem pcc_hashtable_create_WF (α : Type) (c : Nat) :
    HashTableWF (pcc_hashtable_create α c) :=
  { cap_buckets := by
      rw [pcc_hashtable_create]
      exact List.length_replicate _ _
    cap_pos := by
      rw [pcc_hashtable_create]
      split <;> simp [INITIAL_CAPACITY]
      omega
    size_eq := by
      rw [pcc_hashtable_create]
      simp [tableEntries, flatten_replicate_nil]
    keys_nodup := by
      rw [pcc_hashtable_create]
      simp [tableEntries, flatten_replicate_nil]
    placed := by
      intro i e he
      rw [pcc_hashtable_create] at he
      simp only at he
      rw [getD_replicate_nil] at he
      cases he }

/-- Witness for C10 on concrete tables: an empty 2-bucket table under key
`"x"` takes the successful path, and a crafted over-full table (one bucket,
three entries) exercises the refusal path. -/
theorem C10_witness :
    pcc_hashtable_get
        (pcc_hashtable_put (pcc_hashtable_create Nat 2) "x" 1).1 "x" = some 1
    ∧ (∀ k', k' ≠ "x" →
        pcc_hashtable_get (pcc_hashtable_put (pcc_hashtable_create Nat 2) "x" 1).1 k'
          = pcc_hashtable_get (pcc_hashtable_create Nat 2) k')
    ∧ (pcc_hashtable_contains (pcc_hashtable_create Nat 2) "x" = false →
        (tableEntries (pcc_hashtable_put (pcc_hashtable_create Nat 2) "x" 1).1).length
          = (tableEntries (pcc_hashtable_create Nat 2)).length + 1
        ∧ (pcc_hashtable_put (pcc_hashtable_create Nat 2) "x" 1).1.size
          = (pcc_hashtable_create Nat 2).size + 1)
    ∧ (pcc_hashtable_put (pcc_hashtable_create Nat 2) "x" 1).2 = .SUCCESS
    ∧ pcc_hashtable_put
        (⟨[[("a", 1), ("b", 2), ("c", 3)]], 3, 1⟩ : PCCHashTable Nat) "x" 1
      = (⟨[[("a", 1), ("b", 2), ("c", 3)]], 3, 1⟩, .ERROR_RUNTIME) := by
  obtain ⟨h1, h2, _, h4, h5, _, h7⟩ :=
    C10_hashtable_put_unique_keys (pcc_hashtable_create Nat 2)
      (pcc_hashtable_create_WF Nat 2) "x" 1 (by decide)
  exact ⟨h1, h2, h4, h5, h7 _ (by decide)⟩

/-- C4: `symbol_table_add` inserts into the current scope only, and reports
exactly one redefinition error — leaving the table (and in particular the
current scope's map) unchanged and inserting nothing — precisely when a
symbol of the same name already exists in that exact scope; when the name is
absent from the current scope (even if a same-named symbol exists in an
enclosing scope, since only the current scope is consulted), no error is
recorded and the insertion into the current scope succeeds, the outer scopes
staying untouched.  The hypothesis keeps the scope map's size within twice
its capacity — the bound every scope map actually reaches satisfies (it
holds at `scope_create` and each `pcc_hashtable_put` preserves it, see
`pcc_hashtable_put_spec`), under which the put's internal resize never
refuses. -/
theorem C4_symbol_table_add_scoping (t : SymbolTable) (s : Symbol)
    (hWF : HashTableWF t.current_scope.symbols)
    (hcap : t.current_scope.symbols.size ≤ t.current_scope.symbols.capacity * 2) :
    (pcc_hashtable_contains t.current_scope.symbols s.name = true →
      (symbol_table_add t s).2 = .ERROR_SEMANTIC
      ∧ (symbol_table_add t s).1.current_scope = t.current_scope
      ∧ (symbol_table_add t s).1.outer_scopes = t.outer_scopes
      ∧ (symbol_table_add t s).1.errors = t.errors ++
          [{ message := "Symbol \x27" ++ s.name ++ "\x27 already defined in this scope",
             position := s.position,
             error_code := SEM_ERROR_REDEFINED_SYMBOL }])
    ∧ (pcc_hashtable_contains t.current_scope.symbols s.name = false →
      (symbol_table_add t s).2 = .SUCCESS
      ∧ (symbol_table_add t s).1.errors = t.errors
      ∧ (symbol_table_add t s).1.outer_scopes = t.outer_scopes
      ∧ (symbol_table_add t s).1.current_scope.scope_level
          = t.current_scope.scope_level
      ∧ symbol_table_lookup_local (symbol_table_add t s).1 s.name = some s
      ∧ ∀ n', n' ≠ s.name →
          symbol_table_lookup_local (symbol_table_add t s).1 n'
            = symbol_table_lookup_local t n') := by
  constructor
  · intro hc
    rw [symbol_table_add, if_pos hc]
    exact ⟨rfl, rfl, rfl, rfl⟩
  · intro hc
    rw [symbol_table_add, if_neg (by rw [hc]; exact Bool.false_ne_true)]
    obtain ⟨hst, _, hget, hother, _, _, _⟩ :=
      pcc_hashtable_put_spec t.current_scope.symbols hWF s.name s hcap
    refine ⟨hst, rfl, rfl, rfl, ?_, ?_⟩
    · exact hget
    · intro n' hn'
      exact hother n' hn'

/-- Witness for C4: on a fresh table, the first add of variable `x` succeeds,
and a second add of the same name in the same scope is rejected with exactly
one recorded redefinition error. -/
theorem C4_witness :
    (symbol_table_add symbol_table_create
        (symbol_create "x" .SYMBOL_VARIABLE none ⟨1, 1, "w"⟩)).2 = .SUCCESS
    ∧ (symbol_table_add
        (symbol_table_add symbol_table_create
          (symbol_create "x" .SYMBOL_VARIABLE none ⟨1, 1, "w"⟩)).1
        (symbol_create "x" .SYMBOL_VARIABLE none ⟨2, 1, "w"⟩)).2 = .ERROR_SEMANTIC
    ∧ (symbol_table_add
        (symbol_table_add symbol_table_create
          (symbol_create "x" .SYMBOL_VARIABLE none ⟨1, 1, "w"⟩)).1
        (symbol_create "x" .SYMBOL_VARIABLE none ⟨2, 1, "w"⟩)).1.errors.length = 1 := by
  have hWF0 : HashTableWF symbol_table_create.current_scope.symbols :=
    pcc_hashtable_create_WF Symbol INITIAL_CAPACITY
  have hWF1 : HashTableWF (symbol_table_add symbol_table_create
      (symbol_create "x" .SYMBOL_VARIABLE none ⟨1, 1, "w"⟩)).1.current_scope.symbols :=
    (pcc_hashtable_put_spec symbol_table_create.current_scope.symbols hWF0
      "x" (symbol_create "x" .SYMBOL_VARIABLE none ⟨1, 1, "w"⟩) (by decide)).2.1
  refine ⟨((C4_symbol_table_add_scoping symbol_table_create
      (symbol_create "x" .SYMBOL_VARIABLE none ⟨1, 1, "w"⟩) hWF0
      (by decide)).2 rfl).1, ?_, ?_⟩
  · exact ((C4_symbol_table_add_scoping _
      (symbol_create "x" .SYMBOL_VARIABLE none ⟨2, 1, "w"⟩) hWF1
      (by decide)).1 rfl).1
  · have he := ((C4_symbol_table_add_scoping _
      (symbol_create "x" .SYMBOL_VARIABLE none ⟨2, 1, "w"⟩) hWF1
      (by decide)).1 rfl).2.2.2
    rw [he]
    rfl

theorem goodChain_replace_head {c c' : Scope} {rest : List Scope}
    (h : goodChain (c :: rest)) (hl : c'.scope_level = c.scope_level) :
    goodChain (c' :: rest) := by
  cases rest with
  | nil => rw [goodChain, hl]; exact h
  | cons p r2 => exact ⟨by rw [hl]; exact h.1, h.2⟩

theorem scope_chain_mark_used_goodChain (name : String) :
    ∀ l : List Scope,
      (scope_chain_mark_used name l).length = l.length
      ∧ headLevel (scope_chain_mark_used name l) = headLevel l
      ∧ (goodChain l → goodChain (scope_chain_mark_used name l)) := by
  intro l
  induction l with
  | nil => exact ⟨rfl, rfl, fun h => h⟩
  | cons s rest ih =>
      rw [scope_chain_mark_used]
      split
      · refine ⟨by simp, rfl, ?_⟩
        intro h
        exact goodChain_replace_head h rfl
      · refine ⟨by simp [ih.1], rfl, ?_⟩
        intro h
        cases rest with
        | nil => exact h
        | cons p r2 =>
            cases hm : scope_chain_mark_used name (p :: r2) with
            | nil =>
                exfalso
                have := ih.1
                rw [hm] at this
                simp at this
            | cons q qs =>
                have hhead : q.scope_level = p.scope_level := by
                  have := ih.2.1
                  rw [hm] at this
                  exact this
                refine ⟨?_, ?_⟩
                · rw [hhead]
                  exact h.1
                · have := ih.2.2 h.2
                  rw [hm] at this
                  exact this

/-- The scope-chain invariant holds in every reachable symbol-table state. -/
theorem reachable_goodChain {t : SymbolTable} (hr : SymbolTableReachable t) :
    goodChain (t.current_scope :: t.outer_scopes) := by
  induction hr with
  | create => exact rfl
  | enter hr ih =>
      exact ⟨rfl, ih⟩
  | leave hr ih =>
      rename_i t'
      cases houter : t'.outer_scopes with
      | nil =>
          have hexit : (symbol_table_exit_scope t').1 = t' := by
            rw [symbol_table_exit_scope, houter]
          rw [hexit]
          exact ih
      | cons p rest =>
          have hexit : (symbol_table_exit_scope t').1
              = { current_scope := p, outer_scopes := rest, errors := t'.errors } := by
            rw [symbol_table_exit_scope, houter]
          rw [hexit]
          rw [houter] at ih
          exact ih.2
  | add s hr ih =>
      rename_i t'
      rw [symbol_table_add]
      split
      · exact ih
      · exact goodChain_replace_head ih rfl
  | mark name hr ih =>
      rename_i t'
      rw [symbol_table_mark_used]
      cases hl : symbol_table_lookup t' name with
      | none => exact ih
      | some sym =>
          simp only
          cases hm : scope_chain_mark_used name (t'.current_scope :: t'.outer_scopes) with
          | nil => exact ih
          | cons c rest =>
              have := (scope_chain_mark_used_goodChain name
                (t'.current_scope :: t'.outer_scopes)).2.2 ih
              rw [hm] at this
              exact this
  | record msg pos code hr ih =>
      exact ih

/-- C8: in every reachable symbol-table state the scope chain is well formed —
it ends at the global scope, which has level 0 and no parent, and every other
scope has exactly one parent whose level is one below its own (so the current
scope reaches the global scope by a finite parent chain).  `enter_scope`
pushes a scope whose parent is the previous current scope and whose level is
the parent's level plus one, and `exit_scope` pops to the parent but fails,
leaving the table unchanged, exactly when the current scope is the global
scope (no parent). -/
theorem C8_scope_chain_invariants (t : SymbolTable)
    (hr : SymbolTableReachable t) :
    goodChain (t.current_scope :: t.outer_scopes)
    ∧ ((t.current_scope :: t.outer_scopes).getLast (by simp)).scope_level = 0
    ∧ (symbol_table_enter_scope t).1.current_scope.scope_level
        = t.current_scope.scope_level + 1
    ∧ (symbol_table_enter_scope t).1.outer_scopes
        = t.current_scope :: t.outer_scopes
    ∧ (t.outer_scopes = [] →
        symbol_table_exit_scope t = (t, .ERROR_RUNTIME))
    ∧ (∀ p rest, t.outer_scopes = p :: rest →
        (symbol_table_exit_scope t).2 = .SUCCESS
        ∧ (symbol_table_exit_scope t).1.current_scope = p
        ∧ (symbol_table_exit_scope t).1.outer_scopes = rest) := by
  have hchain := reachable_goodChain hr
  have hlast : ∀ l : List Scope, goodChain l → ∀ h : l ≠ [],
      (l.getLast h).scope_level = 0 := by
    intro l
    induction l with
    | nil => intro h hne; cases hne rfl
    | cons s rest ih =>
        intro h hne
        cases rest with
        | nil => exact h
        | cons p r2 =>
            rw [List.getLast_cons (by simp)]
            exact ih h.2 (by simp)
  refine ⟨hchain, hlast _ hchain (by simp), rfl, rfl, ?_, ?_⟩
  · intro houter
    rw [symbol_table_exit_scope, houter]
  · intro p rest houter
    rw [symbol_table_exit_scope, houter]
    exact ⟨rfl, rfl, rfl⟩

/-- Witness for C8: a reachable two-scope table (create, one enter-scope):
exiting once pops back to the global scope and a further exit on the global
scope fails and leaves the table unchanged. -/
theorem C8_witness :
    goodChain ((symbol_table_enter_scope symbol_table_create).1.current_scope ::
      (symbol_table_enter_scope symbol_table_create).1.outer_scopes)
    ∧ (symbol_table_enter_scope symbol_table_create).1.current_scope.scope_level = 1
    ∧ (symbol_table_exit_scope
        (symbol_table_enter_scope symbol_table_create).1).1.current_scope.scope_level = 0
    ∧ symbol_table_exit_scope symbol_table_create
        = (symbol_table_create, .ERROR_RUNTIME) := by
  have h1 := C8_scope_chain_invariants (symbol_table_enter_scope symbol_table_create).1
    (SymbolTableReachable.enter SymbolTableReachable.create)
  have h0 := C8_scope_chain_invariants symbol_table_create SymbolTableReachable.create
  refine ⟨h1.1, ?_, ?_, ?_⟩
  · rfl
  · obtain ⟨_, hcur, _⟩ := h1.2.2.2.2.2 symbol_table_create.current_scope [] rfl
    rw [hcur]
    rfl
  · exact h0.2.2.2.2.1 rfl

theorem symbol_table_add_errors_cases (t : SymbolTable) (s : Symbol) :
    ((symbol_table_add t s).1.errors = t.errors
      ∧ ¬ (symbol_table_add t s).2 = .ERROR_SEMANTIC)
    ∨ ((symbol_table_add t s).2 = .ERROR_SEMANTIC
        ∧ (symbol_table_add t s).1.errors.length = t.errors.length + 1) := by
  cases hc : pcc_hashtable_contains t.current_scope.symbols s.name
  · left
    rw [symbol_table_add, if_neg (by rw [hc]; exact Bool.false_ne_true)]
    refine ⟨rfl, ?_⟩
    intro hcon
    rcases pcc_hashtable_put_status t.current_scope.symbols s.name s with h | h
    · rw [h] at hcon
      exact (nomatch hcon)
    · rw [h] at hcon
      exact (nomatch hcon)
  · right
    rw [symbol_table_add, if_pos hc]
    exact ⟨rfl, by simp [symbol_table_add_error]⟩

theorem add_success_errors (t : SymbolTable) (s : Symbol)
    (hs : (symbol_table_add t s).2 = .SUCCESS) :
    (symbol_table_add t s).1.errors = t.errors := by
  rcases symbol_table_add_errors_cases t s with ⟨he, _⟩ | ⟨hs2, _⟩
  · exact he
  · rw [hs] at hs2
    exact (nomatch hs2)

theorem symbol_table_add_mono (t : SymbolTable) (s : Symbol) :
    t.errors.length ≤ (symbol_table_add t s).1.errors.length
    ∧ ((symbol_table_add t s).2 = .ERROR_SEMANTIC →
        t.errors.length < (symbol_table_add t s).1.errors.length) := by
  rcases symbol_table_add_errors_cases t s with ⟨he, hn⟩ | ⟨_, he⟩
  · exact ⟨le_of_eq (congrArg List.length he).symm, fun h => absurd h hn⟩
  · exact ⟨by omega, fun _ => by omega⟩

theorem symbol_table_add_errors_le (t : SymbolTable) (s : Symbol) :
    t.errors.length ≤ (symbol_table_add t s).1.errors.length :=
  (symbol_table_add_mono t s).1

theorem symbol_table_exit_errors (t : SymbolTable) :
    (symbol_table_exit_scope t).1.errors = t.errors := by
  cases houter : t.outer_scopes <;> simp [symbol_table_exit_scope, houter]

theorem symbol_table_mark_used_errors_le (t : SymbolTable) (name : String) :
    t.errors.length ≤ (symbol_table_mark_used t name).1.errors.length := by
  rw [symbol_table_mark_used]
  cases hl : symbol_table_lookup t name with
  | none => simp [symbol_table_add_error]
  | some s =>
      cases hm : scope_chain_mark_used name (t.current_scope :: t.outer_scopes) with
      | nil => exact le_refl _
      | cons c rest => exact le_refl _

theorem sem_addParams_errors_le (params : List String) :
    ∀ (a : SemanticAnalyzer) (pos : PCCPosition),
      a.symbol_table.errors.length
        ≤ (sem_addParams a params pos).symbol_table.errors.length := by
  induction params with
  | nil => intro a pos; exact le_refl _
  | cons p ps ih =>
      intro a pos
      have hstep : sem_addParams a (p :: ps) pos
          = sem_addParams { a with symbol_table :=
              (symbol_table_add a.symbol_table
                (symbol_create p .SYMBOL_PARAMETER none pos)).1 } ps pos := rfl
      rw [hstep]
      exact le_trans
        (symbol_table_add_errors_le a.symbol_table
          (symbol_create p .SYMBOL_PARAMETER none pos))
        (ih { a with symbol_table :=
            (symbol_table_add a.symbol_table
              (symbol_create p .SYMBOL_PARAMETER none pos)).1 } pos)

theorem sem_analyze_errors_mono : ∀ f : Nat,
    (∀ (a : SemanticAnalyzer) (n : ASTNode),
      a.symbol_table.errors.length
        ≤ (semantic_analyze f a n).1.symbol_table.errors.length
      ∧ ((semantic_analyze f a n).2 = .ERROR_SEMANTIC →
          a.symbol_table.errors.length
            < (semantic_analyze f a n).1.symbol_table.errors.length))
    ∧ (∀ (a : SemanticAnalyzer) (l : List ASTNode),
      a.symbol_table.errors.length
        ≤ (sem_analyzeList f a l).1.symbol_table.errors.length
      ∧ ((sem_analyzeList f a l).2 = .ERROR_SEMANTIC →
          a.symbol_table.errors.length
            < (sem_analyzeList f a l).1.symbol_table.errors.length))
    ∧ (∀ (a : SemanticAnalyzer) (l : List ASTNode),
      a.symbol_table.errors.length
        ≤ (sem_analyzeListIgn f a l).symbol_table.errors.length)
    ∧ (∀ (a : SemanticAnalyzer) (o : Option ASTNode),
      a.symbol_table.errors.length
        ≤ (sem_analyzeOptErr f a o).1.symbol_table.errors.length
      ∧ ((sem_analyzeOptErr f a o).2 = .ERROR_SEMANTIC →
          a.symbol_table.errors.length
            < (sem_analyzeOptErr f a o).1.symbol_table.errors.length)) := by
  intro f
  induction f with
  | zero =>
      refine ⟨fun a n => ⟨le_refl _, fun h => ?_⟩,
        fun a l => ⟨le_refl _, fun h => ?_⟩,
        fun a l => le_refl _,
        fun a o => ⟨le_refl _, fun h => ?_⟩⟩
      · simp [semantic_analyze] at h
      · simp [sem_analyzeList] at h
      · simp [sem_analyzeOptErr] at h
  | succ f ih =>
      obtain ⟨ihA, ihL, ihI, ihO⟩ := ih
      refine ⟨fun a n => ?_, fun a l => ?_, fun a l => ?_, fun a o => ?_⟩
      · cases n with
        | program stmts pos => exact ihL a stmts
        | promptDef name body pos =>
            simp only [semantic_analyze]
            split
            · rename_i hs
              have he := add_success_errors _ _ hs
              have hO := ihO (⟨(symbol_table_add a.symbol_table
                  (symbol_create name .SYMBOL_PROMPT
                    (some (.promptDef name body pos)) pos)).1,
                a.has_errors⟩ : SemanticAnalyzer) body
              exact ⟨le_trans (le_of_eq (congrArg List.length he).symm) hO.1,
                fun h => lt_of_le_of_lt (le_of_eq (congrArg List.length he).symm)
                  (hO.2 h)⟩
            · exact ⟨(symbol_table_add_mono a.symbol_table _).1,
                fun h => (symbol_table_add_mono a.symbol_table _).2 h⟩
        | varDecl name init pos =>
            simp only [semantic_analyze]
            split
            · rename_i hs
              have he := add_success_errors _ _ hs
              have hO := ihO (⟨(symbol_table_add a.symbol_table
                  (symbol_create name .SYMBOL_VARIABLE
                    (some (.varDecl name init pos)) pos)).1,
                a.has_errors⟩ : SemanticAnalyzer) init
              exact ⟨le_trans (le_of_eq (congrArg List.length he).symm) hO.1,
                fun h => lt_of_le_of_lt (le_of_eq (congrArg List.length he).symm)
                  (hO.2 h)⟩
            · exact ⟨(symbol_table_add_mono a.symbol_table _).1,
                fun h => (symbol_table_add_mono a.symbol_table _).2 h⟩
        | templateDef name params body pos =>
            simp only [semantic_analyze]
            split
            · rename_i hs
              have he := add_success_errors _ _ hs
              have h1 : a.symbol_table.errors.length
                  ≤ (sem_addParams
                      ⟨(symbol_table_enter_scope
                          (symbol_table_add a.symbol_table
                            (symbol_create name .SYMBOL_TEMPLATE
                              (some (.templateDef name params body pos)) pos)).1).1,
                        a.has_errors⟩ params pos).symbol_table.errors.length :=
                le_trans (le_of_eq (congrArg List.length he).symm)
                  (sem_addParams_errors_le params
                    (⟨(symbol_table_enter_scope
                        (symbol_table_add a.symbol_table
                          (symbol_create name .SYMBOL_TEMPLATE
                            (some (.templateDef name params body pos)) pos)).1).1,
                      a.has_errors⟩ : SemanticAnalyzer) pos)
              have h2 := ihO (sem_addParams
                      ⟨(symbol_table_enter_scope
                          (symbol_table_add a.symbol_table
                            (symbol_create name .SYMBOL_TEMPLATE
                              (some (.templateDef name params body pos)) pos)).1).1,
                        a.has_errors⟩ params pos) body
              have hex := le_of_eq (congrArg List.length
                (symbol_table_exit_errors
                  ((sem_analyzeOptErr (f) (sem_addParams
                      ⟨(symbol_table_enter_scope
                          (symbol_table_add a.symbol_table
                            (symbol_create name .SYMBOL_TEMPLATE
                              (some (.templateDef name params body pos)) pos)).1).1,
                        a.has_errors⟩ params pos) body).1.symbol_table)).symm)
              exact ⟨le_trans h1 (le_trans h2.1 hex),
                fun h => lt_of_lt_of_le (lt_of_le_of_lt h1 (h2.2 h)) hex⟩
            · exact ⟨(symbol_table_add_mono a.symbol_table _).1,
                fun h => (symbol_table_add_mono a.symbol_table _).2 h⟩
        | constraintDef name cs pos =>
            simp only [semantic_analyze]
            split
            · rename_i hs
              have he := add_success_errors _ _ hs
              have hL := ihL (⟨(symbol_table_add a.symbol_table
                  (symbol_create name .SYMBOL_CONSTRAINT
                    (some (.constraintDef name cs pos)) pos)).1,
                a.has_errors⟩ : SemanticAnalyzer) cs
              exact ⟨le_trans (le_of_eq (congrArg List.length he).symm) hL.1,
                fun h => lt_of_le_of_lt (le_of_eq (congrArg List.length he).symm)
                  (hL.2 h)⟩
            · exact ⟨(symbol_table_add_mono a.symbol_table _).1,
                fun h => (symbol_table_add_mono a.symbol_table _).2 h⟩
        | outputSpec name fmt pos =>
            cases hl : symbol_table_lookup a.symbol_table name with
            | none =>
                have h1 : (semantic_analyze (f + 1) a
                    (.outputSpec name fmt pos)).1.symbol_table.errors.length
                    = a.symbol_table.errors.length + 1 := by
                  simp [semantic_analyze, hl, sem_add_error, symbol_table_add_error]
                exact ⟨by omega, fun _ => by omega⟩
            | some sym =>
                by_cases ht : sym.type = .SYMBOL_PROMPT
                · have h1 : semantic_analyze (f + 1) a (.outputSpec name fmt pos)
                      = (a, .SUCCESS) := by
                    simp [semantic_analyze, hl, ht]
                  rw [h1]
                  exact ⟨le_refl _, fun h => by simp at h⟩
                · have h1 : (semantic_analyze (f + 1) a
                      (.outputSpec name fmt pos)).1.symbol_table.errors.length
                      = a.symbol_table.errors.length + 1 := by
                    simp [semantic_analyze, hl, ht, sem_add_error, symbol_table_add_error]
                  exact ⟨by omega, fun _ => by omega⟩
        | identifier name pos =>
            cases hl : symbol_table_lookup a.symbol_table name with
            | none =>
                have h1 : (semantic_analyze (f + 1) a
                    (.identifier name pos)).1.symbol_table.errors.length
                    = a.symbol_table.errors.length + 1 := by
                  simp [semantic_analyze, hl, sem_add_error, symbol_table_add_error]
                exact ⟨by omega, fun _ => by omega⟩
            | some sym =>
                have h1 : semantic_analyze (f + 1) a (.identifier name pos)
                    = (a, .SUCCESS) := by
                  simp [semantic_analyze, hl]
                rw [h1]
                exact ⟨le_refl _, fun h => by simp at h⟩
        | stringLiteral v pos =>
            exact ⟨le_refl _, fun h => by simp [semantic_analyze] at h⟩
        | numberLiteral v pos =>
            exact ⟨le_refl _, fun h => by simp [semantic_analyze] at h⟩
        | booleanLiteral v pos =>
            exact ⟨le_refl _, fun h => by simp [semantic_analyze] at h⟩
        | binaryExpr op l r pos =>
            refine ⟨?_, fun h => by simp [semantic_analyze] at h⟩
            exact le_trans (ihA a l).1 (ihA (semantic_analyze f a l).1 r).1
        | unaryExpr op o pos =>
            refine ⟨?_, fun h => by simp [semantic_analyze] at h⟩
            exact (ihA a o).1
        | variableRef name pos =>
            cases hl : symbol_table_lookup a.symbol_table name with
            | none =>
                have h1 : (semantic_analyze (f + 1) a
                    (.variableRef name pos)).1.symbol_table.errors.length
                    = a.symbol_table.errors.length + 1 := by
                  simp [semantic_analyze, hl, sem_add_error, symbol_table_add_error]
                exact ⟨by omega, fun _ => by omega⟩
            | some sym =>
                by_cases ht : sym.type = .SYMBOL_VARIABLE ∨ sym.type = .SYMBOL_PARAMETER
                · have h1 : semantic_analyze (f + 1) a (.variableRef name pos)
                      = ({ a with symbol_table :=
                          (symbol_table_mark_used a.symbol_table name).1 }, .SUCCESS) := by
                    simp [semantic_analyze, hl, ht]
                  rw [h1]
                  exact ⟨symbol_table_mark_used_errors_le a.symbol_table name,
                    fun h => by simp at h⟩
                · have h1 : (semantic_analyze (f + 1) a
                      (.variableRef name pos)).1.symbol_table.errors.length
                      = a.symbol_table.errors.length + 1 := by
                    simp [semantic_analyze, hl, ht, sem_add_error, symbol_table_add_error]
                  exact ⟨by omega, fun _ => by omega⟩
        | templateCall name args pos =>
            cases hl : symbol_table_lookup a.symbol_table name with
            | none =>
                have h1 : (semantic_analyze (f + 1) a
                    (.templateCall name args pos)).1.symbol_table.errors.length
                    = a.symbol_table.errors.length + 1 := by
                  simp [semantic_analyze, hl, sem_add_error, symbol_table_add_error]
                exact ⟨by omega, fun _ => by omega⟩
            | some sym =>
                by_cases ht : sym.type = .SYMBOL_TEMPLATE
                · have h1 : semantic_analyze (f + 1) a (.templateCall name args pos)
                      = (sem_analyzeListIgn f a args, .SUCCESS) := by
                    simp [semantic_analyze, hl, ht]
                  rw [h1]
                  exact ⟨ihI a args, fun h => by simp at h⟩
                · have h1 : (semantic_analyze (f + 1) a
                      (.templateCall name args pos)).1.symbol_table.errors.length
                      = a.symbol_table.errors.length + 1 := by
                    simp [semantic_analyze, hl, ht, sem_add_error, symbol_table_add_error]
                  exact ⟨by omega, fun _ => by omega⟩
        | functionCall name args pos =>
            cases hl : symbol_table_lookup a.symbol_table name with
            | none =>
                have h1 : (semantic_analyze (f + 1) a
                    (.functionCall name args pos)).1.symbol_table.errors.length
                    = a.symbol_table.errors.length + 1 := by
                  simp [semantic_analyze, hl, sem_add_error, symbol_table_add_error]
                exact ⟨by omega, fun _ => by omega⟩
            | some sym =>
                by_cases ht : sym.type = .SYMBOL_TEMPLATE
                · have h1 : semantic_analyze (f + 1) a (.functionCall name args pos)
                      = (sem_analyzeListIgn f a args, .SUCCESS) := by
                    simp [semantic_analyze, hl, ht]
                  rw [h1]
                  exact ⟨ihI a args, fun h => by simp at h⟩
                · have h1 : (semantic_analyze (f + 1) a
                      (.functionCall name args pos)).1.symbol_table.errors.length
                      = a.symbol_table.errors.length + 1 := by
                    simp [semantic_analyze, hl, ht, sem_add_error, symbol_table_add_error]
                  exact ⟨by omega, fun _ => by omega⟩
        | ifStmt c t e pos =>
            refine ⟨?_, fun h => by simp [semantic_analyze] at h⟩
            exact le_trans (ihA a c).1
              (le_trans (ihO (semantic_analyze f a c).1 t).1
                (ihO (sem_analyzeOptErr f (semantic_analyze f a c).1 t).1 e).1)
        | forStmt v iter body pos =>
            refine ⟨?_, fun h => by simp [semantic_analyze] at h⟩
            have h1 : a.symbol_table.errors.length
                ≤ ((⟨(symbol_table_add (symbol_table_enter_scope a.symbol_table).1
                      (symbol_create v .SYMBOL_VARIABLE none pos)).1,
                    a.has_errors⟩ : SemanticAnalyzer)).symbol_table.errors.length :=
              symbol_table_add_errors_le (symbol_table_enter_scope a.symbol_table).1
                (symbol_create v .SYMBOL_VARIABLE none pos)
            have h2 := (ihA (⟨(symbol_table_add
                (symbol_table_enter_scope a.symbol_table).1
                (symbol_create v .SYMBOL_VARIABLE none pos)).1,
              a.has_errors⟩ : SemanticAnalyzer) iter).1
            have h3 := (ihA (semantic_analyze f (⟨(symbol_table_add
                (symbol_table_enter_scope a.symbol_table).1
                (symbol_create v .SYMBOL_VARIABLE none pos)).1,
              a.has_errors⟩ : SemanticAnalyzer) iter).1 body).1
            have hex := le_of_eq (congrArg List.length
              (symbol_table_exit_errors
                ((semantic_analyze f (semantic_analyze f (⟨(symbol_table_add
                    (symbol_table_enter_scope a.symbol_table).1
                    (symbol_create v .SYMBOL_VARIABLE none pos)).1,
                  a.has_errors⟩ : SemanticAnalyzer) iter).1 body).1.symbol_table)).symm)
            exact le_trans h1 (le_trans h2 (le_trans h3 hex))
        | whileStmt c b pos =>
            refine ⟨?_, fun h => by simp [semantic_analyze] at h⟩
            exact le_trans (ihA a c).1 (ihA (semantic_analyze f a c).1 b).1
        | textElement t r pos =>
            exact ⟨le_refl _, fun h => by simp [semantic_analyze] at h⟩
        | constraintExpr vn op v pos => exact ihA a (.constraintExpr vn op v pos)
        | statementList es pos => exact ihL a es
        | expressionList es pos => exact ihL a es
        | parameterList es pos =>
            exact ⟨le_refl _, fun h => by simp [semantic_analyze] at h⟩
        | argumentList es pos => exact ihL a es
        | constraintList es pos => exact ihL a es
        | elementList es pos => exact ihL a es
        | empty pos =>
            exact ⟨le_refl _, fun h => by simp [semantic_analyze] at h⟩
      · cases l with
        | nil => exact ⟨le_refl _, fun h => by simp [sem_analyzeList] at h⟩
        | cons n rest =>
            by_cases hs : (semantic_analyze f a n).2 = .SUCCESS
            · have heq : sem_analyzeList (f + 1) a (n :: rest)
                  = sem_analyzeList f (semantic_analyze f a n).1 rest := by
                simp only [sem_analyzeList]
                rw [if_pos hs]
              rw [heq]
              exact ⟨le_trans (ihA a n).1 (ihL (semantic_analyze f a n).1 rest).1,
                fun h => lt_of_le_of_lt (ihA a n).1
                  ((ihL (semantic_analyze f a n).1 rest).2 h)⟩
            · have heq : sem_analyzeList (f + 1) a (n :: rest)
                  = semantic_analyze f a n := by
                simp only [sem_analyzeList]
                rw [if_neg hs]
              rw [heq]
              exact ihA a n
      · cases l with
        | nil => exact le_refl _
        | cons n rest =>
            exact le_trans (ihA a n).1 (ihI (semantic_analyze f a n).1 rest)
      · cases o with
        | none => exact ⟨le_refl _, fun h => by simp [sem_analyzeOptErr] at h⟩
        | some n => exact ihA a n

/-- C5: a `$name` variable reference or a `@name(...)` call whose name the
whole active scope chain does not know is reported with exactly one
undefined-symbol error appended to the error list — carrying the referencing
node's own position — and the analysis of that reference returns the semantic
error status.  (`analyze_variable_ref` words it `Undefined variable '$name'`,
`analyze_function_call` — reached for template and function calls alike —
`Undefined template 'name'`.) -/
theorem C5_undefined_reference_error (f : Nat) (a : SemanticAnalyzer)
    (name : String) (pos : PCCPosition) (args : List ASTNode)
    (h : symbol_table_lookup a.symbol_table name = none) :
    (semantic_analyze (f + 1) a (.variableRef name pos)
        = (sem_add_error a ("Undefined variable \x27$" ++ name ++ "\x27")
            pos SEM_ERROR_UNDEFINED_SYMBOL, .ERROR_SEMANTIC)
      ∧ (semantic_analyze (f + 1) a (.variableRef name pos)).1.symbol_table.errors
          = a.symbol_table.errors
            ++ [{ message := "Undefined variable \x27$" ++ name ++ "\x27",
                  position := pos,
                  error_code := SEM_ERROR_UNDEFINED_SYMBOL }])
    ∧ (semantic_analyze (f + 1) a (.templateCall name args pos)
        = (sem_add_error a ("Undefined template \x27" ++ name ++ "\x27")
            pos SEM_ERROR_UNDEFINED_SYMBOL, .ERROR_SEMANTIC)
      ∧ (semantic_analyze (f + 1) a (.templateCall name args pos)).1.symbol_table.errors
          = a.symbol_table.errors
            ++ [{ message := "Undefined template \x27" ++ name ++ "\x27",
                  position := pos,
                  error_code := SEM_ERROR_UNDEFINED_SYMBOL }])
    ∧ semantic_analyze (f + 1) a (.functionCall name args pos)
        = (sem_add_error a ("Undefined template \x27" ++ name ++ "\x27")
            pos SEM_ERROR_UNDEFINED_SYMBOL, .ERROR_SEMANTIC) := by
  refine ⟨⟨?_, ?_⟩, ⟨?_, ?_⟩, ?_⟩ <;>
    simp [semantic_analyze, h, sem_add_error, symbol_table_add_error]

/-- Witness for C5: on a fresh analyzer, `$x` and `f(...)` are undefined; the
reference to `$x` at line 3 column 7 leaves exactly one error, at that
position, and the call analysis answers the semantic error status. -/
theorem C5_witness :
    symbol_table_lookup semantic_analyzer_create.symbol_table "x" = none
    ∧ (semantic_analyze (0 + 1) semantic_analyzer_create
        (.variableRef "x" ⟨3, 7, "w"⟩)).1.symbol_table.errors
      = [{ message := "Undefined variable \x27$x\x27",
           position := ⟨3, 7, "w"⟩,
           error_code := SEM_ERROR_UNDEFINED_SYMBOL }]
    ∧ (semantic_analyze (0 + 1) semantic_analyzer_create
        (.functionCall "f" [] ⟨2, 4, "w"⟩)).2 = .ERROR_SEMANTIC := by
  have h1 := C5_undefined_reference_error 0 semantic_analyzer_create "x"
    ⟨3, 7, "w"⟩ [] rfl
  have h2 := C5_undefined_reference_error 0 semantic_analyzer_create "f"
    ⟨2, 4, "w"⟩ [] rfl
  refine ⟨rfl, ?_, ?_⟩
  · rw [h1.1.2]
    rfl
  · rw [h2.2.2]

/-- Refutation of C6's claimed equivalence: analyzing the one-statement
program `IF $x { }` succeeds — `analyze_if_stmt` discards the status of its
children — although analyzing the undefined `$x` condition recorded an error,
so the analysis answers `PCC_SUCCESS` while the error list is non-empty (and
the `has_errors` flag is raised). -/
theorem C6_counterexample :
    (semantic_analyze 9 semantic_analyzer_create
      (.program [.ifStmt (.variableRef "x" ⟨1, 5, "w"⟩) none none ⟨1, 1, "w"⟩]
        ⟨1, 1, "w"⟩)).2 = .SUCCESS
    ∧ (semantic_analyze 9 semantic_analyzer_create
      (.program [.ifStmt (.variableRef "x" ⟨1, 5, "w"⟩) none none ⟨1, 1, "w"⟩]
        ⟨1, 1, "w"⟩)).1.symbol_table.errors.length = 1
    ∧ (semantic_analyze 9 semantic_analyzer_create
      (.program [.ifStmt (.variableRef "x" ⟨1, 5, "w"⟩) none none ⟨1, 1, "w"⟩]
        ⟨1, 1, "w"⟩)).1.has_errors = true := by
  refine ⟨rfl, rfl, rfl⟩

/-- C6 (amended): one direction does hold — the traversal only ever appends
to the error list, and a `PCC_ERROR_SEMANTIC` status strictly grows it, so an
error status from a fresh analyzer leaves a non-empty error list.  The
converse fails (see the refutation): statement nodes swallow their children's
statuses, so the call can return success while errors were recorded. -/
theorem C6_error_status_implies_recorded_error (f : Nat) (n : ASTNode) :
    (∀ a : SemanticAnalyzer,
      a.symbol_table.errors.length
        ≤ (semantic_analyze f a n).1.symbol_table.errors.length
      ∧ ((semantic_analyze f a n).2 = .ERROR_SEMANTIC →
          a.symbol_table.errors.length
            < (semantic_analyze f a n).1.symbol_table.errors.length))
    ∧ ((semantic_analyze f semantic_analyzer_create n).2 = .ERROR_SEMANTIC →
        (semantic_analyze f semantic_analyzer_create n).1.symbol_table.errors ≠ []) := by
  refine ⟨fun a => (sem_analyze_errors_mono f).1 a n, fun h => ?_⟩
  have hlt := ((sem_analyze_errors_mono f).1 semantic_analyzer_create n).2 h
  intro hnil
  rw [hnil] at hlt
  simp [semantic_analyzer_create, symbol_table_create] at hlt

/-- C9: in JSON mode every node kind without a dedicated emitter — variable
declarations, template and constraint definitions, output specifications,
identifiers, binary and unary expressions, IF/FOR/WHILE statements,
constraint expressions, parameter and constraint lists and the empty node —
degrades to exactly the object `\x7b"type":"<kind name>"\x7d` with a success
status; and every string payload (string-literal values, text-element text,
variable-reference and call names) is copied into the output verbatim, with
no escaping, whatever the string holds.  Stated for every numeric rendering
`fmtNum` and every unexhausted fuel. -/
theorem C9_json_default_and_verbatim_strings (fmtNum : ℚ → String) (f : Nat)
    (pos : PCCPosition) :
    (∀ name init,
      generate_json fmtNum (f + 1) (.varDecl name init pos)
        = ("\x7b\"type\":\"VAR_DECL\"\x7d", .SUCCESS))
    ∧ (∀ name params body,
      generate_json fmtNum (f + 1) (.templateDef name params body pos)
        = ("\x7b\"type\":\"TEMPLATE_DEF\"\x7d", .SUCCESS))
    ∧ (∀ name cs,
      generate_json fmtNum (f + 1) (.constraintDef name cs pos)
        = ("\x7b\"type\":\"CONSTRAINT_DEF\"\x7d", .SUCCESS))
    ∧ (∀ name fmt,
      generate_json fmtNum (f + 1) (.outputSpec name fmt pos)
        = ("\x7b\"type\":\"OUTPUT_SPEC\"\x7d", .SUCCESS))
    ∧ (∀ name,
      generate_json fmtNum (f + 1) (.identifier name pos)
        = ("\x7b\"type\":\"IDENTIFIER\"\x7d", .SUCCESS))
    ∧ (∀ op l r,
      generate_json fmtNum (f + 1) (.binaryExpr op l r pos)
        = ("\x7b\"type\":\"BINARY_EXPR\"\x7d", .SUCCESS))
    ∧ (∀ op o,
      generate_json fmtNum (f + 1) (.unaryExpr op o pos)
        = ("\x7b\"type\":\"UNARY_EXPR\"\x7d", .SUCCESS))
    ∧ (∀ c t e,
      generate_json fmtNum (f + 1) (.ifStmt c t e pos)
        = ("\x7b\"type\":\"IF_STMT\"\x7d", .SUCCESS))
    ∧ (∀ v iter body,
      generate_json fmtNum (f + 1) (.forStmt v iter body pos)
        = ("\x7b\"type\":\"FOR_STMT\"\x7d", .SUCCESS))
    ∧ (∀ c b,
      generate_json fmtNum (f + 1) (.whileStmt c b pos)
        = ("\x7b\"type\":\"WHILE_STMT\"\x7d", .SUCCESS))
    ∧ (∀ vn op v,
      generate_json fmtNum (f + 1) (.constraintExpr vn op v pos)
        = ("\x7b\"type\":\"CONSTRAINT_EXPR\"\x7d", .SUCCESS))
    ∧ (∀ es,
      generate_json fmtNum (f + 1) (.parameterList es pos)
        = ("\x7b\"type\":\"PARAMETER_LIST\"\x7d", .SUCCESS))
    ∧ (∀ es,
      generate_json fmtNum (f + 1) (.constraintList es pos)
        = ("\x7b\"type\":\"CONSTRAINT_LIST\"\x7d", .SUCCESS))
    ∧ generate_json fmtNum (f + 1) (.empty pos)
        = ("\x7b\"type\":\"EMPTY\"\x7d", .SUCCESS)
    ∧ (∀ s,
      generate_json fmtNum (f + 1) (.stringLiteral s pos)
        = ("\x7b\"type\":\"string\",\"value\":\"" ++ s ++ "\"\x7d", .SUCCESS))
    ∧ (∀ text raw,
      generate_json fmtNum (f + 1) (.textElement text raw pos)
        = ("\x7b\"type\":\"text\",\"text\":\"" ++ text ++ "\",\"raw\":"
            ++ (if raw then "true" else "false") ++ "\x7d", .SUCCESS))
    ∧ (∀ name,
      generate_json fmtNum (f + 1) (.variableRef name pos)
        = ("\x7b\"type\":\"variable_ref\",\"name\":\"" ++ name ++ "\"\x7d",
          .SUCCESS))
    ∧ (∀ name body,
      generate_json fmtNum (f + 1) (.promptDef name body pos)
        = ("\x7b\"type\":\"prompt_def\",\"name\":\"" ++ name
            ++ "\",\"body\":"
            ++ (match body with
                | some b => (generate_json fmtNum f b).1
                | none => "null") ++ "\x7d", .SUCCESS))
    ∧ (∀ name args,
      generate_json fmtNum (f + 1) (.templateCall name args pos)
        = ("\x7b\"type\":\"template_call\",\"name\":\"" ++ name
            ++ "\",\"arguments\":["
            ++ generate_json_items fmtNum f args ++ "]\x7d", .SUCCESS)) := by
  exact ⟨fun name init => rfl, fun name params body => rfl, fun name cs => rfl,
    fun name fmt => rfl, fun name => rfl, fun op l r => rfl, fun op o => rfl,
    fun c t e => rfl, fun v iter body => rfl, fun c b => rfl,
    fun vn op v => rfl, fun es => rfl, fun es => rfl, rfl, fun s => rfl,
    fun text raw => rfl, fun name => rfl, fun name body => rfl,
    fun name args => rfl⟩
/-- Refutation of C7's failure characterization: `#` stands outside the
recognized token alphabet (no whitespace, comment head, sigil, quote, digit,
letter, underscore, operator or punctuation), yet tokenizing the one-character
source `#` does not fail — the unknown character is skipped silently by the
`default` arm of the punctuation switch, and the call succeeds with the EOF
token alone. -/
theorem C7_counterexample :
    (lexer_tokenize "#" "w").2 = .SUCCESS
    ∧ ((lexer_tokenize "#" "w").1.map Token.type) = [.TOKEN_EOF] := by
  exact ⟨rfl, rfl⟩


theorem lexer_advance_source (l : Lexer) : (lexer_advance l).2.source = l.source := by
  simp only [lexer_advance]
  split
  · rfl
  · split <;> rfl

theorem lexer_advance_position_le (l : Lexer) :
    l.position ≤ (lexer_advance l).2.position := by
  simp only [lexer_advance]
  split
  · exact le_refl _
  · split <;> exact Nat.le_succ _

theorem lexer_advance_position_lt (l : Lexer) (h : l.position < l.source.length) :
    (lexer_advance l).2.position = l.position + 1 := by
  simp only [lexer_advance]
  rw [if_neg (by omega)]
  split <;> rfl

theorem lexer_position_lt_of_peek (l : Lexer) (c : Char)
    (h : lexer_peek l 0 = c) (hc : ¬ c = '\x00') :
    l.position < l.source.length := by
  simp only [lexer_peek] at h
  split at h
  · exact absurd h.symm hc
  · rename_i hg
    omega

theorem lexer_skip_whitespace_facts : ∀ (f : Nat) (l : Lexer),
    (lexer_skip_whitespace f l).source = l.source
    ∧ l.position ≤ (lexer_skip_whitespace f l).position := by
  intro f
  induction f with
  | zero => exact fun l => ⟨rfl, le_refl _⟩
  | succ f ih =>
      intro l
      simp only [lexer_skip_whitespace]
      split
      · split
        · obtain ⟨h1, h2⟩ := ih (lexer_advance l).2
          exact ⟨h1.trans (lexer_advance_source l),
            le_trans (lexer_advance_position_le l) h2⟩
        · exact ⟨rfl, le_refl _⟩
      · exact ⟨rfl, le_refl _⟩

theorem lexer_skip_comment_line_facts : ∀ (f : Nat) (l : Lexer),
    (lexer_skip_comment_line f l).source = l.source
    ∧ l.position ≤ (lexer_skip_comment_line f l).position := by
  intro f
  induction f with
  | zero => exact fun l => ⟨rfl, le_refl _⟩
  | succ f ih =>
      intro l
      simp only [lexer_skip_comment_line]
      split
      · split
        · exact ⟨lexer_advance_source l, lexer_advance_position_le l⟩
        · obtain ⟨h1, h2⟩ := ih (lexer_advance l).2
          exact ⟨h1.trans (lexer_advance_source l),
            le_trans (lexer_advance_position_le l) h2⟩
      · exact ⟨rfl, le_refl _⟩

theorem lexer_skip_comment_line_progress (f : Nat) (l : Lexer)
    (h : l.position < l.source.length) :
    l.position < (lexer_skip_comment_line (f + 1) l).position := by
  simp only [lexer_skip_comment_line]
  rw [if_pos h]
  have h2 := lexer_advance_position_lt l h
  split
  · omega
  · have h3 := (lexer_skip_comment_line_facts f (lexer_advance l).2).2
    omega

theorem lexer_skip_comment_block_facts : ∀ (f : Nat) (l : Lexer),
    (lexer_skip_comment_block f l).source = l.source
    ∧ l.position ≤ (lexer_skip_comment_block f l).position := by
  intro f
  induction f with
  | zero => exact fun l => ⟨rfl, le_refl _⟩
  | succ f ih =>
      intro l
      simp only [lexer_skip_comment_block]
      split
      · split
        · exact ⟨(lexer_advance_source (lexer_advance l).2).trans
              (lexer_advance_source l),
            le_trans (lexer_advance_position_le l)
              (lexer_advance_position_le (lexer_advance l).2)⟩
        · obtain ⟨h1, h2⟩ := ih (lexer_advance l).2
          exact ⟨h1.trans (lexer_advance_source l),
            le_trans (lexer_advance_position_le l) h2⟩
      · exact ⟨rfl, le_refl _⟩

theorem lexer_skip_comment_facts (f : Nat) (l : Lexer) :
    (lexer_skip_comment f l).source = l.source
    ∧ l.position ≤ (lexer_skip_comment f l).position := by
  simp only [lexer_skip_comment]
  split
  · exact lexer_skip_comment_line_facts f l
  · split
    · obtain ⟨h1, h2⟩ := lexer_skip_comment_block_facts f
        (lexer_advance (lexer_advance l).2).2
      refine ⟨h1.trans ((lexer_advance_source (lexer_advance l).2).trans
          (lexer_advance_source l)), ?_⟩
      have h3 := lexer_advance_position_le l
      have h4 := lexer_advance_position_le (lexer_advance l).2
      omega
    · exact ⟨rfl, le_refl _⟩

theorem lexer_skip_comment_progress (f : Nat) (l : Lexer)
    (hg : lexer_peek l 0 = '/' ∧ (lexer_peek l 1 = '/' ∨ lexer_peek l 1 = '*'))
    (h : l.position < l.source.length) :
    l.position < (lexer_skip_comment (f + 1) l).position := by
  simp only [lexer_skip_comment]
  rcases hg.2 with h2 | h2
  · rw [if_pos ⟨hg.1, h2⟩]
    exact lexer_skip_comment_line_progress f l h
  · have hne : ¬ (lexer_peek l 0 = '/' ∧ lexer_peek l 1 = '/') := by
      intro hc
      rw [hc.2] at h2
      exact (nomatch h2)
    rw [if_neg hne, if_pos ⟨hg.1, h2⟩]
    have ha1 := lexer_advance_position_lt l h
    have ha2 := lexer_advance_position_le (lexer_advance l).2
    have hb := (lexer_skip_comment_block_facts (f + 1)
      (lexer_advance (lexer_advance l).2).2).2
    omega

theorem lexer_ident_loop_facts : ∀ (f : Nat) (l : Lexer),
    (lexer_ident_loop f l).source = l.source
    ∧ l.position ≤ (lexer_ident_loop f l).position := by
  intro f
  induction f with
  | zero => exact fun l => ⟨rfl, le_refl _⟩
  | succ f ih =>
      intro l
      simp only [lexer_ident_loop]
      split
      · split
        · obtain ⟨h1, h2⟩ := ih (lexer_advance l).2
          exact ⟨h1.trans (lexer_advance_source l),
            le_trans (lexer_advance_position_le l) h2⟩
        · exact ⟨rfl, le_refl _⟩
      · exact ⟨rfl, le_refl _⟩

theorem lexer_digit_loop_facts : ∀ (f : Nat) (l : Lexer),
    (lexer_digit_loop f l).source = l.source
    ∧ l.position ≤ (lexer_digit_loop f l).position := by
  intro f
  induction f with
  | zero => exact fun l => ⟨rfl, le_refl _⟩
  | succ f ih =>
      intro l
      simp only [lexer_digit_loop]
      split
      · obtain ⟨h1, h2⟩ := ih (lexer_advance l).2
        exact ⟨h1.trans (lexer_advance_source l),
          le_trans (lexer_advance_position_le l) h2⟩
      · exact ⟨rfl, le_refl _⟩

theorem lexer_digit_loop_progress (f : Nat) (l : Lexer)
    (h : l.position < l.source.length) (hd : cIsDigit (lexer_peek l 0) = true) :
    l.position < (lexer_digit_loop (f + 1) l).position := by
  simp only [lexer_digit_loop]
  rw [if_pos ⟨h, hd⟩]
  have h2 := lexer_advance_position_lt l h
  have h3 := (lexer_digit_loop_facts f (lexer_advance l).2).2
  omega

theorem lexer_string_loop_facts : ∀ (f : Nat) (q : Char) (l : Lexer),
    (lexer_string_loop q f l).1.source = l.source
    ∧ l.position ≤ (lexer_string_loop q f l).1.position := by
  intro f
  induction f with
  | zero => exact fun q l => ⟨rfl, le_refl _⟩
  | succ f ih =>
      intro q l
      simp only [lexer_string_loop]
      split
      · split
        · obtain ⟨h1, h2⟩ := ih q
            (if ((lexer_advance l).2).position < ((lexer_advance l).2).source.length
              then (lexer_advance (lexer_advance l).2).2 else (lexer_advance l).2)
          constructor
          · refine h1.trans ?_
            split
            · exact (lexer_advance_source (lexer_advance l).2).trans
                (lexer_advance_source l)
            · exact lexer_advance_source l
          · refine le_trans ?_ h2
            have ha := lexer_advance_position_le l
            have hb := lexer_advance_position_le (lexer_advance l).2
            split <;> omega
        · split
          · exact ⟨rfl, le_refl _⟩
          · split
            · exact ⟨rfl, le_refl _⟩
            · obtain ⟨h1, h2⟩ := ih q (lexer_advance l).2
              exact ⟨h1.trans (lexer_advance_source l),
                le_trans (lexer_advance_position_le l) h2⟩
      · exact ⟨rfl, le_refl _⟩

theorem lexer_string_loop_status : ∀ (f : Nat) (q : Char) (l : Lexer),
    (lexer_string_loop q f l).2 = .SUCCESS
    ∨ ((lexer_string_loop q f l).2 = .ERROR_SYNTAX
        ∧ lexer_peek (lexer_string_loop q f l).1 0 = '\n') := by
  intro f
  induction f with
  | zero => exact fun q l => Or.inl rfl
  | succ f ih =>
      intro q l
      simp only [lexer_string_loop]
      split
      · split
        · exact ih q _
        · split
          · exact Or.inl rfl
          · split
            · rename_i hnl
              exact Or.inr ⟨rfl, hnl⟩
            · exact ih q _
      · exact Or.inl rfl

theorem lexer_advance_n_facts : ∀ (n : Nat) (l : Lexer),
    (lexer_advance_n n l).source = l.source
    ∧ l.position ≤ (lexer_advance_n n l).position := by
  intro n
  induction n with
  | zero => exact fun l => ⟨rfl, le_refl _⟩
  | succ n ih =>
      intro l
      simp only [lexer_advance_n]
      obtain ⟨h1, h2⟩ := ih (lexer_advance l).2
      exact ⟨h1.trans (lexer_advance_source l),
        le_trans (lexer_advance_position_le l) h2⟩

theorem lexer_advance_n_progress (n : Nat) (l : Lexer)
    (h : l.position < l.source.length) :
    l.position < (lexer_advance_n (n + 1) l).position := by
  simp only [lexer_advance_n]
  have h2 := lexer_advance_position_lt l h
  have h3 := (lexer_advance_n_facts n (lexer_advance l).2).2
  omega


theorem lexer_read_identifier_facts (f : Nat) (l : Lexer) :
    (lexer_read_identifier f l).2.1.source = l.source
    ∧ l.position ≤ (lexer_read_identifier f l).2.1.position := by
  simp only [lexer_read_identifier]
  split
  · exact ⟨rfl, le_refl _⟩
  · obtain ⟨h1, h2⟩ := lexer_ident_loop_facts f (lexer_advance l).2
    exact ⟨h1.trans (lexer_advance_source l),
      le_trans (lexer_advance_position_le l) h2⟩

theorem lexer_read_identifier_fail (f : Nat) (l : Lexer)
    (hne : ¬ (lexer_read_identifier f l).2.2 = .SUCCESS) :
    (lexer_read_identifier f l).2.2 = .ERROR_SYNTAX
    ∧ ¬ (cIsAlpha (lexer_peek l 0) = true ∨ lexer_peek l 0 = '_') := by
  by_cases hc : ¬ (cIsAlpha (lexer_peek l 0) = true ∨ lexer_peek l 0 = '_')
  · have heq : lexer_read_identifier f l = (none, l, .ERROR_SYNTAX) := by
      simp only [lexer_read_identifier]
      rw [if_pos hc]
    rw [heq]
    exact ⟨rfl, hc⟩
  · exfalso
    apply hne
    simp only [lexer_read_identifier]
    rw [if_neg hc]

theorem lexer_read_identifier_head_ok (f : Nat) (l : Lexer)
    (hh : cIsAlpha (lexer_peek l 0) = true ∨ lexer_peek l 0 = '_') :
    (lexer_read_identifier f l).2.2 = .SUCCESS := by
  simp only [lexer_read_identifier]
  rw [if_neg (not_not_intro hh)]

theorem lexer_read_identifier_progress (f : Nat) (l : Lexer)
    (hlen : l.position < l.source.length)
    (hh : cIsAlpha (lexer_peek l 0) = true ∨ lexer_peek l 0 = '_') :
    l.position < (lexer_read_identifier f l).2.1.position := by
  simp only [lexer_read_identifier]
  rw [if_neg (not_not_intro hh)]
  have h2 := lexer_advance_position_lt l hlen
  have h3 := (lexer_ident_loop_facts f (lexer_advance l).2).2
  show l.position < (lexer_ident_loop f (lexer_advance l).2).position
  omega

theorem lexer_read_string_facts (f : Nat) (l : Lexer) :
    (lexer_read_string f l).2.1.source = l.source
    ∧ (lexer_advance l).2.position ≤ (lexer_read_string f l).2.1.position := by
  simp only [lexer_read_string]
  obtain ⟨hs1, hs2⟩ := lexer_string_loop_facts f (lexer_peek l 0) (lexer_advance l).2
  split
  · split
    · exact ⟨hs1.trans (lexer_advance_source l), hs2⟩
    · have ha1 := lexer_advance_source
        (lexer_string_loop (lexer_peek l 0) f (lexer_advance l).2).1
      have ha2 := lexer_advance_position_le
        (lexer_string_loop (lexer_peek l 0) f (lexer_advance l).2).1
      exact ⟨(ha1.trans hs1).trans (lexer_advance_source l), le_trans hs2 ha2⟩
  · exact ⟨hs1.trans (lexer_advance_source l), hs2⟩

theorem lexer_read_string_fail (f : Nat) (l : Lexer)
    (hne : ¬ (lexer_read_string f l).2.2 = .SUCCESS) :
    (lexer_read_string f l).2.2 = .ERROR_SYNTAX
    ∧ (lexer_peek (lexer_read_string f l).2.1 0 = '\n'
        ∨ (lexer_read_string f l).2.1.position
            ≥ (lexer_read_string f l).2.1.source.length) := by
  rcases lexer_string_loop_status f (lexer_peek l 0) (lexer_advance l).2
    with hs | ⟨he, hn⟩
  · by_cases hend : (lexer_string_loop (lexer_peek l 0) f (lexer_advance l).2).1.position
        ≥ (lexer_string_loop (lexer_peek l 0) f (lexer_advance l).2).1.source.length
    · have heq : lexer_read_string f l
          = (none, (lexer_string_loop (lexer_peek l 0) f (lexer_advance l).2).1,
              .ERROR_SYNTAX) := by
        simp only [lexer_read_string]
        rw [if_pos hs, if_pos hend]
      rw [heq]
      exact ⟨rfl, Or.inr hend⟩
    · exfalso
      apply hne
      simp only [lexer_read_string]
      rw [if_pos hs, if_neg hend]
  · have heq : lexer_read_string f l
        = (none, (lexer_string_loop (lexer_peek l 0) f (lexer_advance l).2).1,
            (lexer_string_loop (lexer_peek l 0) f (lexer_advance l).2).2) := by
      simp only [lexer_read_string]
      rw [if_neg (by rw [he]; exact fun hcon => nomatch hcon)]
    rw [heq]
    exact ⟨he, Or.inl hn⟩

theorem lexer_read_number_facts (f : Nat) (l : Lexer) :
    (lexer_read_number f l).2.1.source = l.source
    ∧ l.position ≤ (lexer_read_number f l).2.1.position := by
  simp only [lexer_read_number]
  obtain ⟨h1, h2⟩ := lexer_digit_loop_facts f l
  split
  · obtain ⟨h3, h4⟩ := lexer_digit_loop_facts f (lexer_advance (lexer_digit_loop f l)).2
    have h5 := lexer_advance_source (lexer_digit_loop f l)
    have h6 := lexer_advance_position_le (lexer_digit_loop f l)
    exact ⟨(h3.trans h5).trans h1, by omega⟩
  · exact ⟨h1, h2⟩

theorem lexer_read_number_status (f : Nat) (l : Lexer) :
    (lexer_read_number f l).2.2 = .SUCCESS := by
  simp only [lexer_read_number]

theorem lexer_read_number_progress (f : Nat) (l : Lexer)
    (hlen : l.position < l.source.length) (hd : cIsDigit (lexer_peek l 0) = true) :
    l.position < (lexer_read_number (f + 1) l).2.1.position := by
  simp only [lexer_read_number]
  have h2 := lexer_digit_loop_progress f l hlen hd
  split
  · obtain ⟨_, h4⟩ := lexer_digit_loop_facts (f + 1)
      (lexer_advance (lexer_digit_loop (f + 1) l)).2
    have h6 := lexer_advance_position_le (lexer_digit_loop (f + 1) l)
    show l.position < (lexer_digit_loop (f + 1)
      (lexer_advance (lexer_digit_loop (f + 1) l)).2).position
    omega
  · exact h2

theorem lexer_read_operator_source (l : Lexer) :
    (lexer_read_operator l).2.1.source = l.source := by
  simp only [lexer_read_operator]
  repeat' split
  all_goals first
    | rfl
    | exact (lexer_advance_n_facts 1 l).1
    | exact (lexer_advance_n_facts 2 l).1

theorem lexer_read_operator_status (l : Lexer) :
    (lexer_read_operator l).2.2 = .SUCCESS
    ∨ ((lexer_read_operator l).2.2 = .ERROR_SYNTAX
        ∧ ¬ (lexer_peek l 0 = '=' ∨ lexer_peek l 0 = '!' ∨ lexer_peek l 0 = '<'
            ∨ lexer_peek l 0 = '>' ∨ lexer_peek l 0 = '+' ∨ lexer_peek l 0 = '-'
            ∨ lexer_peek l 0 = '*' ∨ lexer_peek l 0 = '/' ∨ lexer_peek l 0 = '%'
            ∨ lexer_peek l 0 = '^')) := by
  simp only [lexer_read_operator]
  repeat' split
  all_goals first
    | exact Or.inl rfl
    | (refine Or.inr ⟨rfl, ?_⟩
       intro hor
       rcases hor with h | h | h | h | h | h | h | h | h | h <;>
         exact absurd h (by assumption))

theorem lexer_read_operator_progress (l : Lexer)
    (hlen : l.position < l.source.length) :
    (lexer_read_operator l).2.2 = .SUCCESS →
    l.position < (lexer_read_operator l).2.1.position := by
  simp only [lexer_read_operator]
  repeat' split
  all_goals intro h
  all_goals first
    | exact lexer_advance_n_progress 0 l hlen
    | exact lexer_advance_n_progress 1 l hlen
    | exact (nomatch h)


/-- The reader dispatch of the tokenize loop: it never moves to another
source, it strictly advances whenever it succeeds on an unexhausted source,
and when it fails the status is the syntax error and the head was a `$`/`@`
sigil whose next character is no identifier head, a quote whose string was
left unterminated (the reader stopped at a bare newline or at the end of
input), or — only reachable outside the loop's guard — a head matching no
reader at all. -/
theorem lexer_dispatch_spec (l : Lexer) :
    (lexer_dispatch l).2.1.source = l.source
    ∧ (l.position < l.source.length →
        (lexer_dispatch l).2.2 = .SUCCESS →
        l.position < (lexer_dispatch l).2.1.position)
    ∧ (¬ (lexer_dispatch l).2.2 = .SUCCESS →
        (lexer_dispatch l).2.2 = .ERROR_SYNTAX
        ∧ (((lexer_peek l 0 = '$' ∨ lexer_peek l 0 = '@')
              ∧ ¬ (cIsAlpha (lexer_peek (lexer_advance l).2 0) = true
                    ∨ lexer_peek (lexer_advance l).2 0 = '_'))
            ∨ ((lexer_peek l 0 = '"' ∨ lexer_peek l 0 = '\x27')
                ∧ (lexer_peek (lexer_dispatch l).2.1 0 = '\n'
                    ∨ (lexer_dispatch l).2.1.position
                        ≥ (lexer_dispatch l).2.1.source.length))
            ∨ ¬ (lexer_peek l 0 = '$' ∨ lexer_peek l 0 = '@'
                  ∨ lexer_peek l 0 = '"' ∨ lexer_peek l 0 = '\x27'
                  ∨ cIsDigit (lexer_peek l 0) = true
                  ∨ cIsAlpha (lexer_peek l 0) = true
                  ∨ lexer_peek l 0 = '_'))) := by
  simp only [lexer_dispatch]
  split
  · rename_i h1
    refine ⟨(lexer_read_identifier_facts _ _).1.trans (lexer_advance_source l),
      fun hlen _ => ?_, fun hne => ?_⟩
    · have ha := lexer_advance_position_lt l hlen
      have hm := (lexer_read_identifier_facts (l.source.length + 1)
        (lexer_advance l).2).2
      show l.position
        < (lexer_read_identifier (l.source.length + 1) (lexer_advance l).2).2.1.position
      omega
    · have hne' : ¬ (lexer_read_identifier (l.source.length + 1)
          (lexer_advance l).2).2.2 = .SUCCESS := hne
      obtain ⟨he, hbad⟩ := lexer_read_identifier_fail _ _ hne'
      exact ⟨he, Or.inl ⟨Or.inl h1, hbad⟩⟩
  · rename_i h1
    split
    · rename_i h2
      refine ⟨(lexer_read_identifier_facts _ _).1.trans (lexer_advance_source l),
        fun hlen _ => ?_, fun hne => ?_⟩
      · have ha := lexer_advance_position_lt l hlen
        have hm := (lexer_read_identifier_facts (l.source.length + 1)
          (lexer_advance l).2).2
        show l.position
          < (lexer_read_identifier (l.source.length + 1) (lexer_advance l).2).2.1.position
        omega
      · have hne' : ¬ (lexer_read_identifier (l.source.length + 1)
            (lexer_advance l).2).2.2 = .SUCCESS := hne
        obtain ⟨he, hbad⟩ := lexer_read_identifier_fail _ _ hne'
        exact ⟨he, Or.inl ⟨Or.inr h2, hbad⟩⟩
    · rename_i h2
      split
      · rename_i h3
        refine ⟨(lexer_read_string_facts _ _).1, fun hlen _ => ?_, fun hne => ?_⟩
        · have ha := lexer_advance_position_lt l hlen
          have hm := (lexer_read_string_facts (l.source.length + 1) l).2
          show l.position < (lexer_read_string (l.source.length + 1) l).2.1.position
          omega
        · obtain ⟨he, hterm⟩ := lexer_read_string_fail _ _ hne
          exact ⟨he, Or.inr (Or.inl ⟨h3, hterm⟩)⟩
      · rename_i h3
        split
        · rename_i h4
          refine ⟨(lexer_read_number_facts _ _).1, fun hlen _ => ?_, fun hne => ?_⟩
          · exact lexer_read_number_progress l.source.length l hlen h4
          · exact absurd (lexer_read_number_status (l.source.length + 1) l) hne
        · rename_i h4
          split
          · rename_i h5
            have hh : cIsAlpha (lexer_peek l 0) = true ∨ lexer_peek l 0 = '_' := by
              rcases Bool.or_eq_true_iff.mp h5 with ha | ha
              · exact Or.inl ha
              · exact Or.inr (of_decide_eq_true ha)
            refine ⟨(lexer_read_identifier_facts _ _).1, fun hlen _ => ?_,
              fun hne => ?_⟩
            · exact lexer_read_identifier_progress (l.source.length + 1) l hlen hh
            · exact absurd (lexer_read_identifier_head_ok _ _ hh) hne
          · rename_i h5
            refine ⟨lexer_read_operator_source l,
              fun hlen hs => lexer_read_operator_progress l hlen hs,
              fun hne => ?_⟩
            rcases lexer_read_operator_status l with hok | ⟨he, hnot⟩
            · exact absurd hok hne
            · refine ⟨he, Or.inr (Or.inr ?_)⟩
              intro hor
              rcases hor with h | h | h | h | h | h | h
              · exact absurd h h1
              · exact absurd h h2
              · exact absurd (Or.inl h) h3
              · exact absurd (Or.inr h) h3
              · exact absurd h h4
              · exact absurd (Bool.or_eq_true_iff.mpr (Or.inl h)) h5
              · exact absurd (Bool.or_eq_true_iff.mpr (Or.inr (decide_eq_true h))) h5


/-- Every run of the tokenize loop with fuel exceeding the remaining source
characters ends in one of exactly two ways: the success status with a final
`TOKEN_EOF`, or the syntax error status with a final `TOKEN_ERROR` appended
by the failing iteration, which returns at once. -/
theorem lexer_tokenize_loop_characterization :
    ∀ f : Nat, ∀ (l : Lexer) (acc : List Token),
    l.source.length - l.position < f →
    ((lexer_tokenize_loop f l acc).2.2 = .SUCCESS
      ∧ ((lexer_tokenize_loop f l acc).1.map Token.type).getLast?
          = some .TOKEN_EOF)
    ∨ ((lexer_tokenize_loop f l acc).2.2 = .ERROR_SYNTAX
      ∧ ((lexer_tokenize_loop f l acc).1.map Token.type).getLast?
          = some .TOKEN_ERROR) := by
  intro f
  induction f with
  | zero => intro l acc hf; omega
  | succ f ih =>
      intro l acc hf
      simp only [lexer_tokenize_loop]
      split
      · rename_i hpos
        generalize hL : lexer_skip_whitespace (l.source.length + 1) l = L1
        have hws := lexer_skip_whitespace_facts (l.source.length + 1) l
        rw [hL] at hws
        have hA1 : L1.source.length = l.source.length := by rw [hws.1]
        split
        · rename_i hcom
          have hlt := lexer_position_lt_of_peek L1 '/' hcom.1 (by decide)
          have hprog := lexer_skip_comment_progress L1.source.length L1 hcom hlt
          have hsc := lexer_skip_comment_facts (L1.source.length + 1) L1
          have hA2 : (lexer_skip_comment (L1.source.length + 1) L1).source.length
              = L1.source.length := by rw [hsc.1]
          refine ih _ acc ?_
          omega
        · rename_i hcom
          split
          · rename_i hend
            left
            refine ⟨rfl, ?_⟩
            simp [lexer_create_token]
          · rename_i hend
            have hlt2 : L1.position < L1.source.length := by omega
            split
            · rename_i hg
              have hd := lexer_dispatch_spec L1
              have hA3 : (lexer_dispatch L1).2.1.source.length
                  = L1.source.length := by rw [hd.1]
              split
              · rename_i hs
                have hprog := hd.2.1 hlt2 hs
                refine ih _ _ ?_
                omega
              · rename_i hs
                right
                refine ⟨(hd.2.2 hs).1, ?_⟩
                simp [lexer_create_token]
            · rename_i hg
              have hadv := lexer_advance_position_lt L1 hlt2
              have hA4 : (lexer_advance L1).2.source.length = L1.source.length := by
                rw [lexer_advance_source]
              split
              · rename_i hp
                refine ih _ _ ?_
                omega
              · rename_i hp
                refine ih _ _ ?_
                omega
      · rename_i hpos
        left
        refine ⟨rfl, ?_⟩
        simp [lexer_create_token]


/-- When the head character matches none of the sigil, quote, digit or
identifier arms, the dispatch is the operator reader. -/
theorem lexer_dispatch_op (l : Lexer)
    (h : ¬ (lexer_peek l 0 = '$' ∨ lexer_peek l 0 = '@'
          ∨ lexer_peek l 0 = '"' ∨ lexer_peek l 0 = '\x27'
          ∨ cIsDigit (lexer_peek l 0) = true
          ∨ cIsAlpha (lexer_peek l 0) = true
          ∨ lexer_peek l 0 = '_')) :
    lexer_dispatch l = lexer_read_operator l := by
  simp only [lexer_dispatch]
  rw [if_neg (fun hc => h (Or.inl hc)),
      if_neg (fun hc => h (Or.inr (Or.inl hc))),
      if_neg (fun hc => hc.elim
        (fun h3 => h (Or.inr (Or.inr (Or.inl h3))))
        (fun h4 => h (Or.inr (Or.inr (Or.inr (Or.inl h4)))))),
      if_neg (fun hc => h (Or.inr (Or.inr (Or.inr (Or.inr (Or.inl hc)))))),
      if_neg (fun hc => by
        rcases Bool.or_eq_true_iff.mp hc with ha | ha
        · exact h (Or.inr (Or.inr (Or.inr (Or.inr (Or.inr (Or.inl ha))))))
        · exact h (Or.inr (Or.inr (Or.inr (Or.inr (Or.inr (Or.inr
            (of_decide_eq_true ha))))))))]

/-- C7 (amended): tokenizing either fails with a syntax error or succeeds
with a token sequence whose last token is EOF — in the failing case the
returned token sequence ends in the single `TOKEN_ERROR` appended by the
failing iteration.  The failure characterization is narrower than claimed:
within the loop's recognized alphabet the only failure sources are an
unterminated string (closing quote missing before a bare newline or the end
of input) and a `$` or `@` sigil not followed by a letter or underscore, the
failure status is always the syntax error, and the first error returns at
once — the loop's answer on a failing dispatch is the accumulated tokens
plus one error token, whatever fuel and input remain.  Characters outside
the recognized alphabet are skipped silently by the `default` arm of the
punctuation switch rather than reported.  The concrete conjuncts exhibit
both failure sources and the immediate stop (`$1 VAR x` yields the lone
error token). -/
theorem C7_lexical_failure_characterization :
    (∀ (source filename : String),
      ((lexer_tokenize source filename).2 = .SUCCESS
        ∧ ((lexer_tokenize source filename).1.map Token.type).getLast?
            = some .TOKEN_EOF)
      ∨ ((lexer_tokenize source filename).2 = .ERROR_SYNTAX
        ∧ ((lexer_tokenize source filename).1.map Token.type).getLast?
            = some .TOKEN_ERROR))
    ∧ (∀ l : Lexer,
      (lexer_peek l 0 = '$' ∨ lexer_peek l 0 = '@' ∨ lexer_peek l 0 = '"'
        ∨ lexer_peek l 0 = '\x27' ∨ cIsDigit (lexer_peek l 0) = true
        ∨ cIsAlpha (lexer_peek l 0) = true ∨ lexer_peek l 0 = '_'
        ∨ lexer_peek l 0 = '=' ∨ lexer_peek l 0 = '!' ∨ lexer_peek l 0 = '<'
        ∨ lexer_peek l 0 = '>' ∨ lexer_peek l 0 = '+' ∨ lexer_peek l 0 = '-'
        ∨ lexer_peek l 0 = '*' ∨ lexer_peek l 0 = '/' ∨ lexer_peek l 0 = '%'
        ∨ lexer_peek l 0 = '^') →
      ¬ (lexer_dispatch l).2.2 = .SUCCESS →
      (lexer_dispatch l).2.2 = .ERROR_SYNTAX
      ∧ (((lexer_peek l 0 = '$' ∨ lexer_peek l 0 = '@')
            ∧ ¬ (cIsAlpha (lexer_peek (lexer_advance l).2 0) = true
                  ∨ lexer_peek (lexer_advance l).2 0 = '_'))
          ∨ ((lexer_peek l 0 = '"' ∨ lexer_peek l 0 = '\x27')
              ∧ (lexer_peek (lexer_dispatch l).2.1 0 = '\n'
                  ∨ (lexer_dispatch l).2.1.position
                      ≥ (lexer_dispatch l).2.1.source.length))))
    ∧ (∀ (f : Nat) (l : Lexer) (acc : List Token),
      l.position < l.source.length →
      ¬ (lexer_peek (lexer_skip_whitespace (l.source.length + 1) l) 0 = '/'
          ∧ (lexer_peek (lexer_skip_whitespace (l.source.length + 1) l) 1 = '/'
              ∨ lexer_peek (lexer_skip_whitespace (l.source.length + 1) l) 1
                  = '*')) →
      ¬ (lexer_skip_whitespace (l.source.length + 1) l).position
          ≥ (lexer_skip_whitespace (l.source.length + 1) l).source.length →
      (lexer_peek (lexer_skip_whitespace (l.source.length + 1) l) 0 = '$'
        ∨ lexer_peek (lexer_skip_whitespace (l.source.length + 1) l) 0 = '@'
        ∨ lexer_peek (lexer_skip_whitespace (l.source.length + 1) l) 0 = '"'
        ∨ lexer_peek (lexer_skip_whitespace (l.source.length + 1) l) 0 = '\x27'
        ∨ cIsDigit (lexer_peek (lexer_skip_whitespace (l.source.length + 1) l) 0)
            = true
        ∨ cIsAlpha (lexer_peek (lexer_skip_whitespace (l.source.length + 1) l) 0)
            = true
        ∨ lexer_peek (lexer_skip_whitespace (l.source.length + 1) l) 0 = '_'
        ∨ lexer_peek (lexer_skip_whitespace (l.source.length + 1) l) 0 = '='
        ∨ lexer_peek (lexer_skip_whitespace (l.source.length + 1) l) 0 = '!'
        ∨ lexer_peek (lexer_skip_whitespace (l.source.length + 1) l) 0 = '<'
        ∨ lexer_peek (lexer_skip_whitespace (l.source.length + 1) l) 0 = '>'
        ∨ lexer_peek (lexer_skip_whitespace (l.source.length + 1) l) 0 = '+'
        ∨ lexer_peek (lexer_skip_whitespace (l.source.length + 1) l) 0 = '-'
        ∨ lexer_peek (lexer_skip_whitespace (l.source.length + 1) l) 0 = '*'
        ∨ lexer_peek (lexer_skip_whitespace (l.source.length + 1) l) 0 = '/'
        ∨ lexer_peek (lexer_skip_whitespace (l.source.length + 1) l) 0 = '%'
        ∨ lexer_peek (lexer_skip_whitespace (l.source.length + 1) l) 0 = '^') →
      ¬ (lexer_dispatch (lexer_skip_whitespace (l.source.length + 1) l)).2.2
          = .SUCCESS →
      lexer_tokenize_loop (f + 1) l acc
        = (acc ++ [lexer_create_token
              (lexer_dispatch (lexer_skip_whitespace (l.source.length + 1) l)).2.1
              .TOKEN_ERROR
              (lexer_slice
                (lexer_dispatch
                  (lexer_skip_whitespace (l.source.length + 1) l)).2.1
                (lexer_dispatch
                  (lexer_skip_whitespace (l.source.length + 1) l)).2.1.position
                ((lexer_dispatch
                  (lexer_skip_whitespace (l.source.length + 1) l)).2.1.position
                  + 1))],
            (lexer_dispatch (lexer_skip_whitespace (l.source.length + 1) l)).2.1,
            (lexer_dispatch (lexer_skip_whitespace (l.source.length + 1) l)).2.2))
    ∧ (lexer_tokenize "\"abc" "w").2 = .ERROR_SYNTAX
    ∧ (lexer_tokenize "$1" "w").2 = .ERROR_SYNTAX
    ∧ (lexer_tokenize "$1 VAR x" "w").2 = .ERROR_SYNTAX
    ∧ (lexer_tokenize "$1 VAR x" "w").1.length = 1 := by
  refine ⟨?_, ?_, ?_, rfl, rfl, rfl, rfl⟩
  · intro source filename
    simp only [lexer_tokenize]
    exact lexer_tokenize_loop_characterization (source.data.length + 1)
      { source := source.data, position := 0, line := 1, column := 1,
        filename := filename } []
      (by show source.data.length - 0 < source.data.length + 1; omega)
  · intro l hg hne
    obtain ⟨he, hcases⟩ := (lexer_dispatch_spec l).2.2 hne
    refine ⟨he, ?_⟩
    rcases hcases with h | h | hcat
    · exact Or.inl h
    · exact Or.inr h
    · exfalso
      rw [lexer_dispatch_op l hcat] at hne
      rcases lexer_read_operator_status l with hok | ⟨_, hnot⟩
      · exact hne hok
      · rcases hg with h|h|h|h|h|h|h|h|h|h|h|h|h|h|h|h|h
        · exact hcat (Or.inl h)
        · exact hcat (Or.inr (Or.inl h))
        · exact hcat (Or.inr (Or.inr (Or.inl h)))
        · exact hcat (Or.inr (Or.inr (Or.inr (Or.inl h))))
        · exact hcat (Or.inr (Or.inr (Or.inr (Or.inr (Or.inl h)))))
        · exact hcat (Or.inr (Or.inr (Or.inr (Or.inr (Or.inr (Or.inl h))))))
        · exact hcat (Or.inr (Or.inr (Or.inr (Or.inr (Or.inr (Or.inr h))))))
        · exact hnot (Or.inl h)
        · exact hnot (Or.inr (Or.inl h))
        · exact hnot (Or.inr (Or.inr (Or.inl h)))
        · exact hnot (Or.inr (Or.inr (Or.inr (Or.inl h))))
        · exact hnot (Or.inr (Or.inr (Or.inr (Or.inr (Or.inl h)))))
        · exact hnot (Or.inr (Or.inr (Or.inr (Or.inr (Or.inr (Or.inl h))))))
        · exact hnot (Or.inr (Or.inr (Or.inr (Or.inr (Or.inr (Or.inr
            (Or.inl h)))))))
        · exact hnot (Or.inr (Or.inr (Or.inr (Or.inr (Or.inr (Or.inr (Or.inr
            (Or.inl h))))))))
        · exact hnot (Or.inr (Or.inr (Or.inr (Or.inr (Or.inr (Or.inr (Or.inr
            (Or.inr (Or.inl h)))))))))
        · exact hnot (Or.inr (Or.inr (Or.inr (Or.inr (Or.inr (Or.inr (Or.inr
            (Or.inr (Or.inr h)))))))))
  · intro f l acc h1 h2 h3 h4 h5
    simp only [lexer_tokenize_loop]
    rw [if_pos h1, if_neg h2, if_neg h3, if_pos h4, if_neg h5]

end PCC
